import Mathlib

/-! # Gridly import/export commandlet

A shallow embedding of `Source/GridlyEditor/Private/GridlyImportExportCommandlet.cpp`
(`UGridlyImportExportCommandlet`) and proofs about its CSV codec, its remote record
parser, its download bookkeeping, its task runner and the loop of `Main`.

The commandlet is written against the Unreal Engine core library.  The engine calls it
makes (`FString`, `TArray`, `TMap`, `FFileHelper`, the JSON DOM) are embedded first, each
by the behaviour the engine documents for it; the functions of the commandlet follow,
translated statement by statement.
-/

namespace Gridly

/-! ## Engine strings -/

/-- One character of an engine string. -/
abbrev TCHAR := Char

/-- An `FString`: the sequence of its characters. -/
abbrev FString := List TCHAR

/-- The `TEXT("...")` literal. -/
def TEXT (s : String) : FString := s.toList

/-- Engine `TChar::ToLower`: the engine folds the 26 ASCII capitals only. -/
def ToLower (c : TCHAR) : TCHAR :=
  if 65 ≤ c.toNat ∧ c.toNat ≤ 90 then Char.ofNat (c.toNat + 32) else c

/-- A string with every character case-folded, the form under which the
`ESearchCase::IgnoreCase` operations compare. -/
def FoldCase (s : FString) : FString := s.map ToLower

/-- Engine `FString::operator==`, which the engine defines as
`Equals(Other, ESearchCase::IgnoreCase)`: equality up to ASCII letter case.  It is also
the key comparison of `TMap<FString, _>` and the element comparison of
`TArray<FString>::Remove`. -/
def Equals (a b : FString) : Bool := decide (FoldCase a = FoldCase b)

/-- Engine `FString::StartsWith(Prefix)` with the default `ESearchCase::IgnoreCase`. -/
def StartsWith (s pre : FString) : Bool := (FoldCase pre).isPrefixOf (FoldCase s)

/-- Engine `FString::Find(SubStr)` with the defaults `ESearchCase::IgnoreCase`,
`ESearchDir::FromStart`: the index of the first occurrence, `none` for `INDEX_NONE`.
The commandlet only searches for non-empty literals. -/
def Find : FString → FString → Option Nat
  | [], SubStr => if SubStr = [] then some 0 else none
  | c :: cs, SubStr =>
    if StartsWith (c :: cs) SubStr then some 0 else (Find cs SubStr).map (· + 1)

/-- Engine `FString::Contains(SubStr)`: `Find(SubStr) != INDEX_NONE`, case ignored by default. -/
def Contains (s SubStr : FString) : Bool := (Find s SubStr).isSome

/-- Engine `FString::Split(InS, &Left, &Right)`: cuts at the first occurrence of `InS`;
`none` when the call returns false. -/
def Split (s InS : FString) : Option (FString × FString) :=
  match Find s InS with
  | none => none
  | some InPos => some (s.take InPos, s.drop (InPos + InS.length))

/-- Loop of `FString::Replace`: `Skip` counts the characters of a matched occurrence
that are still to be stepped over. -/
def ReplaceLoop (From To : FString) : Nat → FString → FString
  | _, [] => []
  | Skip + 1, _ :: cs => ReplaceLoop From To Skip cs
  | 0, c :: cs =>
    if StartsWith (c :: cs) From then To ++ ReplaceLoop From To (From.length - 1) cs
    else c :: ReplaceLoop From To 0 cs

/-- Engine `FString::Replace(From, To)` with the default `ESearchCase::IgnoreCase`: every
occurrence of `From`, found left to right without overlap, is replaced by `To`. -/
def Replace (s From To : FString) : FString :=
  if From = [] then s else ReplaceLoop From To 0 s

/-- Engine `FString::TrimQuotes()`: removes one leading `"` and, when the string is longer
than one character, one trailing `"`. -/
def TrimQuotes (s : FString) : FString :=
  let Start := if s.head? = some '"' then 1 else 0
  let Count := s.length - Start - (if 1 < s.length ∧ s.getLast? = some '"' then 1 else 0)
  (s.drop Start).take Count

/-- The pieces of a string between occurrences of the delimiter character. -/
def SplitAt (Delim : TCHAR) : FString → List FString
  | [] => [[]]
  | c :: cs =>
    if c = Delim then [] :: SplitAt Delim cs
    else
      match SplitAt Delim cs with
      | [] => [[c]]
      | f :: fs => (c :: f) :: fs

/-- Engine `FString::ParseIntoArray(OutArray, Delim)` for a one-character delimiter, with the
default `InCullEmpty = true`: the pieces between delimiters, empty pieces dropped. -/
def ParseIntoArray (s : FString) (Delim : TCHAR) : List FString :=
  (SplitAt Delim s).filter (fun f => !f.isEmpty)

/-- Loop of `FFileHelper::LoadFileToStringArray` over the file text: a line ends at
`\r\n`, `\n` or `\r`. `Cur` is the line being read and `bAfterCR` holds right after a
`\r`, whose line feed, if one follows, belongs to the same terminator. Nothing is added
for the end of the text right after a terminator. -/
def LinesLoop : Bool → FString → FString → List FString
  | _, Cur, [] => if Cur = [] then [] else [Cur]
  | bAfterCR, Cur, c :: cs =>
    if c = '\n' then
      if bAfterCR = true then LinesLoop false Cur cs else Cur :: LinesLoop false [] cs
    else if c = '\r' then Cur :: LinesLoop true [] cs
    else LinesLoop false (Cur ++ [c]) cs

/-- Engine `FFileHelper::LoadFileToStringArray` applied to a file holding `Text`. -/
def LoadFileToStringArray (Text : FString) : List FString := LinesLoop false [] Text

/-- Engine `FString::operator/`, that is `FString::PathAppend`: the right side is
appended after a `/`, which is left out when the left side is empty or ends with `/` or
`\`, and when the right side begins with `/`. An empty right side only adds the `/`,
unless the left side is empty or ends with a separator already. -/
def PathAppend (Lhs Rhs : FString) : FString :=
  if Rhs = [] then
    if Lhs ≠ [] ∧ Lhs.getLast? ≠ some '/' ∧ Lhs.getLast? ≠ some '\\' then Lhs ++ ['/']
    else Lhs
  else if Lhs ≠ [] ∧ Lhs.getLast? ≠ some '/' ∧ Lhs.getLast? ≠ some '\\' ∧
      Rhs.head? ≠ some '/' then
    Lhs ++ '/' :: Rhs
  else Lhs ++ Rhs

/-! ## Engine containers -/

/-- A `TMap<FString, V>` that only grows: its pairs in insertion order, which is the
order a range-for visits them in. -/
abbrev TMap (V : Type) := List (FString × V)

/-- Engine `TMap::Find(Key)`: the value stored under a key that compares equal. -/
def TMap.Find {V : Type} : TMap V → FString → Option V
  | [], _ => none
  | (k, v) :: rest, Key => if Equals k Key then some v else TMap.Find rest Key

/-- Engine `TMap::Contains(Key)`. -/
def TMap.Contains {V : Type} (m : TMap V) (Key : FString) : Bool := (m.Find Key).isSome

/-- Engine `TMap::Add(Key, Value)`: a pair whose key compares equal is replaced where it
stands, otherwise the pair is appended. -/
def TMap.Add {V : Type} : TMap V → FString → V → TMap V
  | [], Key, Value => [(Key, Value)]
  | (k, v) :: rest, Key, Value =>
    if Equals k Key then (Key, Value) :: rest else (k, v) :: TMap.Add rest Key Value

/-- The update `Map[Key] = f(Map[Key])` of a value reached through `TMap::operator[]`. -/
def TMap.Modify {V : Type} : TMap V → FString → (V → V) → TMap V
  | [], _, _ => []
  | (k, v) :: rest, Key, f =>
    if Equals k Key then (k, f v) :: rest else (k, v) :: TMap.Modify rest Key f

/-- Engine `TArray<FString>::Remove(Item)`: removes every element that compares equal. -/
def TArrayRemove (a : List FString) (Item : FString) : List FString :=
  a.filter (fun x => !Equals x Item)

/-! ## CSV codec -/

/-- Struct `FGridlySourceRecord` (GridlyImportExportCommandlet.h). -/
structure FGridlySourceRecord where
  RecordId : FString
  SourceText : FString
deriving DecidableEq, Repr

/-- One iteration of the record loop of `ProcessSourceChangesForNamespaces`: the text
appended to `CSVContent` for a record, `Printf("\"%s\",\"%s\"\n", RecordId, Escaped)`. -/
def CSVRecordLine (Record : FGridlySourceRecord) : FString :=
  let EscapedSourceText := Replace Record.SourceText (TEXT "\"") (TEXT "\"\"")
  TEXT "\"" ++ Record.RecordId ++ TEXT "\",\"" ++ EscapedSourceText ++ TEXT "\"\n"

/-- The CSV generation of `ProcessSourceChangesForNamespaces` (lines 773-783). -/
def GenerateCSVContent (Records : List FGridlySourceRecord) : FString :=
  Records.foldl (fun CSVContent Record => CSVContent ++ CSVRecordLine Record)
    (TEXT "Key,SourceString\n")

/-- The character loop of `ParseCSVLine`. `bSkip` is set for the character that the
`i++` of the escaped-quote branch steps over. -/
def ParseCSVLineLoop : FString → Bool → FString → Bool → List FString → List FString
  | [], _, CurrentField, _, OutFields => OutFields ++ [CurrentField]
  | _ :: Rest, true, CurrentField, bInQuotes, OutFields =>
    ParseCSVLineLoop Rest false CurrentField bInQuotes OutFields
  | Char :: Rest, false, CurrentField, bInQuotes, OutFields =>
    if Char = '"' then
      if bInQuotes = true ∧ Rest.head? = some '"' then
        ParseCSVLineLoop Rest true (CurrentField ++ ['"']) bInQuotes OutFields
      else
        ParseCSVLineLoop Rest false CurrentField (!bInQuotes) OutFields
    else if Char = ',' ∧ bInQuotes = false then
      ParseCSVLineLoop Rest false [] bInQuotes (OutFields ++ [CurrentField])
    else
      ParseCSVLineLoop Rest false (CurrentField ++ [Char]) bInQuotes OutFields

/-- Method `UGridlyImportExportCommandlet::ParseCSVLine`. -/
def ParseCSVLine (Line : FString) : List FString :=
  ParseCSVLineLoop Line false [] false []

/-- Body of the data-row loop of `ImportCSVToStringTable` (lines 922-941): what one
line does to `KeyValuePairs`. -/
def ImportCSVRow (KeyValuePairs : TMap FString) (Line : FString) : TMap FString :=
  if Line.isEmpty then KeyValuePairs
  else
    match ParseCSVLine Line with
    | Field0 :: Field1 :: _ =>
      let Key := TrimQuotes Field0
      let Value := TrimQuotes Field1
      if !Key.isEmpty && !Value.isEmpty then KeyValuePairs.Add Key Value else KeyValuePairs
    | _ => KeyValuePairs

/-- The reason for which `ImportCSVToStringTable` returns false before it reaches the
merge: one constructor per `return false` of lines 886-948, in source order. -/
inductive EImportFailure where
  | ReadFailed
  | NoDataRows
  | InvalidHeaderFormat
  | MalformedHeader
  | NoValidPairs
deriving DecidableEq, Repr

/-- The header test of `ImportCSVToStringTable` (lines 900-916) on the first line. -/
def CheckCSVHeader (HeaderLine : FString) : Except EImportFailure Unit :=
  match ParseIntoArray HeaderLine ',' with
  | Field0 :: Field1 :: _ =>
    if !Contains Field0 (TEXT "Key") || !Contains Field1 (TEXT "SourceString") then
      .error .MalformedHeader
    else .ok ()
  | _ => .error .InvalidHeaderFormat

/-- Lines 886-948 of `ImportCSVToStringTable`: from the content of the CSV file
(`none` when the file cannot be read) to the key/value batch `KeyValuePairs`. -/
def BuildKeyValuePairs (File : Option FString) : Except EImportFailure (TMap FString) :=
  match File with
  | none => .error .ReadFailed
  | some Text =>
    match LoadFileToStringArray Text with
    | HeaderLine :: Row :: Rows =>
      match CheckCSVHeader HeaderLine with
      | .error e => .error e
      | .ok () =>
        let KeyValuePairs := (Row :: Rows).foldl ImportCSVRow []
        if KeyValuePairs.length = 0 then .error .NoValidPairs else .ok KeyValuePairs
    | _ => .error .NoDataRows

/-- A call of the key/value merge collaborator
`FGridlyLocalizationServiceProvider::ImportKeyValuePairsToStringTable`. -/
structure FMergeCall where
  Namespace : FString
  KeyValuePairs : TMap FString
deriving DecidableEq, Repr

/-- What `ImportCSVToStringTable` reads from its surroundings: whether the Gridly
provider can be used, and the answer of the merge collaborator to a call. -/
structure FImportEnv where
  bCanUseGridly : Bool
  ImportKeyValuePairsToStringTable : FMergeCall → Bool

/-- Method `UGridlyImportExportCommandlet::ImportCSVToStringTable`: its return value and the
calls it made to the merge collaborator. -/
def ImportCSVToStringTable (Env : FImportEnv) (Namespace : FString) (File : Option FString) :
    Bool × List FMergeCall :=
  match BuildKeyValuePairs File with
  | .error _ => (false, [])
  | .ok KeyValuePairs =>
    if Env.bCanUseGridly then
      let Call : FMergeCall := ⟨Namespace, KeyValuePairs⟩
      (Env.ImportKeyValuePairsToStringTable Call, [Call])
    else (false, [])


/-! ## Engine JSON values -/

/-- A parsed JSON value (`FJsonValue`). A number carries the text `AsString` returns
for it; an object is given by its field lookup, `FJsonObject::Values.Find`. -/
inductive FJsonValue where
  | Null
  | String (Value : FString)
  | Number (Text : FString)
  | Boolean (Value : Bool)
  | Array (Values : List FJsonValue)
  | Object (Values : FString → Option FJsonValue)

/-- An `FJsonObject`, by its field lookup. -/
abbrev FJsonObject := FString → Option FJsonValue

/-- Engine `EJson`, the type tag of a JSON value. -/
inductive EJson where
  | None
  | Null
  | String
  | Number
  | Boolean
  | Array
  | Object
deriving DecidableEq, Repr

/-- Engine `FJsonValue::Type`. -/
def FJsonValue.Type : FJsonValue → EJson
  | .Null => .Null
  | .String _ => .String
  | .Number _ => .Number
  | .Boolean _ => .Boolean
  | .Array _ => .Array
  | .Object _ => .Object

/-- Engine `FJsonValue::IsNull()`. -/
def FJsonValue.IsNull : FJsonValue → Bool
  | .Null => true
  | _ => false

/-- Engine `FJsonValue::TryGetObject`: the object of a value of type Object, `none` (the
call returns false) for a value of another type. -/
def FJsonValue.TryGetObject : FJsonValue → Option FJsonObject
  | .Object Values => some Values
  | _ => none

/-- Engine `FJsonValue::EmptyObject`: the shared object that has no field. -/
def FJsonValue.EmptyObject : FJsonObject := fun _ => none

/-- Engine `FJsonValue::AsObject()`, with `none` for a pointer that is not valid: the
object of a value of type Object and, after an error message, the shared empty object for
a value of any other type. The pointer returned is valid in both cases, so an `IsValid`
test on it never fails. -/
def FJsonValue.AsObject (Value : FJsonValue) : Option FJsonObject :=
  match Value.TryGetObject with
  | some Obj => some Obj
  | none => some FJsonValue.EmptyObject

/-- Engine `FJsonValue::AsString()`: the string of a string, the text of a number,
`true`/`false` for a boolean, and the empty string (after an error message) otherwise. -/
def FJsonValue.AsString : FJsonValue → FString
  | .String Value => Value
  | .Number Text => Text
  | .Boolean Value => if Value then TEXT "true" else TEXT "false"
  | _ => []

/-- Engine `FJsonObject::HasField(FieldName)`. -/
def HasField (Obj : FJsonObject) (FieldName : FString) : Bool := (Obj FieldName).isSome

/-- Engine `FJsonObject::TryGetField(FieldName)`: `none` for the null pointer. -/
def TryGetField (Obj : FJsonObject) (FieldName : FString) : Option FJsonValue := Obj FieldName

/-- Engine `FJsonObject::GetStringField(FieldName)`: the field as a string, the empty string
(after an error message) when the field is missing. -/
def GetStringField (Obj : FJsonObject) (FieldName : FString) : FString :=
  match Obj FieldName with
  | some Value => Value.AsString
  | none => []

/-- The object with the listed fields, for writing examples. -/
def MakeObject (Fields : List (FString × FJsonValue)) : FJsonObject :=
  fun FieldName => (Fields.find? (fun p => decide (p.1 = FieldName))).map (fun p => p.2)

/-! ## Remote record parser -/

/-- The source-column tag computed at lines 653-654 (and 684-685):
`Printf("src_%s", Culture)` with `-` replaced by nothing. -/
def SourceColumnIdOf (CurrentSourceDownloadCulture : FString) : FString :=
  Replace (TEXT "src_" ++ CurrentSourceDownloadCulture) (TEXT "-") (TEXT "")

/-- The loop over `CellsArray` (lines 659-675): `SourceText` is assigned at the first
matching cell, where the loop breaks. -/
def ScanCellsArray (SourceColumnId : FString) (SourceText : FString) :
    List FJsonValue → FString
  | [] => SourceText
  | CellValue :: Rest =>
    if !CellValue.IsNull then
      match CellValue.AsObject with
      | some CellObj =>
        if Equals (GetStringField CellObj (TEXT "columnId")) SourceColumnId then
          GetStringField CellObj (TEXT "value")
        else ScanCellsArray SourceColumnId SourceText Rest
      | none => ScanCellsArray SourceColumnId SourceText Rest
    else ScanCellsArray SourceColumnId SourceText Rest

/-- Lines 640-705 of `OnDownloadSourceChangesFromGridly`: the value of
`SourceRecord.SourceText`, which starts empty, after the `cells` field was looked at. -/
def ReadSourceText (RecordObj : FJsonObject) (CurrentSourceDownloadCulture : FString) :
    FString :=
  if HasField RecordObj (TEXT "cells") then
    match TryGetField RecordObj (TEXT "cells") with
    | some CellsValue =>
      if !CellsValue.IsNull then
        match CellsValue with
        | .Array CellsArray =>
          ScanCellsArray (SourceColumnIdOf CurrentSourceDownloadCulture) [] CellsArray
        | .Object CellsObj =>
          let SourceColumnId := SourceColumnIdOf CurrentSourceDownloadCulture
          if HasField CellsObj SourceColumnId then
            match TryGetField CellsObj SourceColumnId with
            | some CellValue =>
              if !CellValue.IsNull then
                match CellValue.AsObject with
                | some CellObj => GetStringField CellObj (TEXT "value")
                | none => []
              else []
            | none => []
          else []
        | _ => []
      else []
    | none => []
  else []

/-- Lines 707-719: the namespace and the key of a record id. -/
def SplitRecordId (RecordId : FString) : FString × FString :=
  if Contains RecordId (TEXT ",") then
    match Split RecordId (TEXT ",") with
    | some (Left, Right) => (Left, Right)
    | none => (TEXT "Default", RecordId)
  else (TEXT "Default", RecordId)

/-- Lines 729-734: the record is appended to the group of its namespace, which is
created empty when the map does not contain the namespace. -/
def AddToNamespace (NamespaceRecords : TMap (List FGridlySourceRecord)) (Namespace : FString)
    (SourceRecord : FGridlySourceRecord) : TMap (List FGridlySourceRecord) :=
  let WithGroup :=
    if !NamespaceRecords.Contains Namespace then NamespaceRecords.Add Namespace []
    else NamespaceRecords
  WithGroup.Modify Namespace (fun Records => Records ++ [SourceRecord])

/-- What the body of the record loop (lines 635-727) makes of the object of an element:
the namespace and the record `{Key, SourceText}` to append. -/
def ParseRecord (RecordObj : FJsonObject) (CurrentSourceDownloadCulture : FString) :
    FString × FGridlySourceRecord :=
  let RecordId := GetStringField RecordObj (TEXT "id")
  let SourceText := ReadSourceText RecordObj CurrentSourceDownloadCulture
  ((SplitRecordId RecordId).1, ⟨(SplitRecordId RecordId).2, SourceText⟩)

/-- One iteration of the record loop (lines 626-735). The `continue` of line 632 is
taken when the pointer `AsObject()` returns is not valid. -/
def ProcessRecord (CurrentSourceDownloadCulture : FString)
    (NamespaceRecords : TMap (List FGridlySourceRecord)) (RecordValue : FJsonValue) :
    TMap (List FGridlySourceRecord) :=
  match RecordValue.AsObject with
  | none => NamespaceRecords
  | some RecordObj =>
    AddToNamespace NamespaceRecords (ParseRecord RecordObj CurrentSourceDownloadCulture).1
      (ParseRecord RecordObj CurrentSourceDownloadCulture).2

/-- The number of records held by the groups of a map. -/
def TotalRecords (m : TMap (List FGridlySourceRecord)) : Nat :=
  (m.map (fun p => p.2.length)).sum

/-- An HTTP response, by what `FJsonSerializer::Deserialize` makes of its content:
the elements of the array, or `none` when the content does not parse as a JSON array. -/
structure FHttpResponse where
  RecordsArray : Option (List FJsonValue)

/-- Method `UGridlyImportExportCommandlet::OnDownloadSourceChangesFromGridly` up to its last
statement: the `NamespaceRecords` it hands to `ProcessSourceChangesForNamespaces`, or
`none` when it returns before (request failed, no response, unparsable content). -/
def OnDownloadSourceChangesFromGridly (CurrentSourceDownloadCulture : FString)
    (Response : Option FHttpResponse) (bSuccess : Bool) :
    Option (TMap (List FGridlySourceRecord)) :=
  if !bSuccess then none
  else
    match Response with
    | none => none
    | some Resp =>
      match Resp.RecordsArray with
      | none => none
      | some RecordsArray =>
        some (RecordsArray.foldl (ProcessRecord CurrentSourceDownloadCulture) [])

/-! ## Download bookkeeping -/

/-- The members of `UGridlyImportExportCommandlet` that the download callbacks touch. -/
structure FCommandletState where
  CulturesToDownload : List FString
  DownloadedFiles : List FString
deriving DecidableEq, Repr

/-- A completed `FDownloadLocalizationTargetFile` operation: its culture and the
absolute path `ConvertRelativePathToFull(ProjectDir / RelativeOutputFilePathAndName)`. -/
structure FDownloadLocalizationTargetFile where
  InLocale : FString
  AbsoluteFilePathAndName : FString
deriving DecidableEq, Repr

/-- Engine `ELocalizationServiceOperationCommandResult::Type`. -/
inductive ELocalizationServiceOperationCommandResult where
  | Failed
  | Succeeded
deriving DecidableEq, Repr

/-- Method `UGridlyImportExportCommandlet::OnDownloadComplete`. The test on `Result` guards a
log statement only. -/
def OnDownloadComplete (State : FCommandletState)
    (Operation : FDownloadLocalizationTargetFile)
    (_Result : ELocalizationServiceOperationCommandResult) : FCommandletState :=
  { CulturesToDownload := TArrayRemove State.CulturesToDownload Operation.InLocale
    DownloadedFiles := State.DownloadedFiles ++ [Operation.AbsoluteFilePathAndName] }

deriving instance DecidableEq for Except

/-- A string with each double quote doubled. -/
def DoubleQuotes : FString → FString
  | [] => []
  | c :: cs => if c = '"' then '"' :: '"' :: DoubleQuotes cs else c :: DoubleQuotes cs

/-- No character of the string is a line terminator of `LoadFileToStringArray`. -/
def NoLineBreak (s : FString) : Prop := ∀ c ∈ s, c ≠ '\n' ∧ c ≠ '\r'

/-- The line the encoder writes for a record, without its line terminator. -/
def CSVRow (Record : FGridlySourceRecord) : FString :=
  '"' :: Record.RecordId ++ '"' :: ',' :: '"' :: DoubleQuotes Record.SourceText ++ ['"']

/-- The conditions under which a record survives encoding and decoding unchanged: a
non-empty key without double quote, a non-empty value that neither begins nor ends with
a double quote, and no line break in either. -/
def RoundTrips (r : FGridlySourceRecord) : Prop :=
  r.RecordId ≠ [] ∧ '"' ∉ r.RecordId ∧ NoLineBreak r.RecordId ∧
  r.SourceText ≠ [] ∧ r.SourceText.head? ≠ some '"' ∧ r.SourceText.getLast? ≠ some '"' ∧
  NoLineBreak r.SourceText

/-! ## External task runner -/

/-- Engine `LocalizationCommandletExecution::FTask`. -/
structure FTask where
  Name : FString
  ScriptPath : FString
  ShouldUseProjectFile : Bool
deriving DecidableEq, Repr

/-- One turn of the pump loop of `BlockingRunLocCommandletTask`: what `ReadPipe`
returns and what `IsProcRunning` answers. -/
structure FProcPoll where
  PipeString : FString
  bRunning : Bool
deriving DecidableEq, Repr

/-- A started `FLocalizationCommandletProcess`, by what its successive polls observe.
A process whose list ends before a poll finds the pipe empty and the process stopped
is one that never lets the pump loop exit. -/
abbrev FLocalizationCommandletProcess := List FProcPoll

/-- What `BlockingRunLocCommandletTask` does, in order: the launch of a task with the
validity of the process obtained, and the polls of the pump loop. -/
inductive FRunnerEvent where
  | Launch (Task : FTask) (bValid : Bool)
  | Poll (Poll : FProcPoll)
deriving DecidableEq, Repr

/-- The exit test of the pump loop (line 521). -/
def FProcPoll.bDone (p : FProcPoll) : Bool := !p.bRunning && p.PipeString.isEmpty

/-- The pump loop `for (;;)` of lines 509-528 on a process: the polls made, and whether
the loop exits. -/
def PumpProcess : FLocalizationCommandletProcess → List FRunnerEvent × Bool
  | [] => ([], false)
  | p :: Rest =>
    if p.bDone then ([.Poll p], true)
    else ((.Poll p) :: (PumpProcess Rest).1, (PumpProcess Rest).2)

/-- Method `UGridlyImportExportCommandlet::BlockingRunLocCommandletTask`, each task
given with what `FLocalizationCommandletProcess::Execute` returns for it (`none` for an
invalid process): the events in order, and whether the call returns. -/
def BlockingRunLocCommandletTask :
    List (FTask × Option FLocalizationCommandletProcess) → List FRunnerEvent × Bool
  | [] => ([], true)
  | (LocTask, none) :: Rest =>
    ((.Launch LocTask false) :: (BlockingRunLocCommandletTask Rest).1,
      (BlockingRunLocCommandletTask Rest).2)
  | (LocTask, some CommandletProcess) :: Rest =>
    if (PumpProcess CommandletProcess).2 then
      ((.Launch LocTask true) :: (PumpProcess CommandletProcess).1 ++
          (BlockingRunLocCommandletTask Rest).1,
        (BlockingRunLocCommandletTask Rest).2)
    else ((.Launch LocTask true) :: (PumpProcess CommandletProcess).1, false)

/-- The tasks whose launch was attempted, in the order of the attempts. -/
def LaunchedTasks : List FRunnerEvent → List FTask
  | [] => []
  | .Launch Task _ :: Rest => Task :: LaunchedTasks Rest
  | .Poll _ :: Rest => LaunchedTasks Rest

/-- The events of one task that ran to completion: its launch, then, when the process
is valid, polls none of which finds the pipe empty and the process stopped, closed by
one that does. -/
def IsTaskSegment (LocTask : FTask) (bValid : Bool) (Segment : List FRunnerEvent) : Prop :=
  (bValid = false ∧ Segment = [.Launch LocTask false]) ∨
  (bValid = true ∧ ∃ (Busy : List FProcPoll) (Last : FProcPoll),
    (∀ p ∈ Busy, p.bDone = false) ∧ Last.bDone = true ∧
    Segment = (.Launch LocTask true) :: (Busy.map .Poll ++ [.Poll Last]))

/-! ## Localization targets, settings and surroundings -/

/-- Engine `FCultureStatistics`, by the culture name. -/
structure FCultureStatistics where
  CultureName : FString
deriving DecidableEq, Repr

/-- Engine `FLocalizationTargetSettings`, by the members the commandlet reads. The
native culture index is an `int32` and may be `INDEX_NONE`. -/
structure FLocalizationTargetSettings where
  Name : FString
  NativeCultureIndex : Int
  SupportedCulturesStatistics : List FCultureStatistics
deriving DecidableEq, Repr

/-- Engine `ULocalizationTarget`. -/
structure ULocalizationTarget where
  Settings : FLocalizationTargetSettings
  bIsMemberOfEngineTargetSet : Bool
deriving DecidableEq, Repr

/-- Plugin settings `UGridlyGameSettings`, by the members the commandlet reads. -/
structure UGridlyGameSettings where
  ImportApiKey : FString
  ImportFromViewIds : List FString
  bSyncRecords : Bool
deriving DecidableEq, Repr

/-- Engine `TArray::IsValidIndex(Index)`. -/
def IsValidIndex {α : Type} (a : List α) (Index : Int) : Bool :=
  decide (0 ≤ Index) && decide (Index < a.length)

/-- The failures the commandlet logs as errors, by the place that logs them. -/
inductive ECommandletError where
  /-- Line 303, "No native culture found for target". -/
  | MissingNativeCulture
  /-- Line 310, "No supported cultures found for target". -/
  | NoSupportedCultures
  /-- Lines 456 and 461, the Gridly provider cannot be used. -/
  | ProviderUnavailable
  /-- Line 555, "No import API key configured". -/
  | NoImportApiKey
  /-- Line 562, "No import view ID configured". -/
  | NoImportViewId
  /-- Line 603, "Failed to download source changes from Gridly". -/
  | DownloadFailed
  /-- Line 617, "Failed to parse JSON response from Gridly". -/
  | MalformedResponse
  /-- Line 745, "Invalid localization target for source changes processing". -/
  | InvalidTarget
  /-- Line 797, "Failed to write CSV file for namespace". -/
  | WriteFailed
deriving DecidableEq, Repr

/-- What the commandlet does to its surroundings, as far as the properties below speak
of it. -/
inductive FEvent where
  /-- Line 186, `Provider.Execute(DownloadTargetFileOp, ...)` for a target and a culture. -/
  | DownloadRequested (TargetName Culture : FString)
  /-- A call of `BlockingRunLocCommandletTask` with the given tasks. -/
  | RunTasks (Tasks : List FTask)
  /-- Line 258, `GridlyProvider->ExportForTargetToGridly`. -/
  | ExportRequested (TargetName : FString)
  /-- Line 328, the call of `DownloadSourceChangesFromGridlyInternal`. -/
  | DownloadSourceChanges (TargetName NativeCulture : FString)
  /-- Lines 569-581, an HTTP request created and sent. -/
  | HttpRequest (Url ApiKey : FString)
  /-- Line 788, a CSV file written. -/
  | FileSaved (Path Content : FString)
  /-- Line 967, a call of the key/value merge collaborator. -/
  | Merge (Call : FMergeCall)
  /-- An error logged. -/
  | Error (e : ECommandletError)
deriving DecidableEq, Repr

/-- The surroundings of a run: configuration, engine services and the behaviour of the
remote service and of the external processes. Every wait of the commandlet is on one of
them; an answer that never comes is a wait that never ends. -/
structure FEnvironment where
  GameSettings : UGridlyGameSettings
  ProjectSavedDir : FString
  /-- Provider `IsEnabled() && IsAvailable() && GetName() == "Gridly"`. -/
  bCanUseGridly : Bool
  /-- Engine `GetLocalizationTargetByName(FPaths::GetBaseFilename(File), false)`. -/
  TargetOfPoFile : FString → Option ULocalizationTarget
  GetGatherTextConfigPath : ULocalizationTarget → FString
  GetImportTextConfigPath : ULocalizationTarget → FString
  GetWordCountReportConfigPath : ULocalizationTarget → FString
  NormalizeConfigIniPath : FString → FString
  /-- Engine `FLocalizationCommandletProcess::Execute` for a task. -/
  Execute : FTask → Option FLocalizationCommandletProcess
  /-- The completions of the downloads requested for a target, culture and result, by
  the call of `FHttpManager::Tick` that delivers them: the first list is delivered by the
  first tick made after the requests, the second by the next, and so on. -/
  DownloadCompletions :
    ULocalizationTarget → List (List (FString × ELocalizationServiceOperationCommandResult))
  /-- Whether `HasRequestsPending()` ever turns false after the export of a target. -/
  bExportRequestsFinish : ULocalizationTarget → Bool
  /-- The number of turns the wait loop of lines 261-265 makes when it ends. -/
  ExportWaitTicks : ULocalizationTarget → Nat
  /-- Whether `HasDeleteRequestsPending()` ever turns false after the export of a target. -/
  bDeleteRequestsFinish : ULocalizationTarget → Bool
  /-- The number of turns the wait loop of lines 275-279 makes when it ends. -/
  DeleteWaitTicks : ULocalizationTarget → Nat
  /-- The completion of the HTTP request sent to a URL: response and success flag, or
  `none` when the request stays in `Processing`. -/
  HttpCompletion : FString → Option (Option FHttpResponse × Bool)
  /-- The number of turns the wait loop of lines 589-593 makes when the request sent to a
  URL completes. -/
  HttpWaitTicks : FString → Nat
  /-- Whether `FFileHelper::SaveStringToFile` succeeds for a path. -/
  bCanWriteFile : FString → Bool
  /-- Whether two paths name the same file on disk. -/
  bSameFile : FString → FString → Bool
  /-- The answer of the merge collaborator. -/
  ImportKeyValuePairsToStringTable : FMergeCall → Bool

/-- The files on disk: path and content, the last written first. -/
abbrev FFileStore := List (FString × FString)

/-- The content `LoadFileToStringArray` finds at a path: what was last written to the
file the path names, `none` when it cannot read. -/
def FFileStore.Load (Files : FFileStore) (bSameFile : FString → FString → Bool)
    (Path : FString) : Option FString :=
  (Files.find? (fun f => bSameFile f.1 Path)).map (fun f => f.2)

/-- Members `CurrentSourceDownloadTarget` (a weak pointer, `none` when it is not valid)
and `CurrentSourceDownloadCulture` of the commandlet. -/
structure FSourceDownloadState where
  CurrentSourceDownloadTarget : Option ULocalizationTarget
  CurrentSourceDownloadCulture : FString
deriving DecidableEq, Repr

/-- A download completion the HTTP manager has yet to deliver: the operation and its
result, the arguments of `OnDownloadComplete`. -/
abbrev FDownloadCompletion :=
  FDownloadLocalizationTargetFile × ELocalizationServiceOperationCommandResult

/-- The state a run threads through the targets: the members of the commandlet, the
files on disk, and the download completions still in flight, by the coming call of
`FHttpManager::Tick` that delivers them. -/
structure FRunState where
  Downloads : FCommandletState
  Source : FSourceDownloadState
  Files : FFileStore
  InFlight : List (List FDownloadCompletion)
deriving DecidableEq, Repr

/-- A call of `BlockingRunLocCommandletTask` made by the commandlet: the event of the
call, or `none` when the call does not return. -/
def RunTasks (Env : FEnvironment) (Tasks : List FTask) : Option (List FEvent) :=
  if (BlockingRunLocCommandletTask (Tasks.map (fun t => (t, Env.Execute t)))).2 then
    some [.RunTasks Tasks]
  else none

/-! ## Import branch (Main, lines 154-233) -/

/-- The loop of lines 158-165 from index `ItCulture` on: the names of the supported
cultures whose index is not the native culture index. -/
def CulturesLoop (NativeCultureIndex : Int) : Nat → List FCultureStatistics → List FString
  | _, [] => []
  | ItCulture, CultureStats :: Rest =>
    if (ItCulture : Int) ≠ NativeCultureIndex then
      CultureStats.CultureName :: CulturesLoop NativeCultureIndex (ItCulture + 1) Rest
    else CulturesLoop NativeCultureIndex (ItCulture + 1) Rest

/-- The array `Cultures` of the import branch. -/
def CulturesOf (Settings : FLocalizationTargetSettings) : List FString :=
  CulturesLoop Settings.NativeCultureIndex 0 Settings.SupportedCulturesStatistics

/-- Line 168, `CulturesToDownload.Append(Cultures)`. -/
def AppendCultures (State : FCommandletState) (Cultures : List FString) : FCommandletState :=
  { State with CulturesToDownload := State.CulturesToDownload ++ Cultures }

/-- The state after the completion callbacks of the given operations fired, in order. -/
def FireCompletions (State : FCommandletState)
    (Completions : List
      (FDownloadLocalizationTargetFile × ELocalizationServiceOperationCommandResult)) :
    FCommandletState :=
  Completions.foldl (fun S c => OnDownloadComplete S c.1 c.2) State

/-- The test of the wait loop `while (CulturesToDownload.Num())` of line 191 and of the
first half of line 198: true when the loop exits. -/
def bAllDownloadsComplete (State : FCommandletState) : Bool :=
  State.CulturesToDownload.length == 0

/-- The file a download of a culture of a target is written to (lines 177-181,
`ProjectSavedDir() / "Temp" / "Game" / Name / CultureName / Name + ".po"`), as the
absolute path the completion callback computes. -/
def DownloadPath (Env : FEnvironment) (LocTarget : ULocalizationTarget)
    (CultureName : FString) : FString :=
  PathAppend (PathAppend (PathAppend (PathAppend (PathAppend Env.ProjectSavedDir
    (TEXT "Temp")) (TEXT "Game")) LocTarget.Settings.Name) CultureName)
    LocTarget.Settings.Name ++ TEXT ".po"

/-- The completions in flight once downloads were requested: those that were in flight
already and the new ones, each with the tick that delivers it. -/
def MergeTicks : List (List FDownloadCompletion) → List (List FDownloadCompletion) →
    List (List FDownloadCompletion)
  | [], New => New
  | Old :: Later, [] => Old :: Later
  | Old :: Later, New :: LaterNew => (Old ++ New) :: MergeTicks Later LaterNew

/-- One call of `FHttpManager::Tick`: the completion callbacks of the downloads the call
delivers fire, in order. -/
def Tick (State : FRunState) : FRunState :=
  match State.InFlight with
  | [] => State
  | Completions :: Later =>
    { State with
      Downloads := FireCompletions State.Downloads Completions
      InFlight := Later }

/-- A wait loop that makes the given number of turns, each of which calls
`FHttpManager::Tick` once. -/
def TickTimes : Nat → FRunState → FRunState
  | 0, State => State
  | Turns + 1, State => TickTimes Turns (Tick State)

/-- The wait loop of lines 191-195, `while (CulturesToDownload.Num())` with one call of
`FHttpManager::Tick` per turn: the accumulators and the completions still in flight when
the loop exits, or `none` when it never does (nothing more is in flight and a culture
is still pending). -/
def WaitForDownloads : FCommandletState → List (List FDownloadCompletion) →
    Option (FCommandletState × List (List FDownloadCompletion))
  | Downloads, [] => if bAllDownloadsComplete Downloads then some (Downloads, []) else none
  | Downloads, Completions :: Later =>
    if bAllDownloadsComplete Downloads then some (Downloads, Completions :: Later)
    else WaitForDownloads (FireCompletions Downloads Completions) Later

/-- The import-translations task of lines 213-217. -/
def ImportTask (Env : FEnvironment) (Target : ULocalizationTarget) : FTask :=
  ⟨TEXT "Import Translations", Env.NormalizeConfigIniPath (Env.GetImportTextConfigPath Target),
    !Target.bIsMemberOfEngineTargetSet⟩

/-- The word-count-report task of lines 219-223. -/
def ReportTask (Env : FEnvironment) (Target : ULocalizationTarget) : FTask :=
  ⟨TEXT "Generate Reports",
    Env.NormalizeConfigIniPath (Env.GetWordCountReportConfigPath Target),
    !Target.bIsMemberOfEngineTargetSet⟩

/-- The import branch of `Main` for a target (lines 154-233): the state and the events
at its end, or `none` when it has no end (the wait loop of line 191 or the task runner
does not return, or line 211 dereferences a null target). The cleanup of lines 231-232
empties both accumulators; completions the wait loop did not need stay in flight. -/
def ImportBranch (Env : FEnvironment) (State : FRunState)
    (LocTarget : ULocalizationTarget) : Option (FRunState × List FEvent) :=
  let Cultures := CulturesOf LocTarget.Settings
  let Requests := Cultures.map (FEvent.DownloadRequested LocTarget.Settings.Name)
  let Requested := MergeTicks State.InFlight
    ((Env.DownloadCompletions LocTarget).map
      (fun Completions => Completions.map
        (fun c => (⟨c.1, DownloadPath Env LocTarget c.1⟩, c.2))))
  match WaitForDownloads (AppendCultures State.Downloads Cultures) Requested with
  | none => none
  | some (Waited, InFlight) =>
    match Waited.DownloadedFiles with
    | [] => some ({ State with Downloads := ⟨[], []⟩, InFlight := InFlight }, Requests)
    | DlPoFile :: _ =>
      match Env.TargetOfPoFile DlPoFile with
      | none => none
      | some Target =>
        match RunTasks Env [ImportTask Env Target, ReportTask Env Target] with
        | none => none
        | some Ran =>
          some ({ State with Downloads := ⟨[], []⟩, InFlight := InFlight }, Requests ++ Ran)

/-! ## Export branch (Main, lines 235-284) -/

/-- The gather-text task of lines 239-250 and 860-871. -/
def GatherTask (Env : FEnvironment) (LocTarget : ULocalizationTarget) : FTask :=
  ⟨TEXT "Gather Text", Env.NormalizeConfigIniPath (Env.GetGatherTextConfigPath LocTarget),
    !LocTarget.bIsMemberOfEngineTargetSet⟩

/-- The export branch of `Main` for a target (lines 235-284): the state and the events
at its end, or `none` when one of its waits does not end. Its two wait loops call
`FHttpManager::Tick`, which delivers the download completions still in flight. -/
def ExportBranch (Env : FEnvironment) (State : FRunState) (LocTarget : ULocalizationTarget) :
    Option (FRunState × List FEvent) :=
  match RunTasks Env [GatherTask Env LocTarget] with
  | none => none
  | some Ran =>
    if !Env.bExportRequestsFinish LocTarget then none
    else
      let Exported := TickTimes (Env.ExportWaitTicks LocTarget) State
      if Env.GameSettings.bSyncRecords then
        if !Env.bDeleteRequestsFinish LocTarget then none
        else
          some (TickTimes (Env.DeleteWaitTicks LocTarget) Exported,
            Ran ++ [.ExportRequested LocTarget.Settings.Name])
      else some (Exported, Ran ++ [.ExportRequested LocTarget.Settings.Name])

/-! ## Download-source-changes branch -/

/-- The directory of the CSV files of a target (line 753):
`ProjectSavedDir() / "Temp" / "GridlySourceChanges" / TargetName`. -/
def TempDir (Env : FEnvironment) (TargetName : FString) : FString :=
  PathAppend (PathAppend (PathAppend Env.ProjectSavedDir (TEXT "Temp"))
    (TEXT "GridlySourceChanges")) TargetName

/-- The path of the CSV file of a namespace (lines 786 and 810):
`TempDir / Printf("%s.csv", Namespace)`. -/
def CSVFilePath (Env : FEnvironment) (TargetName Namespace : FString) : FString :=
  PathAppend (TempDir Env TargetName) (Namespace ++ TEXT ".csv")

/-- The merge collaborator as `ImportCSVToStringTable` sees it. -/
def ImportEnvOf (Env : FEnvironment) : FImportEnv :=
  ⟨Env.bCanUseGridly, Env.ImportKeyValuePairsToStringTable⟩

/-- The first loop of `ProcessSourceChangesForNamespaces` (lines 764-799): the CSV of
each namespace is generated and written and, when the write succeeded, imported. -/
def GenerateAndImportLoop (Env : FEnvironment) (TargetName : FString) :
    TMap (List FGridlySourceRecord) → FFileStore → FFileStore × List FEvent
  | [], Files => (Files, [])
  | (Namespace, Records) :: Rest, Files =>
    let CSVContent := GenerateCSVContent Records
    let Path := CSVFilePath Env TargetName Namespace
    if Env.bCanWriteFile Path then
      let Saved : FFileStore := (Path, CSVContent) :: Files
      let Imported :=
        ImportCSVToStringTable (ImportEnvOf Env) Namespace (Saved.Load Env.bSameFile Path)
      ((GenerateAndImportLoop Env TargetName Rest Saved).1,
        (.FileSaved Path CSVContent) :: Imported.2.map .Merge ++
          (GenerateAndImportLoop Env TargetName Rest Saved).2)
    else
      ((GenerateAndImportLoop Env TargetName Rest Files).1,
        (.Error .WriteFailed) :: (GenerateAndImportLoop Env TargetName Rest Files).2)

/-- The second loop of `ProcessSourceChangesForNamespaces` (lines 807-824): the CSV
file of every namespace is imported. -/
def ImportLoop (Env : FEnvironment) (TargetName : FString) (Files : FFileStore) :
    TMap (List FGridlySourceRecord) → List FEvent
  | [] => []
  | (Namespace, _) :: Rest =>
    (ImportCSVToStringTable (ImportEnvOf Env) Namespace
        (Files.Load Env.bSameFile (CSVFilePath Env TargetName Namespace))).2.map .Merge ++
      ImportLoop Env TargetName Files Rest

/-- Method `UGridlyImportExportCommandlet::ProcessSourceChangesForNamespaces`: the files and
the events at its end, or `none` when its gather-text task does not return. -/
def ProcessSourceChangesForNamespaces (Env : FEnvironment) (Source : FSourceDownloadState)
    (Files : FFileStore) (NamespaceRecords : TMap (List FGridlySourceRecord)) :
    Option (FFileStore × List FEvent) :=
  match Source.CurrentSourceDownloadTarget with
  | none => some (Files, [.Error .InvalidTarget])
  | some LocalizationTarget =>
    let Generated :=
      GenerateAndImportLoop Env LocalizationTarget.Settings.Name NamespaceRecords Files
    let Imported := ImportLoop Env LocalizationTarget.Settings.Name Generated.1 NamespaceRecords
    match RunTasks Env [GatherTask Env LocalizationTarget] with
    | none => none
    | some Ran => some (Generated.1, Generated.2 ++ Imported ++ Ran)

/-- The calls of the merge collaborator among events, in order. -/
def MergeCalls : List FEvent → List FMergeCall
  | [] => []
  | .Merge Call :: Rest => Call :: MergeCalls Rest
  | _ :: Rest => MergeCalls Rest

/-- The completion handler `OnDownloadSourceChangesFromGridly` as a whole: the early
returns of lines 601-619 with their errors, else `ProcessSourceChangesForNamespaces`. -/
def HandleSourceChangesResponse (Env : FEnvironment) (Source : FSourceDownloadState)
    (Files : FFileStore) (Response : Option FHttpResponse) (bSuccess : Bool) :
    Option (FFileStore × List FEvent) :=
  match OnDownloadSourceChangesFromGridly Source.CurrentSourceDownloadCulture Response
      bSuccess with
  | some NamespaceRecords => ProcessSourceChangesForNamespaces Env Source Files NamespaceRecords
  | none =>
    if !bSuccess || Response.isNone then some (Files, [.Error .DownloadFailed])
    else some (Files, [.Error .MalformedResponse])

/-- Method `UGridlyImportExportCommandlet::DownloadSourceChangesFromGridlyInternal`: the
state and the events at its return, or `none` when it does not return (the request stays
in `Processing`, or the gather-text task of the handler does not return). The wait loop
of lines 589-593 calls `FHttpManager::Tick`, which delivers the response and the download
completions still in flight. -/
def DownloadSourceChangesFromGridlyInternal (Env : FEnvironment) (State : FRunState)
    (LocalizationTarget : ULocalizationTarget) (NativeCulture : FString) :
    Option (FRunState × List FEvent) :=
  let ApiKey := Env.GameSettings.ImportApiKey
  if ApiKey.isEmpty then some (State, [.Error .NoImportApiKey])
  else
    match Env.GameSettings.ImportFromViewIds with
    | [] => some (State, [.Error .NoImportViewId])
    | ViewId :: _ =>
      if ViewId.isEmpty then some (State, [.Error .NoImportViewId])
      else
        let Url := TEXT "https://api.gridly.com/v1/views/" ++ ViewId ++ TEXT "/records"
        let Stored : FSourceDownloadState := ⟨some LocalizationTarget, NativeCulture⟩
        match Env.HttpCompletion Url with
        | none => none
        | some (Response, bSuccess) =>
          match HandleSourceChangesResponse Env Stored State.Files Response bSuccess with
          | none => none
          | some (Files, Events) =>
            some ({ TickTimes (Env.HttpWaitTicks Url) State with
                Source := Stored
                Files := Files },
              (.HttpRequest Url ApiKey) :: Events)

/-- Lines 294-312 of `Main`: the native culture of a target, or the error logged before
`continue`. The test of the index comes first, the test for an empty list second. -/
def ResolveNativeCulture (Settings : FLocalizationTargetSettings) :
    Except ECommandletError FString :=
  if IsValidIndex Settings.SupportedCulturesStatistics Settings.NativeCultureIndex then
    let NativeCulture :=
      ((Settings.SupportedCulturesStatistics.get? Settings.NativeCultureIndex.toNat).map
        (fun CultureStats => CultureStats.CultureName)).getD []
    if Settings.SupportedCulturesStatistics.length = 0 then .error .NoSupportedCultures
    else .ok NativeCulture
  else .error .MissingNativeCulture

/-- The download-source-changes branch of `Main` for a target (lines 289-463): the
state and the events at its end and whether it ended on a `continue`, or `none` when it
has no end. -/
def SourceChangesBranch (Env : FEnvironment) (State : FRunState)
    (LocTarget : ULocalizationTarget) : Option (FRunState × List FEvent × Bool) :=
  match ResolveNativeCulture LocTarget.Settings with
  | .error e => some (State, [.Error e], true)
  | .ok NativeCulture =>
    if Env.bCanUseGridly then
      match DownloadSourceChangesFromGridlyInternal Env State LocTarget NativeCulture with
      | none => none
      | some (Downloaded, Events) =>
        match RunTasks Env [⟨TEXT "Gather Text", Env.GetGatherTextConfigPath LocTarget,
            !LocTarget.bIsMemberOfEngineTargetSet⟩] with
        | none => none
        | some Ran =>
          some (Downloaded,
            (.DownloadSourceChanges LocTarget.Settings.Name NativeCulture) :: Events ++ Ran,
            false)
    else some (State, [.Error .ProviderUnavailable], false)

/-! ## Main -/

/-- What `Main` reads at its start: the parsed command line, the three flags of the
configuration section (false when absent) and the game target set, whose entries may be
null. -/
structure FMainInput where
  ParamVals : TMap FString
  bImportLoc : Bool
  bExportLoc : Bool
  bDownloadSourceChanges : Bool
  LocalizationTargets : List (Option ULocalizationTarget)

/-- The body of the loop of `Main` up to the test of line 467: the state and the events
of the three branches, and whether the body ended on a `continue`. -/
def ProcessTarget (Input : FMainInput) (Env : FEnvironment) (State : FRunState) :
    Option ULocalizationTarget → Option (FRunState × List FEvent × Bool)
  | none => some (State, [], false)
  | some LocTarget =>
    match (if Input.bImportLoc then ImportBranch Env State LocTarget
        else some (State, [])) with
    | none => none
    | some (AfterImport, Imported) =>
      match (if Input.bExportLoc then ExportBranch Env AfterImport LocTarget
          else some (AfterImport, [])) with
      | none => none
      | some (AfterExport, Exported) =>
        if Input.bDownloadSourceChanges then
          match SourceChangesBranch Env AfterExport LocTarget with
          | none => none
          | some (State', Events, bContinue) =>
            some (State', Imported ++ Exported ++ Events, bContinue)
        else some (AfterExport, Imported ++ Exported, false)

/-- The test of line 467: the parameter `ExportAllGameTarget` is present and compares
equal to `false`. -/
def bOnlyFirstTarget (Input : FMainInput) : Bool :=
  match Input.ParamVals.Find (TEXT "ExportAllGameTarget") with
  | some Value => Equals Value (TEXT "false")
  | none => false

/-- The processing of one target by the loop of `Main`: the accumulators when it starts
and when it ends, and what was done in between. -/
structure FTargetPass where
  StateAtStart : FCommandletState
  StateAtEnd : FCommandletState
  Events : List FEvent
deriving DecidableEq, Repr

/-- The loop of `Main` (lines 142-470): the targets processed, in order, or `none` when
the loop has no end. A `continue` skips the test of line 467. -/
def MainLoop (Input : FMainInput) (Env : FEnvironment) :
    List (Option ULocalizationTarget) → FRunState → Option (List FTargetPass)
  | [], _ => some []
  | LocTarget :: Rest, State =>
    match ProcessTarget Input Env State LocTarget with
    | none => none
    | some (State', Events, bContinue) =>
      if !bContinue && bOnlyFirstTarget Input then
        some [⟨State.Downloads, State'.Downloads, Events⟩]
      else
        (MainLoop Input Env Rest State').map
          (fun Passes => ⟨State.Downloads, State'.Downloads, Events⟩ :: Passes)

/-- What a run of `Main` comes to: the value returned and the targets processed. -/
structure FMainResult where
  ExitCode : Int
  Passes : List FTargetPass
deriving DecidableEq, Repr

/-- The commandlet as constructed, empty arrays and no current target, with no download
in flight. -/
def InitialState (Files : FFileStore) : FRunState :=
  ⟨⟨[], []⟩, ⟨none, []⟩, Files, []⟩

/-- Method `UGridlyImportExportCommandlet::Main`, run on a freshly constructed commandlet
with the given files on disk: what the run comes to, or `none` when it does not return.
The loop of lines 62-65 calls `GetName()` on every entry of the target set before any
test is made, so a run over a set with a null entry does not get past line 64. -/
def Main (Input : FMainInput) (Env : FEnvironment) (Files : FFileStore) :
    Option FMainResult :=
  if Input.LocalizationTargets.any (fun LocTarget => LocTarget.isNone) then none
  else if !Env.bCanUseGridly then some ⟨-1, []⟩
  else
    match Input.ParamVals.Find (TEXT "Config") with
    | none => some ⟨-1, []⟩
    | some _ =>
      match Input.ParamVals.Find (TEXT "Section") with
      | none => some ⟨-1, []⟩
      | some _ =>
        if !Input.bImportLoc && !Input.bExportLoc && !Input.bDownloadSourceChanges then
          some ⟨-1, []⟩
        else if Input.LocalizationTargets.length = 0 then some ⟨0, []⟩
        else
          (MainLoop Input Env Input.LocalizationTargets (InitialState Files)).map
            (fun Passes => ⟨0, Passes⟩)

/-! ## Vocabulary of the properties -/

/-- The batch decoded from the CSV generated for the records of a namespace, empty when
the decoding fails. -/
def DecodedBatch (Records : List FGridlySourceRecord) : TMap FString :=
  match BuildKeyValuePairs (some (GenerateCSVContent Records)) with
  | .ok KeyValuePairs => KeyValuePairs
  | .error _ => []

/-- A target for examples: `Game`, with the cultures `en` (native) and `fr`. -/
def SampleTarget : ULocalizationTarget :=
  ⟨⟨TEXT "Game", 0, [⟨TEXT "en"⟩, ⟨TEXT "fr"⟩]⟩, false⟩

/-- An environment for examples: the provider can be used, the API key `key` and the
view `view1` are configured, the records request completes with a failure, every task
fails to launch, every write succeeds, the download of every culture completes with
the given result, one download per tick, each wait loop of the export branch and of the
records request makes one turn, paths name the same file when they are equal, and the
saved directory is `/P/Saved`. -/
def SampleEnvironment (Result : ELocalizationServiceOperationCommandResult) : FEnvironment where
  GameSettings := ⟨TEXT "key", [TEXT "view1"], false⟩
  ProjectSavedDir := TEXT "/P/Saved"
  bCanUseGridly := true
  TargetOfPoFile := fun _ => some SampleTarget
  GetGatherTextConfigPath := fun _ => TEXT "Gather.ini"
  GetImportTextConfigPath := fun _ => TEXT "Import.ini"
  GetWordCountReportConfigPath := fun _ => TEXT "Report.ini"
  NormalizeConfigIniPath := fun Path => Path
  Execute := fun _ => none
  DownloadCompletions := fun LocTarget =>
    (CulturesOf LocTarget.Settings).map (fun c => [(c, Result)])
  bExportRequestsFinish := fun _ => true
  ExportWaitTicks := fun _ => 1
  bDeleteRequestsFinish := fun _ => true
  DeleteWaitTicks := fun _ => 1
  HttpCompletion := fun _ => some (none, false)
  HttpWaitTicks := fun _ => 1
  bCanWriteFile := fun _ => true
  bSameFile := fun a b => decide (a = b)
  ImportKeyValuePairsToStringTable := fun _ => true

/-- A command line for examples: `Config` and `Section` given, and `ExportAllGameTarget`
set to `false` when asked for. -/
def SampleParams (bOnlyFirst : Bool) : TMap FString :=
  if bOnlyFirst then
    [(TEXT "Config", TEXT "Game.ini"), (TEXT "Section", TEXT "Gridly"),
      (TEXT "ExportAllGameTarget", TEXT "false")]
  else [(TEXT "Config", TEXT "Game.ini"), (TEXT "Section", TEXT "Gridly")]

/-- The test a data line passes to reach `KeyValuePairs.Add` in the loop of lines 918-942:
the line is not empty, `ParseCSVLine` gives at least two fields, and the first two are
not empty once `TrimQuotes` has been applied. -/
def bRowAdds (Line : FString) : Bool :=
  !Line.isEmpty &&
    match ParseCSVLine Line with
    | Field0 :: Field1 :: _ => !(TrimQuotes Field0).isEmpty && !(TrimQuotes Field1).isEmpty
    | _ => false

/-- The cultures of the download requests (line 186) among the events of a target, in
the order of the requests. -/
def RequestedCultures : List FEvent → List FString
  | [] => []
  | .DownloadRequested _ Culture :: Rest => Culture :: RequestedCultures Rest
  | _ :: Rest => RequestedCultures Rest

/-- The names of the supported cultures of a target, in the order of the array. -/
def SupportedCultureNames (Settings : FLocalizationTargetSettings) : List FString :=
  Settings.SupportedCulturesStatistics.map (fun CultureStats => CultureStats.CultureName)

/-! ## Proofs: engine strings -/

theorem ToLower_eq_iff (c q : TCHAR) (hq : ¬ (65 ≤ q.toNat ∧ q.toNat ≤ 90))
    (hq2 : ¬ (97 ≤ q.toNat ∧ q.toNat ≤ 122)) :
    ToLower c = ToLower q ↔ c = q := by
  constructor
  · intro h
    have hq' : ToLower q = q := by simp [ToLower, hq]
    rw [hq'] at h
    unfold ToLower at h
    split at h
    · rename_i hc
      exfalso
      obtain ⟨h1, h2⟩ := hc
      generalize c.toNat = n at h h1 h2
      subst h
      apply hq2
      interval_cases n <;> decide
    · exact h
  · rintro rfl; rfl

theorem StartsWith_single (c q : TCHAR) (cs : FString) (hq : ¬ (65 ≤ q.toNat ∧ q.toNat ≤ 90))
    (hq2 : ¬ (97 ≤ q.toNat ∧ q.toNat ≤ 122)) :
    StartsWith (c :: cs) [q] = decide (c = q) := by
  have h := ToLower_eq_iff c q hq hq2
  by_cases hc : c = q
  · subst hc
    simp [StartsWith, FoldCase, List.isPrefixOf]
  · have h2 : ¬ ToLower c = ToLower q := fun e => hc (h.mp e)
    have h3 : ¬ ToLower q = ToLower c := fun e => h2 e.symm
    simp [StartsWith, FoldCase, List.isPrefixOf, hc, h3]

theorem Replace_quote (s : FString) :
    Replace s (TEXT "\"") (TEXT "\"\"") = DoubleQuotes s := by
  have hT : TEXT "\"" = ['"'] := rfl
  have hT2 : TEXT "\"\"" = ['"', '"'] := rfl
  rw [hT, hT2]
  simp only [Replace, List.cons_ne_nil, if_false, reduceCtorEq]
  induction s with
  | nil => rfl
  | cons c cs ih =>
    rw [ReplaceLoop, StartsWith_single c '"' cs (by decide) (by decide)]
    by_cases hc : c = '"'
    · subst hc
      simp only [decide_True, if_true, List.length_singleton, Nat.sub_self, DoubleQuotes]
      rw [ih]; rfl
    · simp only [hc, decide_False, DoubleQuotes, if_false]
      rw [ih]; simp

theorem Replace_hyphen (s : FString) :
    Replace s (TEXT "-") (TEXT "") = s.filter (fun c => decide (c ≠ '-')) := by
  have hT : TEXT "-" = ['-'] := rfl
  have hT2 : TEXT "" = [] := rfl
  rw [hT, hT2]
  simp only [Replace, List.cons_ne_nil, if_false, reduceCtorEq]
  induction s with
  | nil => rfl
  | cons c cs ih =>
    rw [ReplaceLoop, StartsWith_single c '-' cs (by decide) (by decide)]
    by_cases hc : c = '-'
    · subst hc
      simp only [decide_True, if_true, List.length_singleton, Nat.sub_self]
      rw [ih]; simp
    · simp only [hc, decide_False, if_false]
      rw [ih]; simp [hc]


/-! ## Proofs: the field splitter -/

theorem ParseCSVLineLoop_quoted (v : FString) :
    ∀ (Cur Tail : FString) (Out : List FString), Tail.head? ≠ some '"' →
      ParseCSVLineLoop (DoubleQuotes v ++ '"' :: Tail) false Cur true Out =
        ParseCSVLineLoop Tail false (Cur ++ v) false Out := by
  induction v with
  | nil =>
    intro Cur Tail Out hT
    simp [DoubleQuotes, ParseCSVLineLoop, hT]
  | cons c cs ih =>
    intro Cur Tail Out hT
    by_cases hc : c = '"'
    · subst hc
      have h1 : DoubleQuotes ('"' :: cs) ++ '"' :: Tail =
          '"' :: '"' :: (DoubleQuotes cs ++ '"' :: Tail) := by simp [DoubleQuotes]
      rw [h1, ParseCSVLineLoop]
      simp only [List.head?_cons, and_self, if_true]
      rw [ParseCSVLineLoop, ih _ _ _ hT]
      simp
    · have h1 : DoubleQuotes (c :: cs) ++ '"' :: Tail =
          c :: (DoubleQuotes cs ++ '"' :: Tail) := by simp [DoubleQuotes, hc]
      rw [h1, ParseCSVLineLoop]
      simp only [hc, if_false, Bool.true_eq_false, and_false]
      rw [ih _ _ _ hT]
      simp

theorem DoubleQuotes_of_not_mem (k : FString) (hk : '"' ∉ k) : DoubleQuotes k = k := by
  induction k with
  | nil => rfl
  | cons c cs ih =>
    have hc : c ≠ '"' := fun e => hk (by simp [e])
    have hcs : '"' ∉ cs := fun e => hk (by simp [e])
    simp [DoubleQuotes, hc, ih hcs]

/-- The line the encoder writes for a record, without its line terminator. -/
theorem CSVRecordLine_eq (Record : FGridlySourceRecord) :
    CSVRecordLine Record =
      ('"' :: Record.RecordId ++ '"' :: ',' :: '"' :: DoubleQuotes Record.SourceText ++ ['"'])
        ++ ['\n'] := by
  have h1 : TEXT "\"" = ['"'] := rfl
  have h2 : TEXT "\",\"" = ['"', ',', '"'] := rfl
  have h3 : TEXT "\"\n" = ['"', '\n'] := rfl
  simp only [CSVRecordLine, Replace_quote]
  rw [h1, h2, h3]
  simp

theorem ParseCSVLine_encoded (Key Value : FString) (hk : '"' ∉ Key) :
    ParseCSVLine ('"' :: Key ++ '"' :: ',' :: '"' :: DoubleQuotes Value ++ ['"']) =
      [Key, Value] := by
  have e1 : '"' :: Key ++ '"' :: ',' :: '"' :: DoubleQuotes Value ++ ['"'] =
      '"' :: (DoubleQuotes Key ++ '"' :: (',' :: '"' :: (DoubleQuotes Value ++ '"' :: []))) := by
    simp [DoubleQuotes_of_not_mem Key hk]
  rw [e1, ParseCSVLine, ParseCSVLineLoop]
  simp only [if_true, Bool.false_eq_true, false_and, if_false, Bool.not_false]
  rw [ParseCSVLineLoop_quoted Key _ _ _ (by simp)]
  rw [ParseCSVLineLoop]
  simp only [List.nil_append, and_self, if_true]
  have hcq : ¬ (',' : Char) = '"' := by decide
  simp only [hcq, if_false]
  rw [ParseCSVLineLoop]
  simp only [if_true, Bool.false_eq_true, false_and, if_false, Bool.not_false]
  rw [ParseCSVLineLoop_quoted Value _ _ _ (by simp)]
  simp [ParseCSVLineLoop]


/-! ## Proofs: the decoder -/

theorem LinesLoop_line (l : FString) (hl : NoLineBreak l) :
    ∀ (b : Bool) (Cur Rest : FString), (b = true → l ≠ []) →
      LinesLoop b Cur (l ++ '\n' :: Rest) = (Cur ++ l) :: LinesLoop false [] Rest := by
  induction l with
  | nil =>
    intro b Cur Rest hb
    cases b
    · simp [LinesLoop]
    · exact absurd rfl (hb rfl)
  | cons c cs ih =>
    intro b Cur Rest _
    have hc := hl c (by simp)
    have hcs : NoLineBreak cs := fun d hd => hl d (by simp [hd])
    rw [List.cons_append, LinesLoop]
    simp only [hc.1, hc.2, if_false]
    rw [ih hcs false _ _ (by simp)]
    simp

theorem TrimQuotes_id (s : FString) (h1 : s.head? ≠ some '"') (h2 : s.getLast? ≠ some '"') :
    TrimQuotes s = s := by
  simp [TrimQuotes, h1, h2]

theorem TrimQuotes_of_not_mem (k : FString) (hk : '"' ∉ k) : TrimQuotes k = k := by
  apply TrimQuotes_id
  · intro h
    exact hk (List.mem_of_mem_head? h)
  · intro h
    exact hk (List.mem_of_mem_getLast? h)

theorem TMap_Add_fresh {V : Type} (m : TMap V) (Key : FString) (Value : V)
    (h : ∀ p ∈ m, Equals p.1 Key = false) : m.Add Key Value = m ++ [(Key, Value)] := by
  induction m with
  | nil => rfl
  | cons p rest ih =>
    obtain ⟨k, v⟩ := p
    have hk : Equals k Key = false := h (k, v) (by simp)
    have hr : ∀ p ∈ rest, Equals p.1 Key = false := fun p hp => h p (by simp [hp])
    simp [TMap.Add, hk]
    exact ih hr

theorem ImportCSVRow_encoded (m : TMap FString) (Key Value : FString)
    (hk0 : Key ≠ []) (hk : '"' ∉ Key) (hv0 : Value ≠ [])
    (hv1 : Value.head? ≠ some '"') (hv2 : Value.getLast? ≠ some '"') :
    ImportCSVRow m ('"' :: Key ++ '"' :: ',' :: '"' :: DoubleQuotes Value ++ ['"']) =
      m.Add Key Value := by
  unfold ImportCSVRow
  rw [ParseCSVLine_encoded Key Value hk]
  simp [TrimQuotes_of_not_mem Key hk, TrimQuotes_id Value hv1 hv2, hk0, hv0]


theorem NoLineBreak_DoubleQuotes (v : FString) (hv : NoLineBreak v) :
    NoLineBreak (DoubleQuotes v) := by
  induction v with
  | nil => exact hv
  | cons c cs ih =>
    have hc := hv c (by simp)
    have hcs : NoLineBreak cs := fun d hd => hv d (by simp [hd])
    have ih2 := ih hcs
    intro d hd
    by_cases e : c = '"'
    · simp only [DoubleQuotes, e, if_true, List.mem_cons] at hd
      rcases hd with h | h | h
      · subst h; decide
      · subst h; decide
      · exact ih2 d h
    · simp only [DoubleQuotes, e, if_false, List.mem_cons] at hd
      rcases hd with h | h
      · subst h; exact hc
      · exact ih2 d h

theorem NoLineBreak_CSVRow (r : FGridlySourceRecord) (hk : NoLineBreak r.RecordId)
    (hv : NoLineBreak r.SourceText) : NoLineBreak (CSVRow r) := by
  have hv2 := NoLineBreak_DoubleQuotes _ hv
  intro d hd
  simp only [CSVRow, List.mem_cons, List.mem_append, List.mem_singleton, List.cons_append] at hd
  rcases hd with h | (h | h | h | h | h) | h
  · subst h; decide
  · exact hk d h
  · subst h; decide
  · subst h; decide
  · subst h; decide
  · exact hv2 d h
  · rcases h with h | h
    · subst h; decide
    · simp at h

theorem CSVRecordLine_eq_CSVRow (r : FGridlySourceRecord) :
    CSVRecordLine r = CSVRow r ++ ['\n'] := CSVRecordLine_eq r

theorem GenerateCSVContent_foldl (Records : List FGridlySourceRecord) :
    ∀ Init : FString,
      Records.foldl (fun CSVContent Record => CSVContent ++ CSVRecordLine Record) Init =
        Init ++ (Records.map (fun r => CSVRow r ++ ['\n'])).flatten := by
  induction Records with
  | nil => intro Init; simp
  | cons r rs ih =>
    intro Init
    rw [List.foldl_cons, ih, CSVRecordLine_eq_CSVRow]
    simp

theorem LinesLoop_rows (Records : List FGridlySourceRecord)
    (h : ∀ r ∈ Records, NoLineBreak r.RecordId ∧ NoLineBreak r.SourceText) :
    LinesLoop false [] (Records.map (fun r => CSVRow r ++ ['\n'])).flatten =
      Records.map CSVRow := by
  induction Records with
  | nil => simp [LinesLoop]
  | cons r rs ih =>
    have hr := h r (by simp)
    have hrs : ∀ r ∈ rs, NoLineBreak r.RecordId ∧ NoLineBreak r.SourceText :=
      fun x hx => h x (by simp [hx])
    simp only [List.map_cons, List.flatten_cons, List.append_assoc, List.singleton_append]
    rw [LinesLoop_line _ (NoLineBreak_CSVRow r hr.1 hr.2) false _ _ (by simp), ih hrs]
    simp

theorem LoadFileToStringArray_generated (Records : List FGridlySourceRecord)
    (h : ∀ r ∈ Records, NoLineBreak r.RecordId ∧ NoLineBreak r.SourceText) :
    LoadFileToStringArray (GenerateCSVContent Records) =
      TEXT "Key,SourceString" :: Records.map CSVRow := by
  have hh : TEXT "Key,SourceString\n" = TEXT "Key,SourceString" ++ ['\n'] := by decide
  have hn : NoLineBreak (TEXT "Key,SourceString") := by
    intro c hc
    revert c
    decide
  unfold LoadFileToStringArray GenerateCSVContent
  rw [GenerateCSVContent_foldl, hh, List.append_assoc, List.singleton_append,
    LinesLoop_line _ hn false _ _ (by simp), LinesLoop_rows Records h]
  simp

theorem foldl_ImportCSVRow (Records : List FGridlySourceRecord) :
    ∀ m : TMap FString, (∀ r ∈ Records, RoundTrips r) →
      (∀ p ∈ m, ∀ r ∈ Records, Equals p.1 r.RecordId = false) →
      Records.Pairwise (fun a b => Equals a.RecordId b.RecordId = false) →
      (Records.map CSVRow).foldl ImportCSVRow m =
        m ++ Records.map (fun r => (r.RecordId, r.SourceText)) := by
  induction Records with
  | nil => intro m _ _ _; simp
  | cons r rs ih =>
    intro m hrt hm hp
    obtain ⟨hk0, hk, _, hv0, hv1, hv2, _⟩ := hrt r (by simp)
    rw [List.pairwise_cons] at hp
    rw [List.map_cons, List.foldl_cons]
    have e : ImportCSVRow m (CSVRow r) = m.Add r.RecordId r.SourceText :=
      ImportCSVRow_encoded m _ _ hk0 hk hv0 hv1 hv2
    rw [e, TMap_Add_fresh m _ _ (fun p hp2 => hm p hp2 r (by simp))]
    rw [ih _ (fun x hx => hrt x (by simp [hx])) _ hp.2]
    · simp
    · intro p hp2 x hx
      rw [List.mem_append] at hp2
      rcases hp2 with h | h
      · exact hm p h x (by simp [hx])
      · simp only [List.mem_singleton] at h
        subst h
        exact hp.1 x hx


/-! ## The CSV codec: properties C1 to C5 -/

/-- C1 (amended): CSV round trip. For every non-empty list of (key, value) records in
which every key is non-empty and holds no double quote, every value is non-empty and
neither begins nor ends with a double quote, no string holds a line break, and the keys
are pairwise distinct as the batch compares them (`FString` equality, which ignores
ASCII letter case), the batch that `ImportCSVToStringTable` builds from the text
generated by `ProcessSourceChangesForNamespaces` exists and is exactly the same pairs
in the same order. -/
theorem C1_csv_round_trip (Records : List FGridlySourceRecord) (hne : Records ≠ [])
    (hrt : ∀ r ∈ Records, RoundTrips r)
    (hkeys : Records.Pairwise (fun a b => Equals a.RecordId b.RecordId = false)) :
    BuildKeyValuePairs (some (GenerateCSVContent Records)) =
      .ok (Records.map (fun r => (r.RecordId, r.SourceText))) := by
  have hlb : ∀ r ∈ Records, NoLineBreak r.RecordId ∧ NoLineBreak r.SourceText :=
    fun r hr => ⟨(hrt r hr).2.2.1, (hrt r hr).2.2.2.2.2.2⟩
  have hhdr : CheckCSVHeader (TEXT "Key,SourceString") = .ok () := by decide
  simp only [BuildKeyValuePairs]
  rw [LoadFileToStringArray_generated Records hlb]
  cases Records with
  | nil => exact absurd rfl hne
  | cons r rs =>
    simp only [List.map_cons, hhdr]
    have h := foldl_ImportCSVRow (r :: rs) [] hrt (by simp) hkeys
    simp only [List.map_cons, List.nil_append] at h
    rw [h]
    simp

/-- C1, witness: two records, one value with an inner quote and a comma. -/
theorem C1_csv_round_trip_witness :
    BuildKeyValuePairs (some (GenerateCSVContent
        [⟨TEXT "Greeting", TEXT "Hello, \"World\"!"⟩, ⟨TEXT "UI,Bye", TEXT "Bye"⟩])) =
      .ok [(TEXT "Greeting", TEXT "Hello, \"World\"!"), (TEXT "UI,Bye", TEXT "Bye")] :=
  C1_csv_round_trip
    [⟨TEXT "Greeting", TEXT "Hello, \"World\"!"⟩, ⟨TEXT "UI,Bye", TEXT "Bye"⟩]
    (by decide)
    (by
      intro r hr
      simp only [List.mem_cons, List.mem_singleton, List.not_mem_nil, or_false] at hr
      rcases hr with h | h <;> subst h <;>
        refine ⟨by decide, by decide, ?_, by decide, by decide, by decide, ?_⟩ <;>
        intro c <;> revert c <;> decide)
    (by decide)

/-- C1, counterexample: lists whose keys are pairwise distinct and whose strings hold no
line break, and which do not come back. Decoding the text generated for
`[(k1, ""), (k2, "a,b" in quotes)]` loses the record whose value is empty and returns
the other value without its quotes; the text generated for the empty list is rejected
for want of a data row; a record whose key is empty is dropped; and of the two keys
`a`, `A`, equal for the batch's key comparison, only the second pair is kept. -/
theorem C1_round_trip_fails :
    (([TEXT "k1", TEXT "k2"] : List FString).Nodup ∧
      BuildKeyValuePairs (some (GenerateCSVContent
          [⟨TEXT "k1", TEXT ""⟩, ⟨TEXT "k2", TEXT "\"a,b\""⟩])) =
        .ok [(TEXT "k2", TEXT "a,b")]) ∧
    BuildKeyValuePairs (some (GenerateCSVContent [])) = .error .NoDataRows ∧
    (([TEXT "", TEXT "k"] : List FString).Nodup ∧
      BuildKeyValuePairs (some (GenerateCSVContent [⟨TEXT "", TEXT "x"⟩, ⟨TEXT "k", TEXT "y"⟩])) =
        .ok [(TEXT "k", TEXT "y")]) ∧
    (([TEXT "a", TEXT "A"] : List FString).Nodup ∧
      BuildKeyValuePairs (some (GenerateCSVContent [⟨TEXT "a", TEXT "x"⟩, ⟨TEXT "A", TEXT "y"⟩])) =
        .ok [(TEXT "A", TEXT "y")]) := by
  decide

/-- C2: CSV quoting. For the value `"a,b"` (quote, a, comma, b, quote) and any
non-empty key without quotes, the encoder writes the line `"<key>",` followed by the
value field `"""a,b"""`, and the data-row step of `ImportCSVToStringTable` decodes that
line to the pair of the key and the value `a,b`; so does decoding the whole generated
text when the key holds no line break. -/
theorem C2_csv_quoting (Key : FString) (hk0 : Key ≠ []) (hk : '"' ∉ Key) :
    CSVRecordLine ⟨Key, TEXT "\"a,b\""⟩ =
      TEXT "\"" ++ Key ++ TEXT "\"," ++ TEXT "\"\"\"a,b\"\"\"" ++ TEXT "\n" ∧
    ImportCSVRow [] (TEXT "\"" ++ Key ++ TEXT "\"," ++ TEXT "\"\"\"a,b\"\"\"") =
      [(Key, TEXT "a,b")] ∧
    (NoLineBreak Key →
      BuildKeyValuePairs (some (GenerateCSVContent [⟨Key, TEXT "\"a,b\""⟩])) =
        .ok [(Key, TEXT "a,b")]) := by
  have hrow : TEXT "\"" ++ Key ++ TEXT "\"," ++ TEXT "\"\"\"a,b\"\"\"" =
      CSVRow ⟨Key, TEXT "\"a,b\""⟩ := by
    have h1 : TEXT "\"" = ['"'] := rfl
    have h2 : TEXT "\"," = ['"', ','] := rfl
    have h3 : TEXT "\"\"\"a,b\"\"\"" = '"' :: DoubleQuotes (TEXT "\"a,b\"") ++ ['"'] := by
      decide
    rw [h1, h2, h3]
    simp [CSVRow]
  have hdec : ImportCSVRow [] (CSVRow ⟨Key, TEXT "\"a,b\""⟩) = [(Key, TEXT "a,b")] := by
    unfold ImportCSVRow CSVRow
    rw [ParseCSVLine_encoded Key _ hk]
    have ht : TrimQuotes (TEXT "\"a,b\"") = TEXT "a,b" := by decide
    simp only [TrimQuotes_of_not_mem Key hk, ht]
    have hv : (TEXT "a,b").isEmpty = false := by decide
    simp [hk0, hv, TMap.Add]
  refine ⟨?_, ?_, ?_⟩
  · rw [CSVRecordLine_eq_CSVRow, ← hrow]
    rfl
  · rw [hrow]; exact hdec
  · intro hlb
    have hhdr : CheckCSVHeader (TEXT "Key,SourceString") = .ok () := by decide
    have hv : NoLineBreak (TEXT "\"a,b\"") := by
      intro c; revert c; decide
    simp only [BuildKeyValuePairs]
    rw [LoadFileToStringArray_generated _ (by
      intro r hr
      simp only [List.mem_singleton] at hr
      subst hr
      exact ⟨hlb, hv⟩)]
    simp only [List.map_cons, List.map_nil, hhdr, List.foldl_cons, List.foldl_nil, hdec]
    simp

/-- C2, witness: the key `Title`. -/
theorem C2_csv_quoting_witness :
    CSVRecordLine ⟨TEXT "Title", TEXT "\"a,b\""⟩ = TEXT "\"Title\",\"\"\"a,b\"\"\"\n" ∧
    ImportCSVRow [] (TEXT "\"Title\",\"\"\"a,b\"\"\"") = [(TEXT "Title", TEXT "a,b")] :=
  ⟨(C2_csv_quoting (TEXT "Title") (by decide) (by decide)).1,
   (C2_csv_quoting (TEXT "Title") (by decide) (by decide)).2.1⟩


/-- C3 (amended): header validation rejects. For every CSV text whose first line, cut at
its commas with the empty pieces dropped (`ParseIntoArray`), does not have `Key` in its
first field and `SourceString` in its second, letter case ignored (`FString::Contains`),
`ImportCSVToStringTable` returns false whatever the data rows are, builds no batch and
does not invoke the key/value merge collaborator. -/
theorem C3_header_validation_rejects (Env : FImportEnv) (Namespace Text HeaderLine : FString)
    (hfirst : (LoadFileToStringArray Text).head? = some HeaderLine)
    (hbad : ¬ ∃ Field0 Field1 Rest, ParseIntoArray HeaderLine ',' = Field0 :: Field1 :: Rest ∧
      Contains Field0 (TEXT "Key") = true ∧ Contains Field1 (TEXT "SourceString") = true) :
    ImportCSVToStringTable Env Namespace (some Text) = (false, []) ∧
    ∀ KeyValuePairs, BuildKeyValuePairs (some Text) ≠ .ok KeyValuePairs := by
  have hB : ∃ e, BuildKeyValuePairs (some Text) = .error e := by
    simp only [BuildKeyValuePairs]
    match hL : LoadFileToStringArray Text with
    | [] => exact ⟨_, rfl⟩
    | [_] => exact ⟨_, rfl⟩
    | H :: Row :: Rows =>
      rw [hL] at hfirst
      simp only [List.head?_cons, Option.some.injEq] at hfirst
      subst hfirst
      simp only
      match hP : ParseIntoArray H ',' with
      | [] => simp [CheckCSVHeader, hP]
      | [_] => simp [CheckCSVHeader, hP]
      | Field0 :: Field1 :: Rest =>
        have hno : ¬ (Contains Field0 (TEXT "Key") = true ∧
            Contains Field1 (TEXT "SourceString") = true) :=
          fun hc => hbad ⟨Field0, Field1, Rest, hP, hc.1, hc.2⟩
        have hcond : (!Contains Field0 (TEXT "Key") || !Contains Field1 (TEXT "SourceString"))
            = true := by
          cases h0 : Contains Field0 (TEXT "Key") <;>
            cases h1 : Contains Field1 (TEXT "SourceString") <;> simp_all
        simp [CheckCSVHeader, hP, hcond]
  obtain ⟨e, he⟩ := hB
  refine ⟨?_, ?_⟩
  · simp [ImportCSVToStringTable, he]
  · intro KeyValuePairs h
    rw [he] at h
    cases h

/-- C3, witness: the header `Foo,Bar` followed by a well-formed data row. -/
theorem C3_header_validation_rejects_witness :
    ImportCSVToStringTable ⟨true, fun _ => true⟩ (TEXT "UI")
      (some (TEXT "Foo,Bar\n\"a\",\"b\"\n")) = (false, []) :=
  (C3_header_validation_rejects ⟨true, fun _ => true⟩ (TEXT "UI")
    (TEXT "Foo,Bar\n\"a\",\"b\"\n") (TEXT "Foo,Bar") (by decide)
    (by
      have hP : ParseIntoArray (TEXT "Foo,Bar") ',' = [TEXT "Foo", TEXT "Bar"] := by decide
      rintro ⟨Field0, Field1, Rest, h, h0, _⟩
      rw [hP] at h
      simp only [List.cons.injEq] at h
      obtain ⟨rfl, _, _⟩ := h
      revert h0
      decide)).1

/-- C3, counterexample: the first lines `key,sourcestring` and `,Key,SourceString`
hold no `Key` in their first comma-delimited field (`key`, and the empty field), yet
`ImportCSVToStringTable` accepts both, builds the batch of the data row and invokes the
merge collaborator: the header test ignores letter case and skips empty fields. -/
theorem C3_header_accepted :
    (SplitAt ',' (TEXT "key,sourcestring") = [TEXT "key", TEXT "sourcestring"] ∧
      ¬ (TEXT "Key" <:+: TEXT "key") ∧
      ImportCSVToStringTable ⟨true, fun _ => true⟩ (TEXT "UI")
          (some (TEXT "key,sourcestring\n\"a\",\"b\"\n")) =
        (true, [⟨TEXT "UI", [(TEXT "a", TEXT "b")]⟩])) ∧
    (SplitAt ',' (TEXT ",Key,SourceString") = [TEXT "", TEXT "Key", TEXT "SourceString"] ∧
      ¬ (TEXT "Key" <:+: TEXT "") ∧
      ImportCSVToStringTable ⟨true, fun _ => true⟩ (TEXT "UI")
          (some (TEXT ",Key,SourceString\n\"a\",\"b\"\n")) =
        (true, [⟨TEXT "UI", [(TEXT "a", TEXT "b")]⟩])) := by
  decide

/-- C4 (amended): header-only input is rejected. For every CSV text with fewer than two
lines, such as the single header line `Key,SourceString` with zero data rows,
`ImportCSVToStringTable` returns false at its "header + 1 data row" test: no batch is
built and the merge collaborator is not invoked. -/
theorem C4_header_only_rejected (Env : FImportEnv) (Namespace Text : FString)
    (h : (LoadFileToStringArray Text).length < 2) :
    BuildKeyValuePairs (some Text) = .error .NoDataRows ∧
    ImportCSVToStringTable Env Namespace (some Text) = (false, []) := by
  have hB : BuildKeyValuePairs (some Text) = .error .NoDataRows := by
    simp only [BuildKeyValuePairs]
    match hL : LoadFileToStringArray Text with
    | [] => rfl
    | [_] => rfl
    | _ :: _ :: _ => rw [hL] at h; simp only [List.length_cons] at h; omega
  exact ⟨hB, by simp [ImportCSVToStringTable, hB]⟩

/-- C4, witness: the header line `Key,SourceString` with its line terminator. -/
theorem C4_header_only_rejected_witness :
    BuildKeyValuePairs (some (TEXT "Key,SourceString\n")) = .error .NoDataRows ∧
    ImportCSVToStringTable ⟨true, fun _ => true⟩ (TEXT "UI")
      (some (TEXT "Key,SourceString\n")) = (false, []) :=
  C4_header_only_rejected ⟨true, fun _ => true⟩ (TEXT "UI") (TEXT "Key,SourceString\n")
    (by decide)

/-- C4, counterexample: decoding the text that is the single line `Key,SourceString`
does not succeed with the empty list; it fails for want of a data row. -/
theorem C4_header_only_fails :
    BuildKeyValuePairs (some (TEXT "Key,SourceString")) = .error .NoDataRows ∧
    BuildKeyValuePairs (some (TEXT "Key,SourceString")) ≠ .ok [] := by
  decide

/-- C5, the code at the failing input: for the record with key `a"b` and value `v` the
generated text is the header and the line `"a"b","v"`, in which the quote inside the
key is not doubled; the line the claim describes is `"a""b","v"`. The decoder then
splits the written line into the single field `ab,v` and drops the record. -/
theorem C5_key_quote_not_doubled :
    GenerateCSVContent [⟨TEXT "a\"b", TEXT "v"⟩] = TEXT "Key,SourceString\n\"a\"b\",\"v\"\n" ∧
    GenerateCSVContent [⟨TEXT "a\"b", TEXT "v"⟩] ≠
      TEXT "Key,SourceString\n\"a\"\"b\",\"v\"\n" ∧
    ParseCSVLine (TEXT "\"a\"b\",\"v\"") = [TEXT "ab,v"] ∧
    BuildKeyValuePairs (some (GenerateCSVContent [⟨TEXT "a\"b", TEXT "v"⟩])) =
      .error .NoValidPairs := by
  decide

/-! ## Proofs: the record parser -/

theorem Find_comma (s : FString) :
    Find s (TEXT ",") =
      if ',' ∈ s then some (s.takeWhile (fun c => decide (c ≠ ','))).length else none := by
  have hT : TEXT "," = [','] := rfl
  rw [hT]
  induction s with
  | nil => simp [Find]
  | cons c cs ih =>
    rw [Find, StartsWith_single c ',' cs (by decide) (by decide), ih]
    by_cases hc : c = ','
    · subst hc; simp
    · have hc2 : ¬ ',' = c := fun e => hc e.symm
      by_cases hm : ',' ∈ cs
      · simp [hc, hc2, hm]
      · simp [hc, hc2, hm]

theorem take_length_takeWhile (p : TCHAR → Bool) (s : FString) :
    s.take (s.takeWhile p).length = s.takeWhile p := by
  induction s with
  | nil => rfl
  | cons c cs ih =>
    by_cases h : p c
    · simp [List.takeWhile_cons, h, ih]
    · simp [List.takeWhile_cons, h]

theorem drop_length_takeWhile (p : TCHAR → Bool) (s : FString) :
    s.drop (s.takeWhile p).length = s.dropWhile p := by
  induction s with
  | nil => rfl
  | cons c cs ih =>
    by_cases h : p c
    · simp [List.takeWhile_cons, List.dropWhile_cons, h, ih]
    · simp [List.takeWhile_cons, List.dropWhile_cons, h]

theorem SplitRecordId_comma (RecordId : FString) (h : ',' ∈ RecordId) :
    SplitRecordId RecordId =
      (RecordId.takeWhile (fun c => decide (c ≠ ',')),
        (RecordId.dropWhile (fun c => decide (c ≠ ','))).drop 1) := by
  have hT : (TEXT ",").length = 1 := rfl
  simp only [SplitRecordId, Contains, Split, Find_comma, h, if_true, Option.isSome_some, hT]
  rw [take_length_takeWhile, ← List.drop_drop, drop_length_takeWhile]

theorem SplitRecordId_no_comma (RecordId : FString) (h : ',' ∉ RecordId) :
    SplitRecordId RecordId = (TEXT "Default", RecordId) := by
  simp [SplitRecordId, Contains, Find_comma, h]

theorem dropWhile_head_comma (s : FString) (h : ',' ∈ s) :
    s.dropWhile (fun c => decide (c ≠ ',')) =
      ',' :: (s.dropWhile (fun c => decide (c ≠ ','))).drop 1 := by
  induction s with
  | nil => simp at h
  | cons c cs ih =>
    by_cases hc : c = ','
    · subst hc; simp [List.dropWhile_cons]
    · have hm : ',' ∈ cs := by
        rcases List.mem_cons.mp h with e | e
        · exact absurd e.symm hc
        · exact e
      simp only [List.dropWhile_cons, hc, ne_eq, not_false_eq_true, decide_True, if_true]
      exact ih hm

/-- C6: namespace split. For a record id that contains a comma the namespace is the
part before the first comma and the key is everything after that first comma, so that
the namespace, a comma and the key put together give back the id; for an id without a
comma the namespace is `Default` and the key is the id itself. -/
theorem C6_namespace_split (RecordId : FString) :
    (',' ∈ RecordId →
      SplitRecordId RecordId =
        (RecordId.takeWhile (fun c => decide (c ≠ ',')),
          (RecordId.dropWhile (fun c => decide (c ≠ ','))).drop 1) ∧
      ',' ∉ (SplitRecordId RecordId).1 ∧
      (SplitRecordId RecordId).1 ++ TEXT "," ++ (SplitRecordId RecordId).2 = RecordId) ∧
    (',' ∉ RecordId → SplitRecordId RecordId = (TEXT "Default", RecordId)) := by
  refine ⟨fun h => ⟨SplitRecordId_comma RecordId h, ?_, ?_⟩, SplitRecordId_no_comma RecordId⟩
  · rw [SplitRecordId_comma RecordId h]
    intro hm
    have := List.mem_takeWhile_imp hm
    simp at this
  · rw [SplitRecordId_comma RecordId h]
    have hT : TEXT "," = [','] := rfl
    simp only [hT, List.append_assoc, List.singleton_append]
    rw [← dropWhile_head_comma RecordId h, List.takeWhile_append_dropWhile]

/-- C6, witness: the ids `UI,PlayButton`, `Solo` and, with a second comma, `UI,a,b`. -/
theorem C6_namespace_split_witness :
    SplitRecordId (TEXT "UI,PlayButton") = (TEXT "UI", TEXT "PlayButton") ∧
    SplitRecordId (TEXT "Solo") = (TEXT "Default", TEXT "Solo") ∧
    SplitRecordId (TEXT "UI,a,b") = (TEXT "UI", TEXT "a,b") :=
  ⟨(((C6_namespace_split (TEXT "UI,PlayButton")).1 (by decide)).1).trans (by decide),
   (C6_namespace_split (TEXT "Solo")).2 (by decide),
   (((C6_namespace_split (TEXT "UI,a,b")).1 (by decide)).1).trans (by decide)⟩

theorem SourceColumnIdOf_eq (Culture : FString) :
    SourceColumnIdOf Culture = TEXT "src_" ++ Culture.filter (fun c => decide (c ≠ '-')) := by
  have h : (TEXT "src_").filter (fun c => decide (c ≠ '-')) = TEXT "src_" := by decide
  rw [SourceColumnIdOf, Replace_hyphen, List.filter_append, h]

theorem Equals_nil_left (Tag : FString) (hTag : Tag ≠ []) : Equals [] Tag = false := by
  cases Tag with
  | nil => exact absurd rfl hTag
  | cons c cs => simp [Equals, FoldCase]

/-- The scan of the cells array for a non-empty tag: the empty object that `AsObject`
gives for a cell that is not an object has the empty `columnId`, which never equals the
tag, so only the cells that are objects count. -/
theorem ScanCellsArray_eq (Tag : FString) (hTag : Tag ≠ []) (CellsArray : List FJsonValue) :
    ScanCellsArray Tag [] CellsArray =
      (((CellsArray.filterMap FJsonValue.TryGetObject).find?
          (fun CellObj => Equals (GetStringField CellObj (TEXT "columnId")) Tag)).map
        (fun CellObj => GetStringField CellObj (TEXT "value"))).getD [] := by
  have hE : Equals (GetStringField FJsonValue.EmptyObject (TEXT "columnId")) Tag = false := by
    simp only [GetStringField, FJsonValue.EmptyObject]
    exact Equals_nil_left Tag hTag
  induction CellsArray with
  | nil => rfl
  | cons Cell Rest ih =>
    cases Cell with
    | Object Values =>
      by_cases h : Equals (GetStringField Values (TEXT "columnId")) Tag = true
      · simp [ScanCellsArray, FJsonValue.IsNull, FJsonValue.AsObject,
          FJsonValue.TryGetObject, h]
      · simp only [Bool.not_eq_true] at h
        simp [ScanCellsArray, FJsonValue.IsNull, FJsonValue.AsObject,
          FJsonValue.TryGetObject, h, ih]
    | Null => simp [ScanCellsArray, FJsonValue.IsNull, FJsonValue.TryGetObject, ih]
    | String _ =>
      simp [ScanCellsArray, FJsonValue.IsNull, FJsonValue.AsObject,
        FJsonValue.TryGetObject, hE, ih]
    | Number _ =>
      simp [ScanCellsArray, FJsonValue.IsNull, FJsonValue.AsObject,
        FJsonValue.TryGetObject, hE, ih]
    | Boolean _ =>
      simp [ScanCellsArray, FJsonValue.IsNull, FJsonValue.AsObject,
        FJsonValue.TryGetObject, hE, ih]
    | Array _ =>
      simp [ScanCellsArray, FJsonValue.IsNull, FJsonValue.AsObject,
        FJsonValue.TryGetObject, hE, ih]

/-- C7 (amended): cell-array parsing. For every record whose `cells` field is an array
and every native culture, the source-column tag is `src_` followed by the culture with
all hyphens removed, and the parsed source text is the `value` field of the first array
entry that is an object whose `columnId` equals the tag up to ASCII letter case (the
`==` of `FString`); entries after the first match are ignored, and the text is the
empty string when no entry matches. -/
theorem C7_cell_array_source_text (RecordObj : FJsonObject) (CellsArray : List FJsonValue)
    (Culture : FString) (hcells : RecordObj (TEXT "cells") = some (.Array CellsArray)) :
    SourceColumnIdOf Culture = TEXT "src_" ++ Culture.filter (fun c => decide (c ≠ '-')) ∧
    (ParseRecord RecordObj Culture).2.SourceText =
      (((CellsArray.filterMap FJsonValue.TryGetObject).find?
          (fun CellObj => Equals (GetStringField CellObj (TEXT "columnId"))
            (TEXT "src_" ++ Culture.filter (fun c => decide (c ≠ '-'))))).map
        (fun CellObj => GetStringField CellObj (TEXT "value"))).getD [] := by
  refine ⟨SourceColumnIdOf_eq Culture, ?_⟩
  have hTag : SourceColumnIdOf Culture ≠ [] := by
    rw [SourceColumnIdOf_eq]
    exact List.cons_ne_nil _ _
  rw [← SourceColumnIdOf_eq Culture, ← ScanCellsArray_eq _ hTag]
  simp [ParseRecord, ReadSourceText, HasField, TryGetField, hcells, FJsonValue.IsNull]

/-- C7, witness: `cells: [{"columnId":"src_en","value":"Hello"}]` with culture `en`
gives `Hello`; with two matching cells and culture `en-US` the first one is taken. -/
theorem C7_cell_array_source_text_witness :
    (ParseRecord (MakeObject [(TEXT "id", .String (TEXT "UI,PlayButton")),
        (TEXT "cells", .Array [.Object (MakeObject
          [(TEXT "columnId", .String (TEXT "src_en")),
           (TEXT "value", .String (TEXT "Hello"))])])])
      (TEXT "en")).2.SourceText = TEXT "Hello" ∧
    (ParseRecord (MakeObject [(TEXT "id", .String (TEXT "Solo")),
        (TEXT "cells", .Array [.Null,
          .Object (MakeObject [(TEXT "columnId", .String (TEXT "fr")),
            (TEXT "value", .String (TEXT "Bonjour"))]),
          .Object (MakeObject [(TEXT "columnId", .String (TEXT "src_enUS")),
            (TEXT "value", .String (TEXT "First"))]),
          .Object (MakeObject [(TEXT "columnId", .String (TEXT "src_enUS")),
            (TEXT "value", .String (TEXT "Second"))])])])
      (TEXT "en-US")).2.SourceText = TEXT "First" :=
  ⟨((C7_cell_array_source_text _ _ (TEXT "en") (by rfl)).2).trans (by decide),
   ((C7_cell_array_source_text _ _ (TEXT "en-US") (by rfl)).2).trans (by decide)⟩

/-- C7, counterexample: with culture `en` the tag is `src_en`; in the cells
`[{columnId: SRC_EN, value: Upper}, {columnId: src_en, value: Lower}]` the first entry
whose `columnId` is the tag is the second one, yet the parsed source text is `Upper`,
the value of the first entry, whose `columnId` differs from the tag by letter case. -/
theorem C7_column_id_case_ignored :
    SourceColumnIdOf (TEXT "en") = TEXT "src_en" ∧
    TEXT "SRC_EN" ≠ TEXT "src_en" ∧
    (ParseRecord (MakeObject [(TEXT "id", .String (TEXT "UI,PlayButton")),
        (TEXT "cells", .Array [
          .Object (MakeObject [(TEXT "columnId", .String (TEXT "SRC_EN")),
            (TEXT "value", .String (TEXT "Upper"))]),
          .Object (MakeObject [(TEXT "columnId", .String (TEXT "src_en")),
            (TEXT "value", .String (TEXT "Lower"))])])])
      (TEXT "en")).2.SourceText = TEXT "Upper" := by
  decide

/-! ## Proofs: grouping by namespace -/

theorem Equals_iff (a b : FString) : Equals a b = true ↔ FoldCase a = FoldCase b := by
  simp [Equals]

theorem Equals_refl (a : FString) : Equals a a = true := by simp [Equals]

theorem Equals_congr_right (a b c : FString) (h : Equals a b = true) :
    Equals c a = Equals c b := by
  rw [Equals_iff] at h
  simp [Equals, h]

theorem Equals_congr_left (a b c : FString) (h : Equals a b = true) :
    Equals a c = Equals b c := by
  rw [Equals_iff] at h
  simp [Equals, h]

theorem AddToNamespace_nil (Namespace : FString) (r : FGridlySourceRecord) :
    AddToNamespace [] Namespace r = [(Namespace, [r])] := by
  simp [AddToNamespace, TMap.Contains, TMap.Find, TMap.Add, TMap.Modify, Equals_refl]

theorem AddToNamespace_cons (k : FString) (g : List FGridlySourceRecord)
    (rest : TMap (List FGridlySourceRecord)) (Namespace : FString) (r : FGridlySourceRecord) :
    AddToNamespace ((k, g) :: rest) Namespace r =
      if Equals k Namespace then (k, g ++ [r]) :: rest
      else (k, g) :: AddToNamespace rest Namespace r := by
  by_cases h : Equals k Namespace = true
  · simp [AddToNamespace, TMap.Contains, TMap.Find, TMap.Modify, h]
  · simp only [Bool.not_eq_true] at h
    by_cases hc : (TMap.Find rest Namespace).isSome = true
    · simp [AddToNamespace, TMap.Contains, TMap.Find, TMap.Modify, h, hc]
    · simp [AddToNamespace, TMap.Contains, TMap.Find, TMap.Modify, TMap.Add, h, hc]

theorem Find_AddToNamespace (m : TMap (List FGridlySourceRecord)) (Namespace n : FString)
    (r : FGridlySourceRecord) :
    ((AddToNamespace m Namespace r).Find n).getD [] =
      if Equals Namespace n then (m.Find n).getD [] ++ [r] else (m.Find n).getD [] := by
  induction m with
  | nil =>
    rw [AddToNamespace_nil]
    by_cases h : Equals Namespace n = true
    · simp [TMap.Find, h]
    · simp only [Bool.not_eq_true] at h
      simp [TMap.Find, h]
  | cons p rest ih =>
    obtain ⟨k, g⟩ := p
    rw [AddToNamespace_cons]
    by_cases hk : Equals k Namespace = true
    · have e : Equals k n = Equals Namespace n := Equals_congr_left k Namespace n hk
      by_cases hn : Equals Namespace n = true
      · simp [hk, TMap.Find, e, hn]
      · simp only [Bool.not_eq_true] at hn
        simp [hk, TMap.Find, e, hn]
    · simp only [Bool.not_eq_true] at hk
      by_cases hkn : Equals k n = true
      · have e : Equals Namespace n = false := by
          rw [← Equals_congr_right k n Namespace hkn]
          cases hx : Equals Namespace k
          · rfl
          · have := Equals_congr_left Namespace k k hx
            rw [Equals_refl] at this
            have h2 : Equals k Namespace = Equals k k := Equals_congr_right Namespace k k hx
            rw [Equals_refl, hk] at h2
            cases h2
        simp [hk, TMap.Find, hkn, e]
      · simp only [Bool.not_eq_true] at hkn
        simp only [hk, Bool.false_eq_true, if_false, TMap.Find, hkn]
        exact ih

theorem TotalRecords_AddToNamespace (m : TMap (List FGridlySourceRecord)) (Namespace : FString)
    (r : FGridlySourceRecord) :
    TotalRecords (AddToNamespace m Namespace r) = TotalRecords m + 1 := by
  induction m with
  | nil => rw [AddToNamespace_nil]; simp [TotalRecords]
  | cons p rest ih =>
    obtain ⟨k, g⟩ := p
    rw [AddToNamespace_cons]
    by_cases hk : Equals k Namespace = true
    · simp [hk, TotalRecords]; omega
    · simp only [Bool.not_eq_true] at hk
      simp only [TotalRecords] at ih
      simp [hk, TotalRecords, ih]; omega

theorem NonEmpty_AddToNamespace (m : TMap (List FGridlySourceRecord)) (Namespace : FString)
    (r : FGridlySourceRecord) (h : ∀ p ∈ m, p.2 ≠ []) :
    ∀ p ∈ AddToNamespace m Namespace r, p.2 ≠ [] := by
  induction m with
  | nil => rw [AddToNamespace_nil]; simp
  | cons q rest ih =>
    obtain ⟨k, g⟩ := q
    have hrest : ∀ p ∈ rest, p.2 ≠ [] := fun p hp => h p (by simp [hp])
    rw [AddToNamespace_cons]
    by_cases hk : Equals k Namespace = true
    · simp only [hk, if_true]
      intro p hp
      rcases List.mem_cons.mp hp with e | e
      · subst e; simp
      · exact hrest p e
    · simp only [Bool.not_eq_true] at hk
      simp only [hk, Bool.false_eq_true, if_false]
      intro p hp
      rcases List.mem_cons.mp hp with e | e
      · subst e; exact h (k, g) (by simp)
      · exact ih hrest p e

/-! ## The record loop: properties C8 to C10 -/

/-- C8: tolerant cells handling. For every record object whose `cells` field is absent,
is null, or is neither an array nor an object, the parser leaves the source text empty,
and the record loop still appends the record, with the empty source text, at the end of
the group of its namespace. -/
theorem C8_tolerant_cells (RecordObj : FJsonObject) (Culture : FString)
    (NamespaceRecords : TMap (List FGridlySourceRecord))
    (hcells : ∀ CellsValue, RecordObj (TEXT "cells") = some CellsValue →
      CellsValue.IsNull = true ∨ (CellsValue.Type ≠ .Array ∧ CellsValue.Type ≠ .Object)) :
    (ParseRecord RecordObj Culture).2.SourceText = [] ∧
    ProcessRecord Culture NamespaceRecords (.Object RecordObj) =
      AddToNamespace NamespaceRecords (SplitRecordId (GetStringField RecordObj (TEXT "id"))).1
        ⟨(SplitRecordId (GetStringField RecordObj (TEXT "id"))).2, []⟩ ∧
    ((ProcessRecord Culture NamespaceRecords (.Object RecordObj)).Find
        (SplitRecordId (GetStringField RecordObj (TEXT "id"))).1).getD [] =
      (NamespaceRecords.Find (SplitRecordId (GetStringField RecordObj (TEXT "id"))).1).getD []
        ++ [⟨(SplitRecordId (GetStringField RecordObj (TEXT "id"))).2, []⟩] := by
  have hText : ReadSourceText RecordObj Culture = [] := by
    unfold ReadSourceText HasField TryGetField
    cases hv : RecordObj (TEXT "cells") with
    | none => simp
    | some v =>
      rcases hcells v hv with h | h
      · cases v <;> simp_all [FJsonValue.IsNull]
      · cases v <;> simp_all [FJsonValue.IsNull, FJsonValue.Type]
  have hProc : ProcessRecord Culture NamespaceRecords (.Object RecordObj) =
      AddToNamespace NamespaceRecords (SplitRecordId (GetStringField RecordObj (TEXT "id"))).1
        ⟨(SplitRecordId (GetStringField RecordObj (TEXT "id"))).2, []⟩ := by
    simp [ProcessRecord, FJsonValue.AsObject, FJsonValue.TryGetObject, ParseRecord, hText]
  refine ⟨by simp [ParseRecord, hText], hProc, ?_⟩
  rw [hProc, Find_AddToNamespace]
  simp [Equals_refl]

/-- C8, witness: the record `{"id":"UI,Title","cells":"n/a"}`, whose `cells` field is
a string, arriving when the group `UI` already holds a record. -/
theorem C8_tolerant_cells_witness :
    ProcessRecord (TEXT "en") [(TEXT "UI", [⟨TEXT "PlayButton", TEXT "Play"⟩])]
      (.Object (MakeObject [(TEXT "id", .String (TEXT "UI,Title")),
        (TEXT "cells", .String (TEXT "n/a"))])) =
      [(TEXT "UI", [⟨TEXT "PlayButton", TEXT "Play"⟩, ⟨TEXT "Title", []⟩])] :=
  ((C8_tolerant_cells
      (MakeObject [(TEXT "id", .String (TEXT "UI,Title")), (TEXT "cells", .String (TEXT "n/a"))])
      (TEXT "en") [(TEXT "UI", [⟨TEXT "PlayButton", TEXT "Play"⟩])]
      (by
        intro CellsValue h
        have e : MakeObject [(TEXT "id", .String (TEXT "UI,Title")),
            (TEXT "cells", .String (TEXT "n/a"))] (TEXT "cells") =
            some (.String (TEXT "n/a")) := by rfl
        rw [e] at h
        cases h
        exact Or.inr ⟨by decide, by decide⟩)).2.1).trans (by decide)

theorem foldl_ProcessRecord (Culture : FString) (RecordsArray : List FJsonValue) :
    ∀ m : TMap (List FGridlySourceRecord),
      RecordsArray.foldl (ProcessRecord Culture) m =
        (RecordsArray.map
          (fun RecordValue =>
            ParseRecord (RecordValue.TryGetObject.getD FJsonValue.EmptyObject) Culture)).foldl
          (fun acc p => AddToNamespace acc p.1 p.2) m := by
  induction RecordsArray with
  | nil => intro m; rfl
  | cons v rest ih =>
    intro m
    rw [List.foldl_cons, ih]
    cases h : v.TryGetObject with
    | none => simp [ProcessRecord, FJsonValue.AsObject, h]
    | some o => simp [ProcessRecord, FJsonValue.AsObject, h]

theorem foldl_AddToNamespace (ps : List (FString × FGridlySourceRecord)) :
    ∀ m : TMap (List FGridlySourceRecord),
      (∀ n, ((ps.foldl (fun acc p => AddToNamespace acc p.1 p.2) m).Find n).getD [] =
        (m.Find n).getD [] ++ ((ps.filter (fun p => Equals p.1 n)).map (fun p => p.2))) ∧
      TotalRecords (ps.foldl (fun acc p => AddToNamespace acc p.1 p.2) m) =
        TotalRecords m + ps.length ∧
      ((∀ q ∈ m, q.2 ≠ []) →
        ∀ q ∈ ps.foldl (fun acc p => AddToNamespace acc p.1 p.2) m, q.2 ≠ []) := by
  induction ps with
  | nil => intro m; simp
  | cons p rest ih =>
    intro m
    obtain ⟨h1, h2, h3⟩ := ih (AddToNamespace m p.1 p.2)
    refine ⟨?_, ?_, ?_⟩
    · intro n
      rw [List.foldl_cons, h1 n, Find_AddToNamespace]
      by_cases e : Equals p.1 n = true
      · simp [e, List.filter_cons]
      · simp only [Bool.not_eq_true] at e
        simp [e, List.filter_cons]
    · rw [List.foldl_cons, h2, TotalRecords_AddToNamespace, List.length_cons]
      omega
    · intro hm
      rw [List.foldl_cons]
      exact h3 (NonEmpty_AddToNamespace m p.1 p.2 hm)

/-- What the record loop builds for every response that parses as a JSON array: each
element, object or not, gives one record, parsed from its object or, for an element that
is not an object, from the empty object; the group found for a namespace `n` is the
sequence, in input order, of the records whose namespace equals `n` up to ASCII letter
case; the number of grouped records is the number of elements, and no group is empty. -/
theorem RecordLoop_groups_every_element (Culture : FString) (RecordsArray : List FJsonValue) :
    ∃ NamespaceRecords,
      OnDownloadSourceChangesFromGridly Culture (some ⟨some RecordsArray⟩) true =
        some NamespaceRecords ∧
      (∀ n, (NamespaceRecords.Find n).getD [] =
        (((RecordsArray.map
          (fun RecordValue =>
            ParseRecord (RecordValue.TryGetObject.getD FJsonValue.EmptyObject) Culture)).filter
            (fun p => Equals p.1 n)).map (fun p => p.2))) ∧
      TotalRecords NamespaceRecords = RecordsArray.length ∧
      (∀ q ∈ NamespaceRecords, q.2 ≠ []) := by
  refine ⟨RecordsArray.foldl (ProcessRecord Culture) [], by
    simp [OnDownloadSourceChangesFromGridly], ?_⟩
  rw [foldl_ProcessRecord]
  obtain ⟨h1, h2, h3⟩ := foldl_AddToNamespace
    (RecordsArray.map
      (fun RecordValue =>
        ParseRecord (RecordValue.TryGetObject.getD FJsonValue.EmptyObject) Culture)) []
  refine ⟨?_, ?_, h3 (by simp)⟩
  · intro n
    rw [h1 n]
    simp [TMap.Find]
  · rw [h2]
    simp [TotalRecords]

/-- The code at the failing input of C9: the response `["x", {"id":"UI,a"}, 5, null]`,
one object among four elements. `AsObject()` returns the valid empty object for each of
the three other elements, the test of line 629 does not skip them, and each gives the
record with the empty key and the empty text in the group `Default`: the parser builds
four records, three of them from elements that are not objects. -/
theorem C9_non_object_elements_grouped :
    ([FJsonValue.String (TEXT "x"),
        .Object (MakeObject [(TEXT "id", .String (TEXT "UI,a"))]),
        .Number (TEXT "5"), .Null].filterMap FJsonValue.TryGetObject).length = 1 ∧
    ProcessRecord (TEXT "en") [] (.String (TEXT "x")) = [(TEXT "Default", [⟨[], []⟩])] ∧
    OnDownloadSourceChangesFromGridly (TEXT "en")
        (some ⟨some [.String (TEXT "x"),
          .Object (MakeObject [(TEXT "id", .String (TEXT "UI,a"))]),
          .Number (TEXT "5"), .Null]⟩) true =
      some [(TEXT "Default", [⟨[], []⟩, ⟨[], []⟩, ⟨[], []⟩]), (TEXT "UI", [⟨TEXT "a", []⟩])] ∧
    TotalRecords [(TEXT "Default", [⟨[], []⟩, ⟨[], []⟩, ⟨[], []⟩]),
      (TEXT "UI", [⟨TEXT "a", []⟩])] = 4 := by
  decide

/-- The groups are keyed up to letter case: the ids `UI,a` and `ui,b` split to
the namespaces `UI` and `ui`, and the parser builds the single group `UI` holding both
records, found for `ui` as well. -/
theorem Namespaces_merged_by_case :
    (SplitRecordId (TEXT "UI,a")).1 = TEXT "UI" ∧
    (SplitRecordId (TEXT "ui,b")).1 = TEXT "ui" ∧
    TEXT "UI" ≠ TEXT "ui" ∧
    OnDownloadSourceChangesFromGridly (TEXT "en")
        (some ⟨some [.Object (MakeObject [(TEXT "id", .String (TEXT "UI,a"))]),
          .Object (MakeObject [(TEXT "id", .String (TEXT "ui,b"))])]⟩) true =
      some [(TEXT "UI", [⟨TEXT "a", []⟩, ⟨TEXT "b", []⟩])] ∧
    TMap.Find [(TEXT "UI", [(⟨TEXT "a", []⟩ : FGridlySourceRecord), ⟨TEXT "b", []⟩])]
        (TEXT "ui") =
      some [⟨TEXT "a", []⟩, ⟨TEXT "b", []⟩] := by
  decide

/-- The code at the failing input of C10: for the pending list `[fr]` and a download of
`fr` that completed with `Failed`, `OnDownloadComplete` removes `fr` from
`CulturesToDownload` and adds the path of the file that was not downloaded to
`DownloadedFiles`, exactly as it does for `Succeeded`. -/
theorem C10_failed_download_is_recorded :
    OnDownloadComplete ⟨[TEXT "fr"], []⟩ ⟨TEXT "fr", TEXT "/Proj/Saved/Temp/Game/Game/fr/Game.po"⟩
        .Failed =
      ⟨[], [TEXT "/Proj/Saved/Temp/Game/Game/fr/Game.po"]⟩ ∧
    (OnDownloadComplete ⟨[TEXT "fr"], []⟩
        ⟨TEXT "fr", TEXT "/Proj/Saved/Temp/Game/Game/fr/Game.po"⟩ .Failed).DownloadedFiles ≠ [] ∧
    OnDownloadComplete ⟨[TEXT "fr"], []⟩ ⟨TEXT "fr", TEXT "/Proj/Saved/Temp/Game/Game/fr/Game.po"⟩
        .Failed =
      OnDownloadComplete ⟨[TEXT "fr"], []⟩
        ⟨TEXT "fr", TEXT "/Proj/Saved/Temp/Game/Game/fr/Game.po"⟩ .Succeeded := by
  decide


/-! ## Proofs: download bookkeeping -/

theorem FireCompletions_pending
    (Completions : List
      (FDownloadLocalizationTargetFile × ELocalizationServiceOperationCommandResult)) :
    ∀ State : FCommandletState,
      (FireCompletions State Completions).CulturesToDownload =
        State.CulturesToDownload.filter
          (fun x => Completions.all (fun c => !Equals x c.1.InLocale)) := by
  induction Completions with
  | nil => intro State; simp [FireCompletions]
  | cons c rest ih =>
    intro State
    have h := ih (OnDownloadComplete State c.1 c.2)
    simp only [FireCompletions, List.foldl_cons] at h ⊢
    rw [h]
    simp only [OnDownloadComplete, TArrayRemove, List.filter_filter, List.all_cons]
    congr 1
    funext x
    exact Bool.and_comm _ _

theorem FireCompletions_all_answered
    (Completions : List
      (FDownloadLocalizationTargetFile × ELocalizationServiceOperationCommandResult))
    (State : FCommandletState)
    (h : ∀ x ∈ State.CulturesToDownload, ∃ c ∈ Completions, c.1.InLocale = x) :
    (FireCompletions State Completions).CulturesToDownload = [] := by
  rw [FireCompletions_pending, List.filter_eq_nil_iff]
  intro x hx
  obtain ⟨c, hc, e⟩ := h x hx
  simp only [List.all_eq_true, Bool.not_eq_true', not_forall, Bool.not_eq_false]
  exact ⟨c, hc, by rw [e]; exact Equals_refl x⟩

/-- C11: download coordinator termination. For every list of requested cultures
(duplicates allowed) appended to the empty pending list, once the completion callback
has fired once for each requested culture, in any order and with any results,
`CulturesToDownload` is empty and the test of the wait loop of the import branch lets
the loop exit. -/
theorem C11_download_coordinator_termination (Cultures DownloadedFiles : List FString)
    (Completions : List
      (FDownloadLocalizationTargetFile × ELocalizationServiceOperationCommandResult))
    (hfired : (Completions.map (fun c => c.1.InLocale)).Perm Cultures) :
    (FireCompletions (AppendCultures ⟨[], DownloadedFiles⟩ Cultures)
      Completions).CulturesToDownload = [] ∧
    bAllDownloadsComplete
      (FireCompletions (AppendCultures ⟨[], DownloadedFiles⟩ Cultures) Completions) = true := by
  have h : (FireCompletions (AppendCultures ⟨[], DownloadedFiles⟩ Cultures)
      Completions).CulturesToDownload = [] := by
    apply FireCompletions_all_answered
    intro x hx
    simp only [AppendCultures, List.nil_append] at hx
    have hx' := (hfired.mem_iff).mpr hx
    simp only [List.mem_map] at hx'
    obtain ⟨c, hc, e⟩ := hx'
    exact ⟨c, hc, e⟩
  exact ⟨h, by simp [bAllDownloadsComplete, h]⟩

/-- C11, witness: the cultures `fr`, `de`, `fr` requested, and the callbacks fired for
`de` (failed), `fr` (succeeded) and `fr` (failed). -/
theorem C11_download_coordinator_termination_witness :
    (FireCompletions (AppendCultures ⟨[], []⟩ [TEXT "fr", TEXT "de", TEXT "fr"])
      [(⟨TEXT "de", TEXT "/S/de/Game.po"⟩, .Failed), (⟨TEXT "fr", TEXT "/S/fr/Game.po"⟩, .Succeeded),
       (⟨TEXT "fr", TEXT "/S/fr/Game.po"⟩, .Failed)]).CulturesToDownload = [] :=
  (C11_download_coordinator_termination [TEXT "fr", TEXT "de", TEXT "fr"] []
    [(⟨TEXT "de", TEXT "/S/de/Game.po"⟩, .Failed), (⟨TEXT "fr", TEXT "/S/fr/Game.po"⟩, .Succeeded),
     (⟨TEXT "fr", TEXT "/S/fr/Game.po"⟩, .Failed)]
    (by decide)).1

/-! ## Proofs: the task runner -/

theorem PumpProcess_returns (Process : FLocalizationCommandletProcess)
    (h : (PumpProcess Process).2 = true) :
    ∃ (Busy : List FProcPoll) (Last : FProcPoll),
      (∀ p ∈ Busy, p.bDone = false) ∧ Last.bDone = true ∧
      (PumpProcess Process).1 = Busy.map .Poll ++ [.Poll Last] := by
  induction Process with
  | nil => simp [PumpProcess] at h
  | cons p Rest ih =>
    by_cases hp : p.bDone = true
    · exact ⟨[], p, by simp, hp, by simp [PumpProcess, hp]⟩
    · simp only [Bool.not_eq_true] at hp
      simp only [PumpProcess, hp, Bool.false_eq_true, if_false] at h ⊢
      obtain ⟨Busy, Last, hB, hL, hE⟩ := ih h
      refine ⟨p :: Busy, Last, ?_, hL, by simp [hE]⟩
      intro q hq
      rcases List.mem_cons.mp hq with e | e
      · subst e; exact hp
      · exact hB q e

theorem PumpProcess_stalls (Process : FLocalizationCommandletProcess)
    (h : (PumpProcess Process).2 = false) :
    (∀ p ∈ Process, p.bDone = false) ∧ (PumpProcess Process).1 = Process.map .Poll := by
  induction Process with
  | nil => simp [PumpProcess]
  | cons p Rest ih =>
    by_cases hp : p.bDone = true
    · simp [PumpProcess, hp] at h
    · simp only [Bool.not_eq_true] at hp
      simp only [PumpProcess, hp, Bool.false_eq_true, if_false] at h ⊢
      obtain ⟨hB, hE⟩ := ih h
      refine ⟨?_, by simp [hE]⟩
      intro q hq
      rcases List.mem_cons.mp hq with e | e
      · subst e; exact hp
      · exact hB q e

theorem PumpProcess_done (Process : FLocalizationCommandletProcess)
    (h : ∃ p ∈ Process, p.bDone = true) : (PumpProcess Process).2 = true := by
  cases hr : (PumpProcess Process).2 with
  | true => rfl
  | false =>
    obtain ⟨p, hp, hd⟩ := h
    have := (PumpProcess_stalls Process hr).1 p hp
    rw [hd] at this
    cases this

theorem LaunchedTasks_append (a b : List FRunnerEvent) :
    LaunchedTasks (a ++ b) = LaunchedTasks a ++ LaunchedTasks b := by
  induction a with
  | nil => rfl
  | cons e rest ih => cases e <;> simp [LaunchedTasks, ih]

theorem LaunchedTasks_polls (Polls : List FProcPoll) :
    LaunchedTasks (Polls.map .Poll) = [] := by
  induction Polls with
  | nil => rfl
  | cons p rest ih => simp [LaunchedTasks, ih]

theorem LaunchedTasks_PumpProcess (Process : FLocalizationCommandletProcess) :
    LaunchedTasks (PumpProcess Process).1 = [] := by
  induction Process with
  | nil => rfl
  | cons p Rest ih =>
    by_cases hp : p.bDone = true
    · simp [PumpProcess, hp, LaunchedTasks]
    · simp [PumpProcess, hp, LaunchedTasks, ih]

theorem BlockingRun_launches (Tasks : List (FTask × Option FLocalizationCommandletProcess)) :
    LaunchedTasks (BlockingRunLocCommandletTask Tasks).1 <+: Tasks.map (fun t => t.1) ∧
    ((BlockingRunLocCommandletTask Tasks).2 = true →
      LaunchedTasks (BlockingRunLocCommandletTask Tasks).1 = Tasks.map (fun t => t.1)) := by
  induction Tasks with
  | nil => simp [BlockingRunLocCommandletTask, LaunchedTasks]
  | cons t Rest ih =>
    obtain ⟨LocTask, Outcome⟩ := t
    cases Outcome with
    | none =>
      simp only [BlockingRunLocCommandletTask, LaunchedTasks, List.map_cons]
      exact ⟨(List.prefix_cons_inj LocTask).mpr ih.1, fun h => by rw [ih.2 h]⟩
    | some Process =>
      by_cases hp : (PumpProcess Process).2 = true
      · simp only [BlockingRunLocCommandletTask, hp, if_true, LaunchedTasks, List.map_cons,
          LaunchedTasks_append, LaunchedTasks_PumpProcess, List.nil_append]
        exact ⟨(List.prefix_cons_inj LocTask).mpr ih.1, fun h => by rw [ih.2 h]; rfl⟩
      · simp only [Bool.not_eq_true] at hp
        simp only [BlockingRunLocCommandletTask, hp, Bool.false_eq_true, if_false, LaunchedTasks,
          List.map_cons, LaunchedTasks_PumpProcess]
        exact ⟨(List.prefix_cons_inj LocTask).mpr (List.nil_prefix), fun h => by cases h⟩

theorem BlockingRun_returns (Tasks : List (FTask × Option FLocalizationCommandletProcess))
    (h : ∀ t ∈ Tasks, ∀ Process, t.2 = some Process → ∃ p ∈ Process, p.bDone = true) :
    (BlockingRunLocCommandletTask Tasks).2 = true := by
  induction Tasks with
  | nil => rfl
  | cons t Rest ih =>
    obtain ⟨LocTask, Outcome⟩ := t
    have hRest := ih (fun t ht => h t (by simp [ht]))
    cases Outcome with
    | none => simp [BlockingRunLocCommandletTask, hRest]
    | some Process =>
      have hp := PumpProcess_done Process (h (LocTask, some Process) (by simp) Process rfl)
      simp [BlockingRunLocCommandletTask, hp, hRest]

theorem BlockingRun_segments (Tasks : List (FTask × Option FLocalizationCommandletProcess)) :
    ∃ (Done : List (FTask × Option FLocalizationCommandletProcess))
      (Segments : List (List FRunnerEvent)) (Tail : List FRunnerEvent),
      List.Forall₂ (fun t Segment => IsTaskSegment t.1 t.2.isSome Segment) Done Segments ∧
      (BlockingRunLocCommandletTask Tasks).1 = Segments.flatten ++ Tail ∧
      (((BlockingRunLocCommandletTask Tasks).2 = true ∧ Done = Tasks ∧ Tail = []) ∨
       ((BlockingRunLocCommandletTask Tasks).2 = false ∧
        ∃ LocTask Process Rest, Tasks = Done ++ (LocTask, some Process) :: Rest ∧
          (∀ p ∈ Process, p.bDone = false) ∧
          Tail = (.Launch LocTask true) :: Process.map .Poll)) := by
  induction Tasks with
  | nil => exact ⟨[], [], [], List.Forall₂.nil, rfl, Or.inl ⟨rfl, rfl, rfl⟩⟩
  | cons t Rest ih =>
    obtain ⟨LocTask, Outcome⟩ := t
    obtain ⟨Done, Segments, Tail, hF, hE, hC⟩ := ih
    cases Outcome with
    | none =>
      refine ⟨(LocTask, none) :: Done, [.Launch LocTask false] :: Segments, Tail,
        List.Forall₂.cons (Or.inl ⟨rfl, rfl⟩) hF, by simp [BlockingRunLocCommandletTask, hE], ?_⟩
      rcases hC with ⟨h1, h2, h3⟩ | ⟨h1, T, P, R, h2, h3, h4⟩
      · exact Or.inl ⟨by simp [BlockingRunLocCommandletTask, h1], by rw [h2], h3⟩
      · exact Or.inr ⟨by simp [BlockingRunLocCommandletTask, h1], T, P, R, by rw [h2]; rfl, h3, h4⟩
    | some Process =>
      by_cases hp : (PumpProcess Process).2 = true
      · obtain ⟨Busy, Last, hB, hL, hP⟩ := PumpProcess_returns Process hp
        refine ⟨(LocTask, some Process) :: Done,
          ((.Launch LocTask true) :: (Busy.map .Poll ++ [.Poll Last])) :: Segments, Tail,
          List.Forall₂.cons (Or.inr ⟨rfl, Busy, Last, hB, hL, rfl⟩) hF,
          by simp [BlockingRunLocCommandletTask, hp, hE, hP], ?_⟩
        rcases hC with ⟨h1, h2, h3⟩ | ⟨h1, T, P, R, h2, h3, h4⟩
        · exact Or.inl ⟨by simp [BlockingRunLocCommandletTask, hp, h1], by rw [h2], h3⟩
        · exact Or.inr ⟨by simp [BlockingRunLocCommandletTask, hp, h1], T, P, R,
            by rw [h2]; rfl, h3, h4⟩
      · simp only [Bool.not_eq_true] at hp
        obtain ⟨hB, hP⟩ := PumpProcess_stalls Process hp
        exact ⟨[], [], (.Launch LocTask true) :: Process.map .Poll, List.Forall₂.nil,
          by simp [BlockingRunLocCommandletTask, hp, hP],
          Or.inr ⟨by simp [BlockingRunLocCommandletTask, hp], LocTask, Process, Rest, rfl, hB, rfl⟩⟩

/-- C18: task runner sequencing. For every ordered list of tasks and every launch
outcome of each, the launches `BlockingRunLocCommandletTask` attempts are an initial
part of the list, in list order and once each, and they are all the tasks when the call
returns, which it does when every process started comes to a poll that finds its output
empty and the process stopped. The events of the call are, task after task, a failed
launch alone (the task counts as completed, the next one follows) or a launch followed
by the polls of its process up to and including the first one that finds the output
empty and the process stopped; only after such a poll does the next launch follow, and
a process that never gives one is the last thing launched. -/
theorem C18_task_runner_sequencing
    (Tasks : List (FTask × Option FLocalizationCommandletProcess)) :
    LaunchedTasks (BlockingRunLocCommandletTask Tasks).1 <+: Tasks.map (fun t => t.1) ∧
    ((BlockingRunLocCommandletTask Tasks).2 = true →
      LaunchedTasks (BlockingRunLocCommandletTask Tasks).1 = Tasks.map (fun t => t.1)) ∧
    ((∀ t ∈ Tasks, ∀ Process, t.2 = some Process → ∃ p ∈ Process, p.bDone = true) →
      (BlockingRunLocCommandletTask Tasks).2 = true) ∧
    ∃ (Done : List (FTask × Option FLocalizationCommandletProcess))
      (Segments : List (List FRunnerEvent)) (Tail : List FRunnerEvent),
      List.Forall₂ (fun t Segment => IsTaskSegment t.1 t.2.isSome Segment) Done Segments ∧
      (BlockingRunLocCommandletTask Tasks).1 = Segments.flatten ++ Tail ∧
      (((BlockingRunLocCommandletTask Tasks).2 = true ∧ Done = Tasks ∧ Tail = []) ∨
       ((BlockingRunLocCommandletTask Tasks).2 = false ∧
        ∃ LocTask Process Rest, Tasks = Done ++ (LocTask, some Process) :: Rest ∧
          (∀ p ∈ Process, p.bDone = false) ∧
          Tail = (.Launch LocTask true) :: Process.map .Poll)) :=
  ⟨(BlockingRun_launches Tasks).1, (BlockingRun_launches Tasks).2, BlockingRun_returns Tasks,
    BlockingRun_segments Tasks⟩

/-- C18, witness: three tasks, the first of which writes output and stops, the second
fails to launch, the third stops at once; the call returns after launching the three,
in order. -/
theorem C18_task_runner_sequencing_witness :
    (BlockingRunLocCommandletTask
      [(⟨TEXT "Import", TEXT "I.ini", true⟩, some [⟨TEXT "out", true⟩, ⟨[], true⟩, ⟨[], false⟩]),
       (⟨TEXT "Report", TEXT "R.ini", true⟩, none),
       (⟨TEXT "Gather", TEXT "G.ini", true⟩, some [⟨[], false⟩])]).2 = true ∧
    LaunchedTasks (BlockingRunLocCommandletTask
      [(⟨TEXT "Import", TEXT "I.ini", true⟩, some [⟨TEXT "out", true⟩, ⟨[], true⟩, ⟨[], false⟩]),
       (⟨TEXT "Report", TEXT "R.ini", true⟩, none),
       (⟨TEXT "Gather", TEXT "G.ini", true⟩, some [⟨[], false⟩])]).1 =
      [⟨TEXT "Import", TEXT "I.ini", true⟩, ⟨TEXT "Report", TEXT "R.ini", true⟩,
       ⟨TEXT "Gather", TEXT "G.ini", true⟩] :=
  ⟨(C18_task_runner_sequencing _).2.2.1 (by decide),
   (C18_task_runner_sequencing _).2.1 (by decide)⟩

/-! ## Proofs: duplicate keys -/

theorem Equals_symm (a b : FString) : Equals a b = Equals b a := by
  simp only [Equals]
  by_cases h : FoldCase a = FoldCase b
  · simp [h]
  · have h2 : ¬ FoldCase b = FoldCase a := fun e => h e.symm
    simp [h, h2]

theorem Find_Add {V : Type} (m : TMap V) (Key : FString) (Value : V) (n : FString) :
    (m.Add Key Value).Find n = if Equals Key n then some Value else m.Find n := by
  induction m with
  | nil => simp [TMap.Add, TMap.Find]
  | cons p rest ih =>
    obtain ⟨k, v⟩ := p
    by_cases hk : Equals k Key = true
    · have e : Equals k n = Equals Key n := Equals_congr_left k Key n hk
      simp only [TMap.Add, hk, if_true, TMap.Find, e]
      by_cases hn : Equals Key n = true
      · simp [hn]
      · simp [hn]
    · simp only [Bool.not_eq_true] at hk
      simp only [TMap.Add, hk, Bool.false_eq_true, if_false, TMap.Find, ih]
      by_cases hkn : Equals k n = true
      · have e : Equals Key n = false := by
          rw [← Equals_congr_right k n Key hkn, Equals_symm]
          exact hk
        simp [hkn, e]
      · simp [hkn]

theorem ImportCSVRow_CSVRow (m : TMap FString) (r : FGridlySourceRecord)
    (hk : '"' ∉ r.RecordId) :
    ImportCSVRow m (CSVRow r) =
      if r.RecordId ≠ [] ∧ TrimQuotes r.SourceText ≠ [] then
        m.Add r.RecordId (TrimQuotes r.SourceText)
      else m := by
  unfold ImportCSVRow CSVRow
  rw [ParseCSVLine_encoded r.RecordId r.SourceText hk]
  simp only [List.cons_append, List.isEmpty_cons, Bool.false_eq_true, if_false,
    TrimQuotes_of_not_mem r.RecordId hk]
  by_cases h1 : r.RecordId = []
  · simp [h1]
  · by_cases h2 : TrimQuotes r.SourceText = []
    · simp [h2]
    · simp [h1, h2, List.isEmpty_iff]

/-- What the decoder finds under a key after the rows of records whose keys hold no
double quote: the text, with its surrounding quotes trimmed, of the last record that
carries the key (up to letter case) and whose row is not skipped. -/
theorem Find_foldl_CSVRow (Records : List FGridlySourceRecord)
    (hq : ∀ r ∈ Records, '"' ∉ r.RecordId) (n : FString) :
    ∀ m : TMap FString,
      ((Records.map CSVRow).foldl ImportCSVRow m).Find n =
        match Records.reverse.find? (fun r => Equals r.RecordId n &&
            (!r.RecordId.isEmpty && !(TrimQuotes r.SourceText).isEmpty)) with
        | some r => some (TrimQuotes r.SourceText)
        | none => m.Find n := by
  induction Records with
  | nil => intro m; simp
  | cons r rs ih =>
    intro m
    rw [List.map_cons, List.foldl_cons, ImportCSVRow_CSVRow m r (hq r (by simp)),
      ih (fun x hx => hq x (by simp [hx]))]
    rw [List.reverse_cons, List.find?_append]
    cases hf : rs.reverse.find? (fun r => Equals r.RecordId n &&
        (!r.RecordId.isEmpty && !(TrimQuotes r.SourceText).isEmpty)) with
    | some x => simp
    | none =>
      simp only [Option.none_or]
      by_cases h1 : r.RecordId = []
      · simp [h1]
      · by_cases h2 : TrimQuotes r.SourceText = []
        · simp [h2]
        · rw [if_pos ⟨h1, h2⟩, Find_Add]
          by_cases hn : Equals r.RecordId n = true
          · simp [hn, h1, h2, List.isEmpty_iff]
          · simp [hn]

theorem find?_and_of_find? {α : Type} (p q : α → Bool) (xs : List α) (a : α)
    (h : xs.find? p = some a) (hq : q a = true) :
    xs.find? (fun x => p x && q x) = some a := by
  induction xs with
  | nil => cases h
  | cons x rest ih =>
    by_cases hp : p x = true
    · simp only [List.find?_cons, hp, Option.some.injEq] at h
      subst h
      simp [List.find?_cons, hp, hq]
    · simp only [Bool.not_eq_true] at hp
      simp only [List.find?_cons, hp] at h
      simp [List.find?_cons, hp, ih h]

theorem find?_and_of_none {α : Type} (p q : α → Bool) (xs : List α)
    (h : xs.find? p = none) : xs.find? (fun x => p x && q x) = none := by
  rw [List.find?_eq_none] at h ⊢
  intro x hx
  have := h x hx
  simp only [Bool.not_eq_true] at this
  simp [this]

/-- C19 (amended): last write wins. For every list of records of one namespace whose
keys hold no double quote and whose keys and source texts hold no line break, and for
every key, keys being compared as the batch compares them (up to ASCII letter case):
when the last record of the list that carries the key has a non-empty key and a
non-empty source text that neither begins nor ends with a double quote, the CSV of
the namespace is decoded and the key/value batch maps the key to the source text of
that last record, whatever the records before it are; and when no record carries the
key, a decoded batch does not hold it. -/
theorem C19_last_write_wins (Records : List FGridlySourceRecord) (Key : FString)
    (hall : ∀ r ∈ Records,
      '"' ∉ r.RecordId ∧ NoLineBreak r.RecordId ∧ NoLineBreak r.SourceText) :
    (∀ Last, Records.reverse.find? (fun r => Equals r.RecordId Key) = some Last →
      Last.RecordId ≠ [] → Last.SourceText ≠ [] → Last.SourceText.head? ≠ some '"' →
      Last.SourceText.getLast? ≠ some '"' →
      ∃ KeyValuePairs,
        BuildKeyValuePairs (some (GenerateCSVContent Records)) = .ok KeyValuePairs ∧
        KeyValuePairs.Find Key = some Last.SourceText) ∧
    (Records.reverse.find? (fun r => Equals r.RecordId Key) = none →
      ∀ KeyValuePairs,
        BuildKeyValuePairs (some (GenerateCSVContent Records)) = .ok KeyValuePairs →
        KeyValuePairs.Find Key = none) := by
  have hlb : ∀ r ∈ Records, NoLineBreak r.RecordId ∧ NoLineBreak r.SourceText :=
    fun r hr => (hall r hr).2
  have hhdr : CheckCSVHeader (TEXT "Key,SourceString") = .ok () := by decide
  have hFind := Find_foldl_CSVRow Records (fun r hr => (hall r hr).1) Key []
  refine ⟨?_, ?_⟩
  · intro Last hlast hk0 hv0 hv1 hv2
    have hTrim : TrimQuotes Last.SourceText = Last.SourceText := TrimQuotes_id _ hv1 hv2
    have hkept : (!Last.RecordId.isEmpty && !(TrimQuotes Last.SourceText).isEmpty) = true := by
      rw [hTrim]
      simp [List.isEmpty_iff, hk0, hv0]
    rw [find?_and_of_find? _
      (fun r => !r.RecordId.isEmpty && !(TrimQuotes r.SourceText).isEmpty) _ Last hlast hkept]
      at hFind
    simp only [hTrim] at hFind
    cases Records with
    | nil => simp at hlast
    | cons r rs =>
      have hlen : ((List.map CSVRow (r :: rs)).foldl ImportCSVRow []).length ≠ 0 := by
        intro h0
        rw [List.length_eq_zero.mp h0] at hFind
        simp [TMap.Find] at hFind
      refine ⟨(List.map CSVRow (r :: rs)).foldl ImportCSVRow [], ?_, hFind⟩
      simp only [BuildKeyValuePairs]
      rw [LoadFileToStringArray_generated _ hlb]
      simp only [List.map_cons, hhdr] at hlen ⊢
      rw [if_neg hlen]
  · intro hnone KeyValuePairs hOk
    rw [find?_and_of_none _
      (fun r => !r.RecordId.isEmpty && !(TrimQuotes r.SourceText).isEmpty) _ hnone] at hFind
    simp only [TMap.Find] at hFind
    cases Records with
    | nil =>
      simp only [BuildKeyValuePairs] at hOk
      rw [LoadFileToStringArray_generated _ hlb] at hOk
      simp at hOk
    | cons r rs =>
      simp only [BuildKeyValuePairs] at hOk
      rw [LoadFileToStringArray_generated _ hlb] at hOk
      simp only [List.map_cons, hhdr] at hOk
      split at hOk
      · cases hOk
      · simp only [Except.ok.injEq] at hOk
        rw [← hOk]
        exact hFind

/-- C19, witness: four records, three of which carry the key `Title`: the first with
the empty text, the second with a text in quotes, the last with the text `New`. -/
theorem C19_last_write_wins_witness :
    ∃ KeyValuePairs,
      BuildKeyValuePairs (some (GenerateCSVContent
        [⟨TEXT "Title", TEXT ""⟩, ⟨TEXT "Title", TEXT "\"Old\""⟩, ⟨TEXT "Play", TEXT "Go"⟩,
          ⟨TEXT "Title", TEXT "New"⟩])) = .ok KeyValuePairs ∧
      KeyValuePairs.Find (TEXT "Title") = some (TEXT "New") :=
  (C19_last_write_wins
    [⟨TEXT "Title", TEXT ""⟩, ⟨TEXT "Title", TEXT "\"Old\""⟩, ⟨TEXT "Play", TEXT "Go"⟩,
      ⟨TEXT "Title", TEXT "New"⟩] (TEXT "Title")
    (by
      intro r hr
      simp only [List.mem_cons, List.mem_singleton, List.not_mem_nil, or_false] at hr
      rcases hr with h | h | h | h <;> subst h <;>
        refine ⟨by decide, ?_, ?_⟩ <;> intro c <;> revert c <;> decide)).1
    ⟨TEXT "Title", TEXT "New"⟩ (by decide) (by decide) (by decide) (by decide) (by decide)

/-- C19, counterexample: lists of records and the batch decoded from their CSV. When
the last record carrying `k` has the empty text its row is skipped and the batch maps
`k` to the text of the first; when its text is `b` in quotes, or `b` after a quote, or
`b` before a quote, the batch maps `k` to `b` without the quote; a last record with
the empty key is not in the batch. A line
break in the text or in the key of another record, or a double quote in the key of
another record, makes a row that maps `k` to `evil`, not to the text `v` of the only
record carrying `k`. And the keys `K` and `k` are one key of the batch: it maps `K` to
`b`, the text of the last record carrying `k`, not to the text `A` of the last record
whose key is `K`. -/
theorem C19_last_record_not_kept :
    BuildKeyValuePairs (some (GenerateCSVContent [⟨TEXT "k", TEXT "old"⟩, ⟨TEXT "k", TEXT ""⟩])) =
      .ok [(TEXT "k", TEXT "old")] ∧
    TMap.Find [(TEXT "k", TEXT "old")] (TEXT "k") ≠ some (TEXT "") ∧
    BuildKeyValuePairs (some (GenerateCSVContent
        [⟨TEXT "k", TEXT "a"⟩, ⟨TEXT "k", TEXT "\"b\""⟩])) =
      .ok [(TEXT "k", TEXT "b")] ∧
    TMap.Find [(TEXT "k", TEXT "b")] (TEXT "k") ≠ some (TEXT "\"b\"") ∧
    BuildKeyValuePairs (some (GenerateCSVContent
        [⟨TEXT "k", TEXT "a"⟩, ⟨TEXT "k", TEXT "\"b"⟩])) =
      .ok [(TEXT "k", TEXT "b")] ∧
    BuildKeyValuePairs (some (GenerateCSVContent
        [⟨TEXT "k", TEXT "a"⟩, ⟨TEXT "k", TEXT "b\""⟩])) =
      .ok [(TEXT "k", TEXT "b")] ∧
    BuildKeyValuePairs (some (GenerateCSVContent
        [⟨TEXT "a", TEXT "x"⟩, ⟨TEXT "", TEXT "v"⟩])) =
      .ok [(TEXT "a", TEXT "x")] ∧
    TMap.Find [(TEXT "a", TEXT "x")] (TEXT "") ≠ some (TEXT "v") ∧
    BuildKeyValuePairs (some (GenerateCSVContent
        [⟨TEXT "k", TEXT "v"⟩, ⟨TEXT "a", TEXT "x\nk,evil"⟩])) =
      .ok [(TEXT "k", TEXT "evil"), (TEXT "a", TEXT "x")] ∧
    BuildKeyValuePairs (some (GenerateCSVContent
        [⟨TEXT "k", TEXT "v"⟩, ⟨TEXT "a\nk,evil\nb", TEXT "x"⟩])) =
      .ok [(TEXT "k", TEXT "evil")] ∧
    BuildKeyValuePairs (some (GenerateCSVContent
        [⟨TEXT "k", TEXT "v"⟩, ⟨TEXT "k\",\"evil", TEXT "x"⟩])) =
      .ok [(TEXT "k", TEXT "evil")] ∧
    TMap.Find [(TEXT "k", TEXT "evil")] (TEXT "k") ≠ some (TEXT "v") ∧
    BuildKeyValuePairs (some (GenerateCSVContent
        [⟨TEXT "K", TEXT "A"⟩, ⟨TEXT "k", TEXT "b"⟩])) =
      .ok [(TEXT "k", TEXT "b")] ∧
    TMap.Find [(TEXT "k", TEXT "b")] (TEXT "K") ≠ some (TEXT "A") := by
  refine ⟨by decide, by decide, by decide, by decide, by decide, by decide, by decide,
    by decide, by decide, by decide, by decide, by decide, by decide, by decide⟩


/-! ## The orchestrator: properties C12 to C17 -/

/-- The code at the failing input of C12: the target `Game` with the cultures `en`
(native) and `fr`, the download of `fr` completing with `Failed`. No file was
downloaded, yet the import branch invokes the task runner, once, with the import-translations
task and the word-count-report task, as it does when the download
succeeded: the path that `OnDownloadComplete` recorded for the failed download makes
`DownloadedFiles.Num() > 0` true. -/
theorem C12_tasks_run_after_failed_download :
    FireCompletions (AppendCultures ⟨[], []⟩ [TEXT "fr"])
        [(⟨TEXT "fr", DownloadPath (SampleEnvironment .Failed) SampleTarget (TEXT "fr")⟩,
          .Failed)] =
      ⟨[], [TEXT "/P/Saved/Temp/Game/Game/fr/Game.po"]⟩ ∧
    ImportBranch (SampleEnvironment .Failed) (InitialState []) SampleTarget =
      some (InitialState [],
        [.DownloadRequested (TEXT "Game") (TEXT "fr"),
         .RunTasks [⟨TEXT "Import Translations", TEXT "Import.ini", true⟩,
           ⟨TEXT "Generate Reports", TEXT "Report.ini", true⟩]]) ∧
    ImportBranch (SampleEnvironment .Failed) (InitialState []) SampleTarget =
      ImportBranch (SampleEnvironment .Succeeded) (InitialState []) SampleTarget := by
  decide

/-- The code at the failing input of C13: the import and export flags set and the
target `Game` whose supported cultures are `en` (native), `fr` and `fr`. Two downloads
of `fr` are requested; the completion of the first, delivered by the first tick of the
wait loop, removes both entries of `CulturesToDownload` (line 478), so the loop exits
with the second download in flight; the cleanup of lines 231-232 empties the
accumulators; the wait loop of the export branch then ticks the HTTP manager, the second
completion fires, and `DownloadedFiles` holds its path at the end of the processing of
the target. With a second target after it, the processing of that target starts with
the path in `DownloadedFiles`. -/
theorem C13_late_completion_leaks :
    CulturesOf ⟨TEXT "Game", 0, [⟨TEXT "en"⟩, ⟨TEXT "fr"⟩, ⟨TEXT "fr"⟩]⟩ =
      [TEXT "fr", TEXT "fr"] ∧
    OnDownloadComplete ⟨[TEXT "fr", TEXT "fr"], []⟩
        ⟨TEXT "fr", TEXT "/P/Saved/Temp/Game/Game/fr/Game.po"⟩ .Succeeded =
      ⟨[], [TEXT "/P/Saved/Temp/Game/Game/fr/Game.po"]⟩ ∧
    (Main ⟨SampleParams false, true, true, false,
        [some ⟨⟨TEXT "Game", 0, [⟨TEXT "en"⟩, ⟨TEXT "fr"⟩, ⟨TEXT "fr"⟩]⟩, false⟩]⟩
        (SampleEnvironment .Succeeded) []).map
        (fun Result => Result.Passes.map (fun Pass => (Pass.StateAtStart, Pass.StateAtEnd))) =
      some [(⟨[], []⟩, ⟨[], [TEXT "/P/Saved/Temp/Game/Game/fr/Game.po"]⟩)] ∧
    (Main ⟨SampleParams false, true, true, false,
        [some ⟨⟨TEXT "Game", 0, [⟨TEXT "en"⟩, ⟨TEXT "fr"⟩, ⟨TEXT "fr"⟩]⟩, false⟩,
          some ⟨⟨TEXT "Engine", 0, [⟨TEXT "en"⟩]⟩, true⟩]⟩
        (SampleEnvironment .Succeeded) []).map
        (fun Result => Result.Passes.map (fun Pass => (Pass.StateAtStart, Pass.StateAtEnd))) =
      some [(⟨[], []⟩, ⟨[], [TEXT "/P/Saved/Temp/Game/Game/fr/Game.po"]⟩),
        (⟨[], [TEXT "/P/Saved/Temp/Game/Game/fr/Game.po"]⟩, ⟨[], []⟩)] := by
  decide

/-- The code at the failing input of C14: `ExportAllGameTarget=false`, only the
download-source-changes flag set, and two targets, the first of which, `Empty`, has no
supported culture. The branch of `Empty` is skipped with `continue`, which also skips
the test of line 467, so the loop goes on and `Game`, the second target, gets its
download-source-changes operation: call, HTTP request, gather-text task. With `Game`
first the loop does stop after one target. -/
theorem C14_second_target_processed :
    bOnlyFirstTarget ⟨SampleParams true, false, false, true,
      [some ⟨⟨TEXT "Empty", 0, []⟩, false⟩, some SampleTarget]⟩ = true ∧
    Main ⟨SampleParams true, false, false, true,
        [some ⟨⟨TEXT "Empty", 0, []⟩, false⟩, some SampleTarget]⟩
        (SampleEnvironment .Succeeded) [] =
      some ⟨0, [⟨⟨[], []⟩, ⟨[], []⟩, [.Error .MissingNativeCulture]⟩,
        ⟨⟨[], []⟩, ⟨[], []⟩,
          [.DownloadSourceChanges (TEXT "Game") (TEXT "en"),
           .HttpRequest (TEXT "https://api.gridly.com/v1/views/view1/records") (TEXT "key"),
           .Error .DownloadFailed,
           .RunTasks [⟨TEXT "Gather Text", TEXT "Gather.ini", true⟩]]⟩]⟩ ∧
    (Main ⟨SampleParams true, false, false, true,
        [some SampleTarget, some ⟨⟨TEXT "Empty", 0, []⟩, false⟩]⟩
        (SampleEnvironment .Succeeded) []).map (fun Result => Result.Passes.length) =
      some 1 := by
  decide

/-- C15, the code at the failing input: a target whose list of supported cultures is
empty fails at the test of the native culture index, with the error "No native culture
found" (`MissingNativeCulture`), whatever the index; the test for an empty list comes
second and no target ever reaches its error (`NoSupportedCultures`). In both cases the
branch ends on `continue` with no request. -/
theorem C15_empty_list_reported_as_missing_native_culture :
    ResolveNativeCulture ⟨TEXT "Game", 0, []⟩ = .error .MissingNativeCulture ∧
    ResolveNativeCulture ⟨TEXT "Game", -1, []⟩ = .error .MissingNativeCulture ∧
    SourceChangesBranch (SampleEnvironment .Succeeded) (InitialState [])
        ⟨⟨TEXT "Game", 0, []⟩, false⟩ =
      some (InitialState [], [.Error .MissingNativeCulture], true) ∧
    ∀ Settings, ResolveNativeCulture Settings ≠ .error .NoSupportedCultures := by
  refine ⟨by decide, by decide, by decide, ?_⟩
  intro Settings h
  unfold ResolveNativeCulture at h
  split at h
  · rename_i hv
    split at h
    · rename_i h0
      simp only [IsValidIndex, Bool.and_eq_true, decide_eq_true_eq] at hv
      rw [h0] at hv
      omega
    · cases h
  · cases h

/-- C16: missing credential or view. For every target, when the configured API key is
empty, or the list of source-view identifiers is empty, or its first element is empty,
`DownloadSourceChangesFromGridlyInternal` returns without creating or sending an HTTP
request (its only event is the error it logs) and leaves the stored current target and
culture, the files, and the rest of the state, as they were. -/
theorem C16_missing_credential_or_view (Env : FEnvironment) (State : FRunState)
    (LocalizationTarget : ULocalizationTarget) (NativeCulture : FString)
    (h : Env.GameSettings.ImportApiKey = [] ∨ Env.GameSettings.ImportFromViewIds = [] ∨
      Env.GameSettings.ImportFromViewIds.head? = some []) :
    ∃ Events,
      DownloadSourceChangesFromGridlyInternal Env State LocalizationTarget NativeCulture =
        some (State, Events) ∧
      (Events = [.Error .NoImportApiKey] ∨ Events = [.Error .NoImportViewId]) ∧
      ∀ Url ApiKey, FEvent.HttpRequest Url ApiKey ∉ Events := by
  unfold DownloadSourceChangesFromGridlyInternal
  by_cases hKey : Env.GameSettings.ImportApiKey = []
  · exact ⟨[.Error .NoImportApiKey], by simp [hKey], Or.inl rfl, by simp⟩
  · have hKey' : Env.GameSettings.ImportApiKey.isEmpty = false := by
      cases hk : Env.GameSettings.ImportApiKey with
      | nil => exact absurd hk hKey
      | cons _ _ => rfl
    rcases h with h | h | h
    · exact absurd h hKey
    · exact ⟨[.Error .NoImportViewId], by simp [hKey', h], Or.inr rfl, by simp⟩
    · cases hV : Env.GameSettings.ImportFromViewIds with
      | nil => exact ⟨[.Error .NoImportViewId], by simp [hKey'], Or.inr rfl, by simp⟩
      | cons ViewId Rest =>
        rw [hV] at h
        simp only [List.head?_cons, Option.some.injEq] at h
        subst h
        exact ⟨[.Error .NoImportViewId], by simp [hKey'], Or.inr rfl, by simp⟩

/-- C16, witness: an API key but a view list whose first identifier is empty, and a
current target and culture stored by an earlier call. -/
theorem C16_missing_credential_or_view_witness :
    ∃ Events,
      DownloadSourceChangesFromGridlyInternal
          { SampleEnvironment .Succeeded with
            GameSettings := ⟨TEXT "key", [TEXT "", TEXT "v2"], false⟩ }
          ⟨⟨[], []⟩, ⟨some SampleTarget, TEXT "en"⟩, [], []⟩
          ⟨⟨TEXT "Other", 0, [⟨TEXT "de"⟩]⟩, false⟩ (TEXT "de") =
        some (⟨⟨[], []⟩, ⟨some SampleTarget, TEXT "en"⟩, [], []⟩, Events) ∧
      (Events = [.Error .NoImportApiKey] ∨ Events = [.Error .NoImportViewId]) ∧
      ∀ Url ApiKey, FEvent.HttpRequest Url ApiKey ∉ Events :=
  C16_missing_credential_or_view
    { SampleEnvironment .Succeeded with GameSettings := ⟨TEXT "key", [TEXT "", TEXT "v2"], false⟩ }
    ⟨⟨[], []⟩, ⟨some SampleTarget, TEXT "en"⟩, [], []⟩
    ⟨⟨TEXT "Other", 0, [⟨TEXT "de"⟩]⟩, false⟩ (TEXT "de")
    (Or.inr (Or.inr (by decide)))

theorem MergeCalls_append (a b : List FEvent) :
    MergeCalls (a ++ b) = MergeCalls a ++ MergeCalls b := by
  induction a with
  | nil => rfl
  | cons e rest ih => cases e <;> simp [MergeCalls, ih]

theorem MergeCalls_map (Calls : List FMergeCall) : MergeCalls (Calls.map .Merge) = Calls := by
  induction Calls with
  | nil => rfl
  | cons c rest ih => simp [MergeCalls, ih]

theorem Load_cons_self (Files : FFileStore) (bSameFile : FString → FString → Bool)
    (Path Content : FString) (h : bSameFile Path Path = true) :
    FFileStore.Load ((Path, Content) :: Files) bSameFile Path = some Content := by
  simp [FFileStore.Load, h]

theorem Load_cons_other (Files : FFileStore) (bSameFile : FString → FString → Bool)
    (Path Other Content : FString) (h : bSameFile Other Path = false) :
    FFileStore.Load ((Other, Content) :: Files) bSameFile Path =
      FFileStore.Load Files bSameFile Path := by
  simp [FFileStore.Load, h]

theorem ImportCSV_calls (Env : FEnvironment) (Namespace : FString)
    (Records : List FGridlySourceRecord) (hprov : Env.bCanUseGridly = true)
    (hdec : ∃ b, BuildKeyValuePairs (some (GenerateCSVContent Records)) = .ok b) :
    (ImportCSVToStringTable (ImportEnvOf Env) Namespace
      (some (GenerateCSVContent Records))).2 = [⟨Namespace, DecodedBatch Records⟩] := by
  obtain ⟨b, hb⟩ := hdec
  simp [ImportCSVToStringTable, ImportEnvOf, DecodedBatch, hb, hprov]

theorem GenerateAndImportLoop_spec (Env : FEnvironment) (TargetName : FString)
    (hprov : Env.bCanUseGridly = true)
    (NamespaceRecords : TMap (List FGridlySourceRecord)) :
    ∀ Files : FFileStore,
      (∀ p ∈ NamespaceRecords, Env.bCanWriteFile (CSVFilePath Env TargetName p.1) = true) →
      (∀ p ∈ NamespaceRecords,
        Env.bSameFile (CSVFilePath Env TargetName p.1) (CSVFilePath Env TargetName p.1) = true) →
      (∀ p ∈ NamespaceRecords,
        ∃ b, BuildKeyValuePairs (some (GenerateCSVContent p.2)) = .ok b) →
      NamespaceRecords.Pairwise (fun p q =>
        Env.bSameFile (CSVFilePath Env TargetName q.1) (CSVFilePath Env TargetName p.1) = false) →
      MergeCalls (GenerateAndImportLoop Env TargetName NamespaceRecords Files).2 =
        NamespaceRecords.map (fun p => ⟨p.1, DecodedBatch p.2⟩) ∧
      (∀ p ∈ NamespaceRecords,
        (GenerateAndImportLoop Env TargetName NamespaceRecords Files).1.Load Env.bSameFile
          (CSVFilePath Env TargetName p.1) = some (GenerateCSVContent p.2)) ∧
      (∀ Path, (∀ p ∈ NamespaceRecords,
          Env.bSameFile (CSVFilePath Env TargetName p.1) Path = false) →
        (GenerateAndImportLoop Env TargetName NamespaceRecords Files).1.Load Env.bSameFile Path =
          Files.Load Env.bSameFile Path) := by
  induction NamespaceRecords with
  | nil => intro Files _ _ _ _; simp [GenerateAndImportLoop, MergeCalls]
  | cons q Rest ih =>
    intro Files hw hr hd hn
    obtain ⟨Namespace, Records⟩ := q
    have hwq := hw (Namespace, Records) (by simp)
    have hrq := hr (Namespace, Records) (by simp)
    have hdq := hd (Namespace, Records) (by simp)
    simp only [List.pairwise_cons] at hn
    obtain ⟨h1, h2, h3⟩ := ih
      ((CSVFilePath Env TargetName Namespace, GenerateCSVContent Records) :: Files)
      (fun p hp => hw p (by simp [hp])) (fun p hp => hr p (by simp [hp]))
      (fun p hp => hd p (by simp [hp])) hn.2
    simp only at hwq hrq
    simp only [GenerateAndImportLoop, hwq, if_true, Load_cons_self _ _ _ _ hrq]
    refine ⟨?_, ?_, ?_⟩
    · have hI := ImportCSV_calls Env Namespace Records hprov hdq
      rw [hI]
      simp [MergeCalls, h1]
    · intro p hp
      rcases List.mem_cons.mp hp with e | e
      · subst e
        rw [h3 _ (fun p hp => hn.1 p hp), Load_cons_self _ _ _ _ hrq]
      · exact h2 p e
    · intro Path hPath
      have hfresh : ∀ p ∈ Rest, Env.bSameFile (CSVFilePath Env TargetName p.1) Path = false :=
        fun p hp => hPath p (by simp [hp])
      rw [h3 _ hfresh, Load_cons_other _ _ _ _ _ (hPath (Namespace, Records) (by simp))]

theorem ImportLoop_spec (Env : FEnvironment) (TargetName : FString) (Files : FFileStore)
    (hprov : Env.bCanUseGridly = true) (NamespaceRecords : TMap (List FGridlySourceRecord))
    (hload : ∀ p ∈ NamespaceRecords,
      Files.Load Env.bSameFile (CSVFilePath Env TargetName p.1) =
        some (GenerateCSVContent p.2))
    (hd : ∀ p ∈ NamespaceRecords,
      ∃ b, BuildKeyValuePairs (some (GenerateCSVContent p.2)) = .ok b) :
    MergeCalls (ImportLoop Env TargetName Files NamespaceRecords) =
      NamespaceRecords.map (fun p => ⟨p.1, DecodedBatch p.2⟩) := by
  induction NamespaceRecords with
  | nil => rfl
  | cons q Rest ih =>
    obtain ⟨Namespace, Records⟩ := q
    have hl := hload (Namespace, Records) (by simp)
    have hdq := hd (Namespace, Records) (by simp)
    simp only at hl
    simp only [ImportLoop, hl, MergeCalls_append, MergeCalls_map, List.map_cons,
      ImportCSV_calls Env Namespace Records hprov hdq,
      ih (fun p hp => hload p (by simp [hp])) (fun p hp => hd p (by simp [hp]))]
    rfl

/-- C20 (amended): two merges per namespace. For every `NamespaceGroup` with a valid
current target and a usable provider, where every CSV file is written, read back and
decoded successfully and no namespace of the group names the CSV file of an earlier
one, `ProcessSourceChangesForNamespaces` returns when its gather-text task does, and it
has then invoked the key/value merge collaborator exactly twice for each namespace
(twice as many merge calls as namespaces): once per namespace, in order, in the loop
that writes the files, and once more per namespace, in order, in the import loop that
follows, each time with the batch decoded from that namespace's CSV. -/
theorem C20_two_merges_per_namespace (Env : FEnvironment) (Source : FSourceDownloadState)
    (Files : FFileStore) (NamespaceRecords : TMap (List FGridlySourceRecord))
    (LocalizationTarget : ULocalizationTarget) (Ran : List FEvent)
    (htarget : Source.CurrentSourceDownloadTarget = some LocalizationTarget)
    (hprov : Env.bCanUseGridly = true)
    (hwrite : ∀ p ∈ NamespaceRecords,
      Env.bCanWriteFile (CSVFilePath Env LocalizationTarget.Settings.Name p.1) = true)
    (hread : ∀ p ∈ NamespaceRecords,
      Env.bSameFile (CSVFilePath Env LocalizationTarget.Settings.Name p.1)
        (CSVFilePath Env LocalizationTarget.Settings.Name p.1) = true)
    (hfiles : NamespaceRecords.Pairwise (fun p q =>
      Env.bSameFile (CSVFilePath Env LocalizationTarget.Settings.Name q.1)
        (CSVFilePath Env LocalizationTarget.Settings.Name p.1) = false))
    (hdecode : ∀ p ∈ NamespaceRecords,
      ∃ b, BuildKeyValuePairs (some (GenerateCSVContent p.2)) = .ok b)
    (hgather : RunTasks Env [GatherTask Env LocalizationTarget] = some Ran) :
    ∃ Files' Events,
      ProcessSourceChangesForNamespaces Env Source Files NamespaceRecords =
        some (Files', Events) ∧
      MergeCalls Events =
        NamespaceRecords.map (fun p => ⟨p.1, DecodedBatch p.2⟩) ++
          NamespaceRecords.map (fun p => ⟨p.1, DecodedBatch p.2⟩) ∧
      (MergeCalls Events).length = 2 * NamespaceRecords.length := by
  obtain ⟨h1, h2, _⟩ := GenerateAndImportLoop_spec Env LocalizationTarget.Settings.Name hprov
    NamespaceRecords Files hwrite hread hdecode hfiles
  have h3 := ImportLoop_spec Env LocalizationTarget.Settings.Name
    (GenerateAndImportLoop Env LocalizationTarget.Settings.Name NamespaceRecords Files).1
    hprov NamespaceRecords h2 hdecode
  have hRan : MergeCalls Ran = [] := by
    unfold RunTasks at hgather
    split at hgather
    · simp only [Option.some.injEq] at hgather
      rw [← hgather]
      rfl
    · cases hgather
  have hM : MergeCalls
      ((GenerateAndImportLoop Env LocalizationTarget.Settings.Name NamespaceRecords Files).2 ++
        ImportLoop Env LocalizationTarget.Settings.Name
          (GenerateAndImportLoop Env LocalizationTarget.Settings.Name NamespaceRecords Files).1
          NamespaceRecords ++ Ran) =
      NamespaceRecords.map (fun p => ⟨p.1, DecodedBatch p.2⟩) ++
        NamespaceRecords.map (fun p => ⟨p.1, DecodedBatch p.2⟩) := by
    rw [MergeCalls_append, MergeCalls_append, h1, h3, hRan, List.append_nil]
  refine ⟨(GenerateAndImportLoop Env LocalizationTarget.Settings.Name NamespaceRecords Files).1,
    _, by simp only [ProcessSourceChangesForNamespaces, htarget, hgather], hM, ?_⟩
  rw [hM]
  simp only [List.length_append, List.length_map]
  omega

/-- C20, witness: the namespaces `UI` and `Menu`, one record each, for the target
`Game`. -/
theorem C20_two_merges_per_namespace_witness :
    ∃ Files' Events,
      ProcessSourceChangesForNamespaces (SampleEnvironment .Succeeded)
          ⟨some SampleTarget, TEXT "en"⟩ []
          [(TEXT "UI", [⟨TEXT "Play", TEXT "Go"⟩]), (TEXT "Menu", [⟨TEXT "Quit", TEXT "Bye"⟩])] =
        some (Files', Events) ∧
      MergeCalls Events =
        [⟨TEXT "UI", [(TEXT "Play", TEXT "Go")]⟩, ⟨TEXT "Menu", [(TEXT "Quit", TEXT "Bye")]⟩,
         ⟨TEXT "UI", [(TEXT "Play", TEXT "Go")]⟩, ⟨TEXT "Menu", [(TEXT "Quit", TEXT "Bye")]⟩] := by
  obtain ⟨Files', Events, h1, h2, _⟩ := C20_two_merges_per_namespace
    (SampleEnvironment .Succeeded) ⟨some SampleTarget, TEXT "en"⟩ []
    [(TEXT "UI", [⟨TEXT "Play", TEXT "Go"⟩]), (TEXT "Menu", [⟨TEXT "Quit", TEXT "Bye"⟩])]
    SampleTarget [.RunTasks [GatherTask (SampleEnvironment .Succeeded) SampleTarget]]
    rfl rfl (fun _ _ => rfl)
    (by
      intro p _
      simp [SampleEnvironment])
    (by decide)
    (by
      intro p hp
      simp only [List.mem_cons, List.mem_singleton, List.not_mem_nil, or_false] at hp
      rcases hp with e | e <;> subst e
      · exact ⟨[(TEXT "Play", TEXT "Go")], by decide⟩
      · exact ⟨[(TEXT "Quit", TEXT "Bye")], by decide⟩)
    (by decide)
  exact ⟨Files', Events, h1, h2.trans (by decide)⟩

/-- C20, counterexample: for the single namespace `UI`, with its CSV written and
decoded successfully, `ProcessSourceChangesForNamespaces` invokes the merge collaborator
twice, not once: after writing the file and again in its import loop. And for
the namespaces `UI` and `/UI`, which `operator/` gives the same path (no separator is
added before a right side that begins with `/`), the file written for `UI` is overwritten by
the one written for `/UI`, so the import loop merges into `UI` the batch decoded from
the CSV of `/UI`. -/
theorem C20_merge_invoked_twice :
    (ProcessSourceChangesForNamespaces (SampleEnvironment .Succeeded)
        ⟨some SampleTarget, TEXT "en"⟩ []
        [(TEXT "UI", [⟨TEXT "Play", TEXT "Go"⟩])]).map (fun r => r.2) =
      some [.FileSaved (TEXT "/P/Saved/Temp/GridlySourceChanges/Game/UI.csv")
          (TEXT "Key,SourceString\n\"Play\",\"Go\"\n"),
        .Merge ⟨TEXT "UI", [(TEXT "Play", TEXT "Go")]⟩,
        .Merge ⟨TEXT "UI", [(TEXT "Play", TEXT "Go")]⟩,
        .RunTasks [⟨TEXT "Gather Text", TEXT "Gather.ini", true⟩]] ∧
    CSVFilePath (SampleEnvironment .Succeeded) (TEXT "Game") (TEXT "/UI") =
      CSVFilePath (SampleEnvironment .Succeeded) (TEXT "Game") (TEXT "UI") ∧
    (ProcessSourceChangesForNamespaces (SampleEnvironment .Succeeded)
        ⟨some SampleTarget, TEXT "en"⟩ []
        [(TEXT "UI", [⟨TEXT "Play", TEXT "Go"⟩]),
          (TEXT "/UI", [⟨TEXT "Quit", TEXT "Bye"⟩])]).map (fun r => MergeCalls r.2) =
      some [⟨TEXT "UI", [(TEXT "Play", TEXT "Go")]⟩, ⟨TEXT "/UI", [(TEXT "Quit", TEXT "Bye")]⟩,
        ⟨TEXT "UI", [(TEXT "Quit", TEXT "Bye")]⟩, ⟨TEXT "/UI", [(TEXT "Quit", TEXT "Bye")]⟩] := by
  decide


/-! ## The legacy cells object, the decode loop, the field splitter and the cultures of
the import branch: properties C21 to C24 -/

/-- C21: legacy cells object. For every record whose `cells` field is a JSON object and
every native culture, with the tag `src_` followed by the culture without its hyphens:
when the member of that name exists and is itself an object, the parsed source text is
the `value` field of the member; when the member is missing, is null, or is not an
object, the parsed source text is the empty string. -/
theorem C21_legacy_cells_object (RecordObj CellsObj : FJsonObject) (Culture : FString)
    (hcells : RecordObj (TEXT "cells") = some (.Object CellsObj)) :
    SourceColumnIdOf Culture = TEXT "src_" ++ Culture.filter (fun c => decide (c ≠ '-')) ∧
    (∀ CellObj, CellsObj (SourceColumnIdOf Culture) = some (.Object CellObj) →
      (ParseRecord RecordObj Culture).2.SourceText = GetStringField CellObj (TEXT "value")) ∧
    (CellsObj (SourceColumnIdOf Culture) = none →
      (ParseRecord RecordObj Culture).2.SourceText = []) ∧
    (CellsObj (SourceColumnIdOf Culture) = some .Null →
      (ParseRecord RecordObj Culture).2.SourceText = []) ∧
    (∀ CellValue, CellsObj (SourceColumnIdOf Culture) = some CellValue →
      CellValue.Type ≠ .Object → (ParseRecord RecordObj Culture).2.SourceText = []) := by
  have hText : ReadSourceText RecordObj Culture =
      match CellsObj (SourceColumnIdOf Culture) with
      | some CellValue =>
        if !CellValue.IsNull then
          match CellValue.AsObject with
          | some CellObj => GetStringField CellObj (TEXT "value")
          | none => []
        else []
      | none => [] := by
    simp only [ReadSourceText, HasField, TryGetField, hcells, Option.isSome_some, if_true,
      FJsonValue.IsNull, Bool.not_false]
    cases h : CellsObj (SourceColumnIdOf Culture) <;> simp
  refine ⟨SourceColumnIdOf_eq Culture, ?_, ?_, ?_, ?_⟩
  · intro CellObj h
    simp [ParseRecord, hText, h, FJsonValue.IsNull, FJsonValue.AsObject,
      FJsonValue.TryGetObject]
  · intro h
    simp [ParseRecord, hText, h]
  · intro h
    simp [ParseRecord, hText, h, FJsonValue.IsNull]
  · intro CellValue h hType
    cases CellValue <;>
      simp_all [ParseRecord, FJsonValue.IsNull, FJsonValue.AsObject, FJsonValue.TryGetObject,
        FJsonValue.Type, FJsonValue.EmptyObject, GetStringField]

/-- C21, witness: the record `{"id":"UI,Title","cells":{"src_enUS":{"value":"Hello"},
"src_frFR":null,"src_deDE":"Hallo"}}` read for the cultures `en-US` (an object member),
`fr-FR` (a null member), `de-DE` (a string member) and `ja-JP` (no member). -/
theorem C21_legacy_cells_object_witness :
    (ParseRecord (MakeObject [(TEXT "id", .String (TEXT "UI,Title")),
        (TEXT "cells", .Object (MakeObject [
          (TEXT "src_enUS", .Object (MakeObject [(TEXT "value", .String (TEXT "Hello"))])),
          (TEXT "src_frFR", .Null), (TEXT "src_deDE", .String (TEXT "Hallo"))]))])
      (TEXT "en-US")).2.SourceText = TEXT "Hello" ∧
    (ParseRecord (MakeObject [(TEXT "id", .String (TEXT "UI,Title")),
        (TEXT "cells", .Object (MakeObject [
          (TEXT "src_enUS", .Object (MakeObject [(TEXT "value", .String (TEXT "Hello"))])),
          (TEXT "src_frFR", .Null), (TEXT "src_deDE", .String (TEXT "Hallo"))]))])
      (TEXT "fr-FR")).2.SourceText = [] ∧
    (ParseRecord (MakeObject [(TEXT "id", .String (TEXT "UI,Title")),
        (TEXT "cells", .Object (MakeObject [
          (TEXT "src_enUS", .Object (MakeObject [(TEXT "value", .String (TEXT "Hello"))])),
          (TEXT "src_frFR", .Null), (TEXT "src_deDE", .String (TEXT "Hallo"))]))])
      (TEXT "de-DE")).2.SourceText = [] ∧
    (ParseRecord (MakeObject [(TEXT "id", .String (TEXT "UI,Title")),
        (TEXT "cells", .Object (MakeObject [
          (TEXT "src_enUS", .Object (MakeObject [(TEXT "value", .String (TEXT "Hello"))])),
          (TEXT "src_frFR", .Null), (TEXT "src_deDE", .String (TEXT "Hallo"))]))])
      (TEXT "ja-JP")).2.SourceText = [] := by
  have hen := (C21_legacy_cells_object
    (MakeObject [(TEXT "id", .String (TEXT "UI,Title")),
        (TEXT "cells", .Object (MakeObject [
          (TEXT "src_enUS", .Object (MakeObject [(TEXT "value", .String (TEXT "Hello"))])),
          (TEXT "src_frFR", .Null), (TEXT "src_deDE", .String (TEXT "Hallo"))]))])
    (MakeObject [
          (TEXT "src_enUS", .Object (MakeObject [(TEXT "value", .String (TEXT "Hello"))])),
          (TEXT "src_frFR", .Null), (TEXT "src_deDE", .String (TEXT "Hallo"))])
    (TEXT "en-US") rfl).2.1
    (MakeObject [(TEXT "value", .String (TEXT "Hello"))]) rfl
  have hfr := (C21_legacy_cells_object
    (MakeObject [(TEXT "id", .String (TEXT "UI,Title")),
        (TEXT "cells", .Object (MakeObject [
          (TEXT "src_enUS", .Object (MakeObject [(TEXT "value", .String (TEXT "Hello"))])),
          (TEXT "src_frFR", .Null), (TEXT "src_deDE", .String (TEXT "Hallo"))]))])
    (MakeObject [
          (TEXT "src_enUS", .Object (MakeObject [(TEXT "value", .String (TEXT "Hello"))])),
          (TEXT "src_frFR", .Null), (TEXT "src_deDE", .String (TEXT "Hallo"))])
    (TEXT "fr-FR") rfl).2.2.2.1 rfl
  have hde := (C21_legacy_cells_object
    (MakeObject [(TEXT "id", .String (TEXT "UI,Title")),
        (TEXT "cells", .Object (MakeObject [
          (TEXT "src_enUS", .Object (MakeObject [(TEXT "value", .String (TEXT "Hello"))])),
          (TEXT "src_frFR", .Null), (TEXT "src_deDE", .String (TEXT "Hallo"))]))])
    (MakeObject [
          (TEXT "src_enUS", .Object (MakeObject [(TEXT "value", .String (TEXT "Hello"))])),
          (TEXT "src_frFR", .Null), (TEXT "src_deDE", .String (TEXT "Hallo"))])
    (TEXT "de-DE") rfl).2.2.2.2 (.String (TEXT "Hallo")) rfl (by decide)
  have hja := (C21_legacy_cells_object
    (MakeObject [(TEXT "id", .String (TEXT "UI,Title")),
        (TEXT "cells", .Object (MakeObject [
          (TEXT "src_enUS", .Object (MakeObject [(TEXT "value", .String (TEXT "Hello"))])),
          (TEXT "src_frFR", .Null), (TEXT "src_deDE", .String (TEXT "Hallo"))]))])
    (MakeObject [
          (TEXT "src_enUS", .Object (MakeObject [(TEXT "value", .String (TEXT "Hello"))])),
          (TEXT "src_frFR", .Null), (TEXT "src_deDE", .String (TEXT "Hallo"))])
    (TEXT "ja-JP") rfl).2.2.1 rfl
  exact ⟨hen.trans (by decide), hfr, hde, hja⟩

theorem TMap_Add_length {V : Type} (m : TMap V) (Key : FString) (Value : V) :
    m.length ≤ (m.Add Key Value).length ∧ (m.Add Key Value).length ≤ m.length + 1 ∧
      0 < (m.Add Key Value).length := by
  induction m with
  | nil => simp [TMap.Add]
  | cons p rest ih =>
    obtain ⟨k, v⟩ := p
    by_cases hk : Equals k Key = true
    · simp [TMap.Add, hk]
    · simp only [TMap.Add, hk, Bool.false_eq_true, if_false, List.length_cons]
      omega

theorem TMap_Add_mem {V : Type} (m : TMap V) (Key : FString) (Value : V) :
    ∀ p ∈ m.Add Key Value, p ∈ m ∨ p = (Key, Value) := by
  induction m with
  | nil => simp [TMap.Add]
  | cons q rest ih =>
    obtain ⟨k, v⟩ := q
    intro p hp
    by_cases hk : Equals k Key = true
    · simp only [TMap.Add, hk, if_true, List.mem_cons] at hp
      rcases hp with hp | hp
      · exact Or.inr hp
      · exact Or.inl (by simp [hp])
    · simp only [TMap.Add, hk, Bool.false_eq_true, if_false, List.mem_cons] at hp
      rcases hp with hp | hp
      · exact Or.inl (by simp [hp])
      · rcases ih p hp with h | h
        · exact Or.inl (by simp [h])
        · exact Or.inr h

theorem bRowAdds_iff (Line : FString) :
    bRowAdds Line = true ↔
      Line ≠ [] ∧ ∃ Field0 Field1 Rest, ParseCSVLine Line = Field0 :: Field1 :: Rest ∧
        TrimQuotes Field0 ≠ [] ∧ TrimQuotes Field1 ≠ [] := by
  unfold bRowAdds
  cases Line with
  | nil => simp
  | cons c cs =>
    rcases hP : ParseCSVLine (c :: cs) with _ | ⟨f0, _ | ⟨f1, rest⟩⟩
    · simp
    · simp
    · simp only [List.isEmpty_cons, Bool.not_false, Bool.true_and, Bool.and_eq_true,
        Bool.not_eq_true', List.isEmpty_eq_false, ne_eq, reduceCtorEq, not_false_eq_true,
        List.cons.injEq, true_and]
      constructor
      · intro h
        exact ⟨f0, f1, rest, ⟨rfl, rfl, rfl⟩, h.1, h.2⟩
      · rintro ⟨a, b, r, ⟨ha, hb, _⟩, h1, h2⟩
        subst ha; subst hb
        exact ⟨h1, h2⟩

theorem ImportCSVRow_skip (m : TMap FString) (Line : FString) (h : bRowAdds Line = false) :
    ImportCSVRow m Line = m := by
  unfold bRowAdds at h
  unfold ImportCSVRow
  cases Line with
  | nil => rfl
  | cons c cs =>
    rcases hP : ParseCSVLine (c :: cs) with _ | ⟨f0, _ | ⟨f1, rest⟩⟩
    · simp
    · simp
    · rw [hP] at h
      simp only [List.isEmpty_cons, Bool.not_false, Bool.true_and] at h
      simp [h]

theorem ImportCSVRow_add (m : TMap FString) (Line : FString) (h : bRowAdds Line = true) :
    ∃ Key Value, Key ≠ [] ∧ Value ≠ [] ∧ ImportCSVRow m Line = m.Add Key Value := by
  obtain ⟨h0, f0, f1, rest, hP, hk, hv⟩ := (bRowAdds_iff Line).mp h
  refine ⟨TrimQuotes f0, TrimQuotes f1, hk, hv, ?_⟩
  unfold ImportCSVRow
  cases Line with
  | nil => exact absurd rfl h0
  | cons c cs =>
    rw [hP]
    simp [List.isEmpty_iff, hk, hv]

theorem ImportCSVRow_length (m : TMap FString) (Line : FString) :
    m.length ≤ (ImportCSVRow m Line).length ∧
      (ImportCSVRow m Line).length ≤ m.length + (if bRowAdds Line then 1 else 0) ∧
      (bRowAdds Line = true → 0 < (ImportCSVRow m Line).length) := by
  cases h : bRowAdds Line with
  | false => simp [ImportCSVRow_skip m Line h]
  | true =>
    obtain ⟨Key, Value, _, _, e⟩ := ImportCSVRow_add m Line h
    rw [e]
    have := TMap_Add_length m Key Value
    simp only [if_true]
    exact ⟨this.1, this.2.1, fun _ => this.2.2⟩

theorem ImportCSVRow_entries (m : TMap FString) (Line : FString)
    (hm : ∀ p ∈ m, p.1 ≠ [] ∧ p.2 ≠ []) : ∀ p ∈ ImportCSVRow m Line, p.1 ≠ [] ∧ p.2 ≠ [] := by
  cases h : bRowAdds Line with
  | false => rw [ImportCSVRow_skip m Line h]; exact hm
  | true =>
    obtain ⟨Key, Value, hk, hv, e⟩ := ImportCSVRow_add m Line h
    rw [e]
    intro p hp
    rcases TMap_Add_mem m Key Value p hp with hp | hp
    · exact hm p hp
    · subst hp; exact ⟨hk, hv⟩

theorem foldl_ImportCSVRow_bounds (Rows : List FString) :
    ∀ m : TMap FString,
      m.length ≤ (Rows.foldl ImportCSVRow m).length ∧
      (Rows.foldl ImportCSVRow m).length ≤ m.length + (Rows.filter bRowAdds).length ∧
      ((∃ Line ∈ Rows, bRowAdds Line = true) → 0 < (Rows.foldl ImportCSVRow m).length) ∧
      ((∀ p ∈ m, p.1 ≠ [] ∧ p.2 ≠ []) →
        ∀ p ∈ Rows.foldl ImportCSVRow m, p.1 ≠ [] ∧ p.2 ≠ []) := by
  induction Rows with
  | nil => intro m; simp
  | cons Line Rest ih =>
    intro m
    have hL := ImportCSVRow_length m Line
    have hR := ih (ImportCSVRow m Line)
    simp only [List.foldl_cons]
    refine ⟨by omega, ?_, ?_, ?_⟩
    · cases h : bRowAdds Line with
      | false =>
        simp only [h, Bool.false_eq_true, if_false, Nat.add_zero] at hL
        simp only [List.filter_cons, h, Bool.false_eq_true, if_false]
        omega
      | true =>
        simp only [h, if_true] at hL
        simp only [List.filter_cons, h, if_true, List.length_cons]
        omega
    · rintro ⟨l, hl, hadd⟩
      simp only [List.mem_cons] at hl
      rcases hl with hl | hl
      · subst hl
        have := hL.2.2 hadd
        omega
      · exact hR.2.2.1 ⟨l, hl, hadd⟩
    · intro hm
      exact hR.2.2.2 (ImportCSVRow_entries m Line hm)

/-- C22: decode skipping. For every CSV text whose first line passes the header checks:
a data line changes the batch only when it is non-empty, `ParseCSVLine` splits it into
at least two fields and the first two fields are non-empty after `TrimQuotes`, and it
then adds at most one entry and removes none; a decoded batch is the result of the
data-line steps over the lines after the header, has at most as many entries as there
are such lines passing the test, and all its keys and values are non-empty; and when
at least one data line passes the test the decoding succeeds, whatever the other lines
are. -/
theorem C22_decode_skipping (Text HeaderLine : FString) (Rows : List FString)
    (hLines : LoadFileToStringArray Text = HeaderLine :: Rows)
    (hHeader : CheckCSVHeader HeaderLine = .ok ()) :
    (∀ Line, bRowAdds Line = true ↔
      Line ≠ [] ∧ ∃ Field0 Field1 Rest, ParseCSVLine Line = Field0 :: Field1 :: Rest ∧
        TrimQuotes Field0 ≠ [] ∧ TrimQuotes Field1 ≠ []) ∧
    (∀ (KeyValuePairs : TMap FString) (Line : FString),
      KeyValuePairs.length ≤ (ImportCSVRow KeyValuePairs Line).length ∧
      (ImportCSVRow KeyValuePairs Line).length ≤ KeyValuePairs.length + 1 ∧
      (ImportCSVRow KeyValuePairs Line ≠ KeyValuePairs → bRowAdds Line = true)) ∧
    (∀ KeyValuePairs, BuildKeyValuePairs (some Text) = .ok KeyValuePairs →
      KeyValuePairs = Rows.foldl ImportCSVRow [] ∧
      KeyValuePairs.length ≤ (Rows.filter bRowAdds).length ∧
      ∀ p ∈ KeyValuePairs, p.1 ≠ [] ∧ p.2 ≠ []) ∧
    ((∃ Line ∈ Rows, bRowAdds Line = true) →
      BuildKeyValuePairs (some Text) = .ok (Rows.foldl ImportCSVRow []) ∧
      Rows.foldl ImportCSVRow [] ≠ []) := by
  have hB := foldl_ImportCSVRow_bounds Rows []
  refine ⟨bRowAdds_iff, ?_, ?_, ?_⟩
  · intro m Line
    have hL := ImportCSVRow_length m Line
    refine ⟨hL.1, ?_, ?_⟩
    · have : (if bRowAdds Line = true then 1 else 0) ≤ 1 := by split <;> omega
      omega
    · intro hne
      cases h : bRowAdds Line with
      | false => exact absurd (ImportCSVRow_skip m Line h) hne
      | true => rfl
  · intro KeyValuePairs hOk
    cases Rows with
    | nil =>
      simp [BuildKeyValuePairs, hLines] at hOk
    | cons Row Rest =>
      simp only [BuildKeyValuePairs, hLines, hHeader] at hOk
      split at hOk
      · cases hOk
      · simp only [Except.ok.injEq] at hOk
        subst hOk
        refine ⟨rfl, ?_, hB.2.2.2 (by simp)⟩
        simpa using hB.2.1
  · intro hEx
    have hpos := hB.2.2.1 hEx
    have hne : Rows.foldl ImportCSVRow [] ≠ [] := by
      intro e
      rw [e] at hpos
      simp at hpos
    refine ⟨?_, hne⟩
    cases Rows with
    | nil =>
      obtain ⟨l, hl, _⟩ := hEx
      simp at hl
    | cons Row Rest =>
      simp only [BuildKeyValuePairs, hLines, hHeader]
      rw [if_neg (by omega)]

/-- C22, witness: the text with the header `Key,SourceString` and the data lines
`"a","1"`, an empty line, `bad`, `"","x"`, `"b",""` and `"c","3"`. The lines are read
as listed, the header is accepted, the decoding succeeds, and the batch holds the two
entries `a` and `c`: the four lines between them are skipped. -/
theorem C22_decode_skipping_witness :
    LoadFileToStringArray
        (TEXT "Key,SourceString\n\"a\",\"1\"\n\nbad\n\"\",\"x\"\n\"b\",\"\"\n\"c\",\"3\"\n") =
      [TEXT "Key,SourceString", TEXT "\"a\",\"1\"", TEXT "", TEXT "bad", TEXT "\"\",\"x\"",
        TEXT "\"b\",\"\"", TEXT "\"c\",\"3\""] ∧
    CheckCSVHeader (TEXT "Key,SourceString") = .ok () ∧
    BuildKeyValuePairs (some
        (TEXT "Key,SourceString\n\"a\",\"1\"\n\nbad\n\"\",\"x\"\n\"b\",\"\"\n\"c\",\"3\"\n")) =
      .ok [(TEXT "a", TEXT "1"), (TEXT "c", TEXT "3")] :=
  ⟨by decide, by decide,
    ((C22_decode_skipping
      (TEXT "Key,SourceString\n\"a\",\"1\"\n\nbad\n\"\",\"x\"\n\"b\",\"\"\n\"c\",\"3\"\n")
      (TEXT "Key,SourceString")
      [TEXT "\"a\",\"1\"", TEXT "", TEXT "bad", TEXT "\"\",\"x\"", TEXT "\"b\",\"\"",
        TEXT "\"c\",\"3\""]
      (by decide) (by decide)).2.2.2
        ⟨TEXT "\"c\",\"3\"", by decide, by decide⟩).1.trans (by decide)⟩

/-- C23: quote-aware field splitter. For every key without a double quote and every
value, `ParseCSVLine` applied to the line made of a quote, the key, the three characters
quote comma quote, the value with each of its quotes doubled, and a quote, returns
exactly the two fields key and value: the commas of the quoted fields do not separate
and each doubled quote gives one quote. That line is the one the encoder writes for the
record, before its line terminator, and when neither the key nor the value holds a line
break it is the data line `LoadFileToStringArray` reads back from the generated text. -/
theorem C23_quote_aware_splitter (Key Value : FString) (hk : '"' ∉ Key) :
    ParseCSVLine (TEXT "\"" ++ Key ++ TEXT "\",\"" ++
        Replace Value (TEXT "\"") (TEXT "\"\"") ++ TEXT "\"") = [Key, Value] ∧
    CSVRecordLine ⟨Key, Value⟩ =
      (TEXT "\"" ++ Key ++ TEXT "\",\"" ++ Replace Value (TEXT "\"") (TEXT "\"\"") ++ TEXT "\"")
        ++ TEXT "\n" ∧
    (NoLineBreak Key → NoLineBreak Value →
      LoadFileToStringArray (GenerateCSVContent [⟨Key, Value⟩]) =
        [TEXT "Key,SourceString",
          TEXT "\"" ++ Key ++ TEXT "\",\"" ++ Replace Value (TEXT "\"") (TEXT "\"\"") ++
            TEXT "\""]) := by
  have hline : TEXT "\"" ++ Key ++ TEXT "\",\"" ++ Replace Value (TEXT "\"") (TEXT "\"\"") ++
      TEXT "\"" = '"' :: Key ++ '"' :: ',' :: '"' :: DoubleQuotes Value ++ ['"'] := by
    have h1 : TEXT "\"" = ['"'] := rfl
    have h2 : TEXT "\",\"" = ['"', ',', '"'] := rfl
    rw [Replace_quote, h1, h2]
    simp
  refine ⟨?_, ?_, ?_⟩
  · rw [hline]
    exact ParseCSVLine_encoded Key Value hk
  · rw [hline]
    exact CSVRecordLine_eq ⟨Key, Value⟩
  · intro hKey hValue
    rw [hline, LoadFileToStringArray_generated [⟨Key, Value⟩] (by
      intro r hr
      simp only [List.mem_singleton] at hr
      subst hr
      exact ⟨hKey, hValue⟩)]
    rfl

/-- C23, witness: the key `UI,Title` and the value `say "hi", then go`, whose encoded
line is `"UI,Title","say ""hi"", then go"`. -/
theorem C23_quote_aware_splitter_witness :
    ParseCSVLine (TEXT "\"UI,Title\",\"say \"\"hi\"\", then go\"") =
      [TEXT "UI,Title", TEXT "say \"hi\", then go"] :=
  (C23_quote_aware_splitter (TEXT "UI,Title") (TEXT "say \"hi\", then go") (by decide)).1

theorem CulturesLoop_ne (NativeCultureIndex : Int) :
    ∀ (Stats : List FCultureStatistics) (ItCulture : Nat),
      (∀ i, i < Stats.length → ((ItCulture + i : Nat) : Int) ≠ NativeCultureIndex) →
      CulturesLoop NativeCultureIndex ItCulture Stats =
        Stats.map (fun CultureStats => CultureStats.CultureName) := by
  intro Stats
  induction Stats with
  | nil => intro ItCulture _; rfl
  | cons s rest ih =>
    intro ItCulture h
    have h0 : (ItCulture : Int) ≠ NativeCultureIndex := by
      have := h 0 (by simp)
      simpa using this
    have hr : ∀ i, i < rest.length → ((ItCulture + 1 + i : Nat) : Int) ≠ NativeCultureIndex := by
      intro i hi
      have := h (i + 1) (by simp [hi])
      have e : ItCulture + 1 + i = ItCulture + (i + 1) := by omega
      rw [e]
      exact this
    simp only [CulturesLoop, h0, ne_eq, not_false_eq_true, if_true, List.map_cons]
    rw [ih (ItCulture + 1) hr]

theorem CulturesLoop_eraseIdx (NativeCultureIndex : Int) :
    ∀ (Stats : List FCultureStatistics) (ItCulture k : Nat),
      NativeCultureIndex = ((ItCulture + k : Nat) : Int) →
      CulturesLoop NativeCultureIndex ItCulture Stats =
        (Stats.map (fun CultureStats => CultureStats.CultureName)).eraseIdx k := by
  intro Stats
  induction Stats with
  | nil => intro ItCulture k _; rfl
  | cons s rest ih =>
    intro ItCulture k h
    cases k with
    | zero =>
      have h0 : (ItCulture : Int) = NativeCultureIndex := by simp [h]
      simp only [CulturesLoop, h0, ne_eq, not_true_eq_false, if_false, List.map_cons,
        List.eraseIdx_cons_zero]
      apply CulturesLoop_ne
      intro i _
      rw [h]
      simp only [Nat.add_zero, ne_eq, Nat.cast_inj]
      omega
    | succ k =>
      have h0 : (ItCulture : Int) ≠ NativeCultureIndex := by
        rw [h]
        simp only [ne_eq, Nat.cast_inj]
        omega
      simp only [CulturesLoop, h0, ne_eq, not_false_eq_true, if_true, List.map_cons,
        List.eraseIdx_cons_succ]
      rw [ih (ItCulture + 1) k (by rw [h]; congr 1; omega)]

theorem RequestedCultures_requests (TargetName : FString) (Cultures : List FString)
    (Rest : List FEvent) :
    RequestedCultures (Cultures.map (FEvent.DownloadRequested TargetName) ++ Rest) =
      Cultures ++ RequestedCultures Rest := by
  induction Cultures with
  | nil => rfl
  | cons c cs ih => simp [RequestedCultures, ih]

/-- C24: cultures requested by the import branch. For every target, the cultures of the
download requests the import branch issues are, in order, the list the loop of lines
158-165 builds, and that list is the list of the names of the supported cultures with
the entry at the native-culture index removed: when the index is valid it is the list
of names with that one position erased, one element shorter, and when the index is out
of range (negative, or not less than the number of supported cultures) it is the whole
list of names. Every entry at an index other than the native one is in the list, whatever
its name. -/
theorem C24_import_cultures (Env : FEnvironment) (State : FRunState)
    (LocTarget : ULocalizationTarget) :
    (∀ r, ImportBranch Env State LocTarget = some r →
      RequestedCultures r.2 = CulturesOf LocTarget.Settings) ∧
    (IsValidIndex LocTarget.Settings.SupportedCulturesStatistics
        LocTarget.Settings.NativeCultureIndex = true →
      CulturesOf LocTarget.Settings =
        (SupportedCultureNames LocTarget.Settings).eraseIdx
          LocTarget.Settings.NativeCultureIndex.toNat ∧
      (CulturesOf LocTarget.Settings).length + 1 =
        (SupportedCultureNames LocTarget.Settings).length) ∧
    (IsValidIndex LocTarget.Settings.SupportedCulturesStatistics
        LocTarget.Settings.NativeCultureIndex = false →
      CulturesOf LocTarget.Settings = SupportedCultureNames LocTarget.Settings) ∧
    (∀ (i : Nat) (h : i < (SupportedCultureNames LocTarget.Settings).length),
      (i : Int) ≠ LocTarget.Settings.NativeCultureIndex →
      (SupportedCultureNames LocTarget.Settings).get ⟨i, h⟩ ∈ CulturesOf LocTarget.Settings) := by
  have hValid : IsValidIndex LocTarget.Settings.SupportedCulturesStatistics
        LocTarget.Settings.NativeCultureIndex = true →
      CulturesOf LocTarget.Settings =
        (SupportedCultureNames LocTarget.Settings).eraseIdx
          LocTarget.Settings.NativeCultureIndex.toNat := by
    intro hv
    simp only [IsValidIndex, Bool.and_eq_true, decide_eq_true_eq] at hv
    apply CulturesLoop_eraseIdx
    simp only [Nat.zero_add]
    omega
  have hInvalid : IsValidIndex LocTarget.Settings.SupportedCulturesStatistics
        LocTarget.Settings.NativeCultureIndex = false →
      CulturesOf LocTarget.Settings = SupportedCultureNames LocTarget.Settings := by
    intro hv
    simp only [IsValidIndex, Bool.and_eq_false_iff, decide_eq_false_iff_not] at hv
    apply CulturesLoop_ne
    intro i hi
    simp only [Nat.zero_add]
    omega
  refine ⟨?_, ?_, hInvalid, ?_⟩
  · intro r h
    unfold ImportBranch at h
    simp only at h
    split at h
    · cases h
    · split at h
      · simp only [Option.some.injEq] at h
        subst h
        simpa [RequestedCultures] using
          RequestedCultures_requests LocTarget.Settings.Name (CulturesOf LocTarget.Settings) []
      · split at h
        · cases h
        · split at h
          · cases h
          · rename_i Ran hRan
            simp only [Option.some.injEq] at h
            subst h
            simp only [RunTasks] at hRan
            split at hRan
            · simp only [Option.some.injEq] at hRan
              subst hRan
              simp only [RequestedCultures_requests]
              simp [RequestedCultures]
            · cases hRan
  · intro hv
    refine ⟨hValid hv, ?_⟩
    rw [hValid hv]
    simp only [IsValidIndex, Bool.and_eq_true, decide_eq_true_eq] at hv
    have hlen : LocTarget.Settings.NativeCultureIndex.toNat <
        (SupportedCultureNames LocTarget.Settings).length := by
      simp only [SupportedCultureNames, List.length_map]
      omega
    rw [List.length_eraseIdx, if_pos hlen]
    omega
  · intro i h hi
    cases hv : IsValidIndex LocTarget.Settings.SupportedCulturesStatistics
        LocTarget.Settings.NativeCultureIndex with
    | false =>
      rw [hInvalid hv]
      exact List.get_mem _ _ _
    | true =>
      rw [hValid hv]
      simp only [IsValidIndex, Bool.and_eq_true, decide_eq_true_eq] at hv
      have hne : i ≠ LocTarget.Settings.NativeCultureIndex.toNat := by omega
      rw [List.mem_iff_getElem]
      rcases Nat.lt_or_gt_of_ne hne with hlt | hgt
      · refine ⟨i, ?_, ?_⟩
        · rw [List.length_eraseIdx]; split <;> omega
        · rw [List.getElem_eraseIdx]
          simp [hlt]
      · refine ⟨i - 1, ?_, ?_⟩
        · rw [List.length_eraseIdx]; split <;> omega
        · rw [List.getElem_eraseIdx]
          have : ¬ i - 1 < LocTarget.Settings.NativeCultureIndex.toNat := by omega
          simp only [this, dite_false, List.get_eq_getElem]
          congr 1
          omega

/-- C24, witness: the target `Game` with the supported cultures `en`, `fr`, `en`. With
the native index 0 the import branch returns and requests `fr` and `en`, two cultures
out of three, the second `en` being kept; with the native index 3 or -1 all three are
requested. -/
theorem C24_import_cultures_witness :
    (∃ r, ImportBranch (SampleEnvironment .Succeeded) (InitialState [])
        ⟨⟨TEXT "Game", 0, [⟨TEXT "en"⟩, ⟨TEXT "fr"⟩, ⟨TEXT "en"⟩]⟩, false⟩ = some r ∧
      RequestedCultures r.2 = [TEXT "fr", TEXT "en"]) ∧
    (CulturesOf ⟨TEXT "Game", 0, [⟨TEXT "en"⟩, ⟨TEXT "fr"⟩, ⟨TEXT "en"⟩]⟩).length + 1 = 3 ∧
    TEXT "en" ∈ CulturesOf ⟨TEXT "Game", 0, [⟨TEXT "en"⟩, ⟨TEXT "fr"⟩, ⟨TEXT "en"⟩]⟩ ∧
    CulturesOf ⟨TEXT "Game", 3, [⟨TEXT "en"⟩, ⟨TEXT "fr"⟩, ⟨TEXT "en"⟩]⟩ =
      [TEXT "en", TEXT "fr", TEXT "en"] ∧
    CulturesOf ⟨TEXT "Game", -1, [⟨TEXT "en"⟩, ⟨TEXT "fr"⟩, ⟨TEXT "en"⟩]⟩ =
      [TEXT "en", TEXT "fr", TEXT "en"] := by
  have h0 := C24_import_cultures (SampleEnvironment .Succeeded) (InitialState [])
    ⟨⟨TEXT "Game", 0, [⟨TEXT "en"⟩, ⟨TEXT "fr"⟩, ⟨TEXT "en"⟩]⟩, false⟩
  have h3 := C24_import_cultures (SampleEnvironment .Succeeded) (InitialState [])
    ⟨⟨TEXT "Game", 3, [⟨TEXT "en"⟩, ⟨TEXT "fr"⟩, ⟨TEXT "en"⟩]⟩, false⟩
  have hm := C24_import_cultures (SampleEnvironment .Succeeded) (InitialState [])
    ⟨⟨TEXT "Game", -1, [⟨TEXT "en"⟩, ⟨TEXT "fr"⟩, ⟨TEXT "en"⟩]⟩, false⟩
  refine ⟨⟨(ImportBranch (SampleEnvironment .Succeeded) (InitialState [])
        ⟨⟨TEXT "Game", 0, [⟨TEXT "en"⟩, ⟨TEXT "fr"⟩, ⟨TEXT "en"⟩]⟩, false⟩).get (by decide),
      (Option.some_get _).symm, ?_⟩, ?_, ?_, ?_, ?_⟩
  · exact (h0.1 _ (Option.some_get _).symm).trans ((h0.2.1 (by decide)).1.trans (by decide))
  · exact (h0.2.1 (by decide)).2
  · exact h0.2.2.2 2 (by decide) (by decide)
  · exact (h3.2.2.1 (by decide)).trans (by decide)
  · exact (hm.2.2.1 (by decide)).trans (by decide)



end Gridly
